import Mathlib

/-!
# kinflate working sets: identity keys, codec and selector

A shallow embedding of `vendor/k8s.io/kubectl/pkg/kinflate/util/util.go`
(`Decode`, `Encode`, `SelectByGVK`, `mutateField`), of the `MapTransformer` of
`vendor/k8s.io/kubectl/pkg/kinflate/util/labelsandannotations.go` and of
`vendor/k8s.io/kubectl/pkg/kinflate/configmap_secret.go` (`populateMap`,
`populateConfigMapAndSecretMap` and the synthesis of ConfigMaps and Secrets),
and of `RunAddResource` of
`vendor/k8s.io/kubectl/pkg/kinflate/commands/addresource.go`.

Go maps are association lists with pairwise distinct keys; the position of an
entry in the list stands for the (unspecified) place at which `range` visits
it.  Functions that mutate a map through its reference return the new map.
Calls into libraries outside the repository (the YAML decoder, `yaml.Marshal`)
are parameters of the functions that use them; a decoder is described by the
documents it returns, each of which `UnmarshalJSON` has accepted, and the error
that ends them.  The file system, the source handlers and the hashes that
synthesis calls are the fields of a `World`.  The
hash of package `hash`, which is not among the source files, is modelled as a
digest of the sorted pairs of the data.
-/

namespace Kinflate

/-! ## Data model -/

/-- Go `interface{}` values as they occur inside an unstructured object. -/
inductive Value where
  | null : Value
  | bool (b : Bool) : Value
  | num (n : Int) : Value
  | str (s : String) : Value
  | list (items : List Value) : Value
  | map (fields : List (String × Value)) : Value

/-- The type `unstructured.Unstructured`: one field, `Object map[string]interface{}`. -/
structure Unstructured where
  Object : List (String × Value)

/-- The type `schema.GroupVersion`. -/
structure GroupVersion where
  Group : String
  Version : String
  deriving DecidableEq, Repr

/-- The type `schema.GroupVersionKind`. -/
structure GroupVersionKind where
  Group : String
  Version : String
  Kind : String
  deriving DecidableEq, Repr

/-- GroupVersionKindName contains GroupVersionKind and original name of the resource
(util.go, lines 33-39). -/
structure GroupVersionKindName where
  GVK : GroupVersionKind
  Name : String
  deriving DecidableEq, Repr

/-- Go `error` values that the embedded functions return or test for.  Of the errors
of `validateTLS`, `keyMissing` is "key must be specified", `certificateMissing` is
"certificate must be specified" and `loadKeyPair` is "failed to load key pair"
with the error of the library; `missingKind` is the error of
`runtime.NewMissingKindErrWithString`, "Object 'Kind' is missing in" the document. -/
inductive Error where
  | EOF : Error
  | decode (msg : String) : Error
  | unexpectedGroupVersion (gv : String) : Error
  | marshal (msg : String) : Error
  | duplicateName (name : String) (gvk : GroupVersionKind) : Error
  | expectedType : Error
  | primitiveType : Error
  | unknownType (what type : String) : Error
  | keyMissing : Error
  | certificateMissing : Error
  | loadKeyPair (msg : String) : Error
  | other (msg : String) : Error
  | notFound (path : String) : Error
  | alreadyInManifest (path : String) : Error
  | missingKind : Error
  deriving DecidableEq, Repr

/-- The type `map[GroupVersionKindName]*unstructured.Unstructured`. -/
abbrev WorkingSet := List (GroupVersionKindName × Unstructured)

/-! ## Go map operations on association lists -/

/-- The read `m[k]` with its `found` flag. -/
def mapGet {κ ν : Type} [DecidableEq κ] : List (κ × ν) → κ → Option ν
  | [], _ => none
  | (k', v) :: rest, k => if k' = k then some v else mapGet rest k

/-- The assignment `m[k] = v`: an existing entry is overwritten, a new one is added. -/
def mapSet {κ ν : Type} [DecidableEq κ] : List (κ × ν) → κ → ν → List (κ × ν)
  | [], k, v => [(k, v)]
  | (k', v') :: rest, k, v =>
    if k' = k then (k, v) :: rest else (k', v') :: mapSet rest k v

/-- The keys of a map, in the order `range` visits them. -/
def mapKeys {κ ν : Type} (m : List (κ × ν)) : List κ := m.map Prod.fst

/-! ## Library accessors of `*unstructured.Unstructured` -/

/-- The helper `getNestedString(obj, field)` for one field: the string stored
there, and the empty string when the field is absent or not a string. -/
def getString (obj : List (String × Value)) (field : String) : String :=
  match mapGet obj field with
  | some (Value.str s) => s
  | _ => ""

/-- The method `(*Unstructured).GetAPIVersion`: the string field `apiVersion`. -/
def Unstructured.GetAPIVersion (u : Unstructured) : String :=
  getString u.Object "apiVersion"

/-- The method `(*Unstructured).GetKind`: the string field `kind`. -/
def Unstructured.GetKind (u : Unstructured) : String :=
  getString u.Object "kind"

/-- The method `(*Unstructured).GetName`: the nested string field `metadata.name`,
empty when `metadata` is not a mapping or `name` is absent or not a string. -/
def Unstructured.GetName (u : Unstructured) : String :=
  match mapGet u.Object "metadata" with
  | some (Value.map md) => getString md "name"
  | _ => ""

/-- The method `(*Unstructured).SetName`, which sets the nested field
`metadata.name`: the name is stored in the mapping `metadata`, which is created
when the object has no `metadata`; when `metadata` holds a value that is not a
mapping the field cannot be set and the object is left as it is. -/
def Unstructured.SetName (u : Unstructured) (name : String) : Unstructured :=
  match mapGet u.Object "metadata" with
  | none =>
    { Object := mapSet u.Object "metadata" (Value.map [("name", Value.str name)]) }
  | some (Value.map md) =>
    { Object := mapSet u.Object "metadata" (Value.map (mapSet md "name" (Value.str name))) }
  | some _ => u

/-- The function `schema.ParseGroupVersion`: the empty string and "/" give the
empty group and version, a string without '/' is a version of the core group,
one '/' splits group from version, more than one '/' is an error. -/
def ParseGroupVersion (gv : String) : Except Error GroupVersion :=
  if gv.data = [] ∨ gv = "/" then Except.ok ⟨"", ""⟩
  else
    match gv.data.count '/' with
    | 0 => Except.ok ⟨"", gv⟩
    | 1 =>
      Except.ok ⟨String.mk (gv.data.takeWhile (fun c => c != '/')),
        String.mk ((gv.data.dropWhile (fun c => c != '/')).drop 1)⟩
    | _ => Except.error (Error.unexpectedGroupVersion gv)

/-- The method `GroupVersion.WithKind`. -/
def GroupVersion.WithKind (gv : GroupVersion) (kind : String) : GroupVersionKind :=
  ⟨gv.Group, gv.Version, kind⟩

/-- The method `(*Unstructured).GroupVersionKind`, reached in `populateMap` through
`obj.GetObjectKind().GroupVersionKind()`: the parsed `apiVersion` with the kind,
and the empty value when `apiVersion` does not parse. -/
def Unstructured.GroupVersionKind (u : Unstructured) : GroupVersionKind :=
  match ParseGroupVersion u.GetAPIVersion with
  | Except.error _ => ⟨"", "", ""⟩
  | Except.ok gv => gv.WithKind u.GetKind

/-- The method `GroupVersionKind.GroupVersion`. -/
def GroupVersionKind.GroupVersion (gvk : GroupVersionKind) : GroupVersion :=
  ⟨gvk.Group, gvk.Version⟩

/-- The method `GroupVersion.String`: empty for the empty value, the version for
"v1" of the core group (a special case in the library), "group/version" for a
group that is not empty, and the version alone otherwise. -/
def GroupVersion.String (gv : GroupVersion) : String :=
  if gv.Group.length = 0 ∧ gv.Version.length = 0 then ""
  else if gv.Group.length = 0 ∧ gv.Version = "v1" then gv.Version
  else if gv.Group.length > 0 then gv.Group ++ "/" ++ gv.Version
  else gv.Version

/-- The type `objectAccessor` of package `meta`, the type accessor of a
`runtime.Object`: it reads kind and apiVersion through `GroupVersionKind()`. -/
structure objectAccessor where
  obj : Unstructured

/-- The method `objectAccessor.GetKind`. -/
def objectAccessor.GetKind (a : objectAccessor) : String :=
  a.obj.GroupVersionKind.Kind

/-- The method `objectAccessor.GetAPIVersion`. -/
def objectAccessor.GetAPIVersion (a : objectAccessor) : String :=
  a.obj.GroupVersionKind.GroupVersion.String

/-- The method `(*Unstructured).UnmarshalJSON`, through which the decoder fills an
object from a document: `UnstructuredJSONScheme.Decode` stores the tree of the
document and returns the missing-kind error when the kind of `GroupVersionKind()`
is empty, that is for a document without kind and for a document whose
apiVersion does not parse.  Returns the error (`none` is nil). -/
def Unstructured.UnmarshalJSON (out : Unstructured) : Option Error :=
  if out.GroupVersionKind.Kind.length = 0 then some Error.missingKind else none

/-! ## SelectByGVK (util.go, lines 122-149) -/

/-- SelectByGVK returns true if `selector` selects `in`; otherwise, false.
A nil selector is `none`. -/
def SelectByGVK (inp : GroupVersionKind) (selector : Option GroupVersionKind) : Bool :=
  match selector with
  | none => true
  | some sel =>
    if sel.Group.length > 0 ∧ inp.Group ≠ sel.Group then false
    else if sel.Version.length > 0 ∧ inp.Version ≠ sel.Version then false
    else if sel.Kind.length > 0 ∧ inp.Kind ≠ sel.Kind then false
    else true

/-! ## Decode (util.go, lines 41-88) -/

/-- A `k8syaml.YAMLOrJSONDecoder` over some input, described by what its calls
of `Decode` return: the documents of `docs` one after the other, each of them
accepted by `UnmarshalJSON`, and from then on the error `err` (`io.EOF` at a
clean end of the input). -/
structure YAMLOrJSONDecoder where
  docs : List Unstructured
  err : Error
  accepted : ∀ d ∈ docs, d.UnmarshalJSON = none := by decide

/-- Whether `UnmarshalJSON` accepts the document. -/
def acceptedDoc (d : Unstructured) : Bool := d.UnmarshalJSON.isNone

/-- The decoder over an input whose documents have the trees `raw` and whose text
ends with `final`: it returns the documents before the first one that
`UnmarshalJSON` rejects and then the error of that one, and `final` when every
document is accepted. -/
def decoderOver (raw : List Unstructured) (final : Error) : YAMLOrJSONDecoder :=
  { docs := raw.takeWhile acceptedDoc,
    err :=
      match raw.dropWhile acceptedDoc with
      | [] => final
      | d :: _ => d.UnmarshalJSON.getD final,
    accepted := fun d hd => Option.isNone_iff_eq_none.1
      (show acceptedDoc d = true from List.mem_takeWhile_imp hd) }

/-- The first loop of `Decode` (lines 49-56): every decoded document is appended
to `objs` until a call of the decoder fails; returns `objs` and that error. -/
def readObjs : List Unstructured → Error → List Unstructured → List Unstructured × Error
  | [], err, objs => (objs, err)
  | out :: rest, err, objs => readObjs rest err (objs ++ [out])

/-- The function `meta.Accessor` on a `*unstructured.Unstructured`: the object
itself, never an error. -/
def Accessor (obj : Unstructured) : Except Error Unstructured := Except.ok obj

/-- The function `meta.TypeAccessor` on a `*unstructured.Unstructured`: the
`objectAccessor` of the object, never an error. -/
def TypeAccessor (obj : Unstructured) : Except Error objectAccessor := Except.ok ⟨obj⟩

/-- The body of the second loop of `Decode` up to the key (lines 65-84). -/
def decodeKey (obj : Unstructured) : Except Error GroupVersionKindName :=
  match Accessor obj with
  | Except.error e => Except.error e
  | Except.ok metaAccessor =>
    let name := metaAccessor.GetName
    match TypeAccessor obj with
    | Except.error e => Except.error e
    | Except.ok typeAccessor =>
      let apiVersion := typeAccessor.GetAPIVersion
      let kind := typeAccessor.GetKind
      match ParseGroupVersion apiVersion with
      | Except.error e => Except.error e
      | Except.ok gv => Except.ok { GVK := gv.WithKind kind, Name := name }

/-- The second loop of `Decode` (lines 64-86) on the map `into`: returns the
error of the first object whose key cannot be computed, if any, together with
the map as the loop leaves it. -/
def insertObjs : List Unstructured → WorkingSet → Option Error × WorkingSet
  | [], into => (none, into)
  | obj :: rest, into =>
    match decodeKey obj with
    | Except.error e => (some e, into)
    | Except.ok gvkn => insertObjs rest (mapSet into gvkn obj)

/-- What a call of `Decode` leaves behind: the returned map (`none` is nil), the
returned error (`none` is nil) and the map the argument `into` refers to after
the call (`none` when the argument was nil). -/
structure DecodeResult where
  ret : Option WorkingSet
  err : Option Error
  into : Option WorkingSet

/-- Decode decodes a list of objects in byte array format.  `newDecoder inp` is
the decoder `k8syaml.NewYAMLOrJSONDecoder(bytes.NewReader(in), 1024)`. -/
def Decode (newDecoder : String → YAMLOrJSONDecoder) (inp : String)
    (into : Option WorkingSet) : DecodeResult :=
  let decoder := newDecoder inp
  let (objs, err) := readObjs decoder.docs decoder.err []
  if err ≠ Error.EOF then { ret := none, err := some err, into := into }
  else
    match insertObjs objs (into.getD []) with
    | (some e, m) => { ret := none, err := some e, into := into.map (fun _ => m) }
    | (none, m) => { ret := some m, err := none, into := into.map (fun _ => m) }

/-! ## populateMap (configmap_secret.go, lines 35-50) -/

/-- What a call of `populateMap` leaves behind: the returned error, the map `m`
and the object `obj` after the call. -/
structure PopulateResult where
  err : Option Error
  m : WorkingSet
  obj : Unstructured

/-- The key `populateMap` checks and stores under (lines 40-42). -/
def populateKey (obj : Unstructured) : GroupVersionKindName :=
  { GVK := obj.GroupVersionKind, Name := obj.GetName }

/-- The function `populateMap`. -/
def populateMap (m : WorkingSet) (obj : Unstructured) (newName : String) : PopulateResult :=
  match Accessor obj with
  | Except.error e => { err := some e, m := m, obj := obj }
  | Except.ok accessor =>
    let oldName := accessor.GetName
    let gvk := obj.GroupVersionKind
    let gvkn : GroupVersionKindName := { GVK := gvk, Name := oldName }
    match mapGet m gvkn with
    | some _ => { err := some (Error.duplicateName oldName gvk), m := m, obj := obj }
    | none =>
      let renamed := accessor.SetName newName
      { err := none, m := mapSet m gvkn renamed, obj := renamed }

/-! ## Encode (util.go, lines 90-120) -/

/-- Go's `<` on strings: lexicographic comparison of the characters. -/
def stringLess (a b : String) : Bool := decide (a.data < b.data)

/-- Modelled from the spec: the order on type coordinates used by `ByGVKN`, which is
not among the source files; group, version and kind are compared in this order. -/
def gvkLess (a b : GroupVersionKind) : Bool :=
  if a.Group ≠ b.Group then stringLess a.Group b.Group
  else if a.Version ≠ b.Version then stringLess a.Version b.Version
  else stringLess a.Kind b.Kind

/-- Modelled from the spec: the method `ByGVKN.Less`; the type `ByGVKN` is used by
`Encode` but declared in none of the source files.  The spec orders keys "by type
coordinates first, then by name". -/
def ByGVKN.Less (a b : GroupVersionKindName) : Bool :=
  if a.GVK ≠ b.GVK then gvkLess a.GVK b.GVK else stringLess a.Name b.Name

/-- The call `sort.Sort(ByGVKN(l))`: the ascending arrangement of `l`, built by
inserting each key in front of the first key that is not less than it. -/
def sortByGVKN (l : List GroupVersionKindName) : List GroupVersionKindName :=
  l.insertionSort (fun a b => ByGVKN.Less b a = false)

/-- The loop of `Encode` (lines 101-118) over the sorted keys, with the flag
`firstObj` and the content of the buffer.  `marshal` is `yaml.Marshal` applied
to the pointer `in[gvkn]` (`none` is nil); writes to a `bytes.Buffer` return no
error. -/
def encodeLoop (marshal : Option Unstructured → Except Error String) (inp : WorkingSet) :
    List GroupVersionKindName → Bool → String → Except Error String
  | [], _, buf => Except.ok buf
  | gvkn :: rest, firstObj, buf =>
    let obj := mapGet inp gvkn
    match marshal obj with
    | Except.error e => Except.error e
    | Except.ok out =>
      let buf1 := if !firstObj then buf ++ "---\n" else buf
      encodeLoop marshal inp rest false (buf1 ++ out)

/-- Encode encodes the map `in` and output the encoded objects separated by `---`. -/
def Encode (marshal : Option Unstructured → Except Error String) (inp : WorkingSet) :
    Except Error String :=
  let gvknList := sortByGVKN (mapKeys inp)
  encodeLoop marshal inp gvknList true ""

/-! ## mutateField (util.go, lines 151-198) -/

/-- The type `map[string]interface{}`. -/
abbrev Fields := List (String × Value)

/-- The type `mutateFunc`: the returned value together with the returned error
(`none` is nil). -/
abbrev mutateFunc := Value → Value × Option Error

/-- The read `m[key]` of a `map[string]interface{}` without the `found` flag: nil
for an absent key. -/
def mapIndex (m : Fields) (key : String) : Value :=
  (mapGet m key).getD Value.null

/-- The loop over `fns` at the last path segment (lines 168-173): each result is
stored at the key before its error is tested. -/
def applyFns (m : Fields) (key : String) : List mutateFunc → Fields × Option Error
  | [] => (m, none)
  | fn :: fns =>
    let r := fn (mapIndex m key)
    let m1 := mapSet m key r.1
    match r.2 with
    | some err => (m1, some err)
    | none => applyFns m1 key fns

/-- The loop over the elements of a list (lines 183-193), with `recurse` the call
of `mutateField` on an element with the remaining path.  Returns the list as the
loop leaves it and the returned error. -/
def mutateItems (recurse : Fields → Fields × Option Error) :
    List Value → List Value × Option Error
  | [] => ([], none)
  | item :: rest =>
    match item with
    | Value.map typedItem =>
      let r := recurse typedItem
      match r.2 with
      | some err => (Value.map r.1 :: rest, some err)
      | none =>
        let rr := mutateItems recurse rest
        (Value.map r.1 :: rr.1, rr.2)
    | _ => (item :: rest, some Error.expectedType)

/-- The function `mutateField`: returns the mapping `m` as the call leaves it and
the returned error (`none` is nil). -/
def mutateField : Fields → List String → Bool → List mutateFunc → Fields × Option Error
  | m, [], _, _ => (m, none)
  | m, key :: rest, createIfNotPresent, fns =>
    let found := (mapGet m key).isSome
    if !found && !createIfNotPresent then (m, none)
    else
      let m1 := if found then m else mapSet m key (Value.map [])
      match rest with
      | [] => applyFns m1 key fns
      | _ :: _ =>
        match mapIndex m1 key with
        | Value.map typedV =>
          let r := mutateField typedV rest createIfNotPresent fns
          (mapSet m1 key (Value.map r.1), r.2)
        | Value.list typedV =>
          let r := mutateItems
            (fun typedItem => mutateField typedItem rest createIfNotPresent fns) typedV
          (mapSet m1 key (Value.list r.1), r.2)
        | _ => (m1, some Error.primitiveType)

/-! ## MapTransformer (labelsandannotations.go) -/

/-- Modelled from the spec: the type `PathConfig` is declared in none of the source
files; its fields are the three that `Transform` reads (the spec's fieldPath,
typeSelector and createIfAbsent), with a nil selector as `none`. -/
structure PathConfig where
  GroupVersionKind : Option GroupVersionKind
  Path : List String
  CreateIfNotPresent : Bool

/-- MapTransformer contains a map string->string and path configs. -/
structure MapTransformer where
  m : List (String × String)
  pathConfigs : List PathConfig

/-- The method `addMap`: every pair of the transformer is set in the mapping `in`;
a value that is not a mapping gives nil and an error. -/
def MapTransformer.addMap (o : MapTransformer) : mutateFunc :=
  fun inp =>
    match inp with
    | Value.map m =>
      (Value.map (o.m.foldl (fun acc kv => mapSet acc kv.1 (Value.str kv.2)) m), none)
    | _ => (Value.null, some Error.expectedType)

/-- The inner loop of `Transform` (lines 62-70) over the path configs, on the
content of one object stored under a key with type coordinates `gvk`. -/
def transformObject (o : MapTransformer) (gvk : GroupVersionKind) :
    Fields → List PathConfig → Fields × Option Error
  | objMap, [] => (objMap, none)
  | objMap, path :: rest =>
    if !SelectByGVK gvk path.GroupVersionKind then transformObject o gvk objMap rest
    else
      let r := mutateField objMap path.Path path.CreateIfNotPresent [o.addMap]
      match r.2 with
      | some err => (r.1, some err)
      | none => transformObject o gvk r.1 rest

/-- Transform apply each <key, value> pair in the MapTransformer to the fields
specified in MapTransformer.  Returns the working set as the call leaves it
and the returned error. -/
def MapTransformer.Transform (o : MapTransformer) : WorkingSet → WorkingSet × Option Error
  | [] => ([], none)
  | (gvkn, obj) :: rest =>
    let r := transformObject o gvkn.GVK obj.Object o.pathConfigs
    match r.2 with
    | some err => ((gvkn, { Object := r.1 }) :: rest, some err)
    | none =>
      let rr := MapTransformer.Transform o rest
      ((gvkn, { Object := r.1 }) :: rr.1, rr.2)

/-! ## Synthesis of ConfigMaps and Secrets (configmap_secret.go, lines 52-182) -/

/-- Modelled from the spec: the type `manifest.TLS` is declared in none of the source
files; its fields are the certificate and key file paths the source reads. -/
structure manifest.TLS where
  CertFile : String
  KeyFile : String

/-- Modelled from the spec: the type `manifest.ConfigMap` is declared in none of the
source files; a spec carries a type tag, a name prefix and the source fields of
the embedded `Generic` (literal pairs, file paths, env-file path). -/
structure manifest.ConfigMap where
  Type_ : String
  NamePrefix : String
  LiteralSources : List String
  FileSources : List String
  EnvSource : String

/-- Modelled from the spec: the type `manifest.Secret` is declared in none of the
source files; as `manifest.ConfigMap`, with the pointer `TLS` (`none` is nil). -/
structure manifest.Secret where
  Type_ : String
  NamePrefix : String
  LiteralSources : List String
  FileSources : List String
  EnvSource : String
  TLS : Option manifest.TLS

/-- Modelled from the spec: the type `manifest.Manifest` is declared in none of the
source files; of its fields the source reads the ConfigMap and Secret specs and the
list of resource files. -/
structure manifest.Manifest where
  Configmaps : List manifest.ConfigMap
  Secrets : List manifest.Secret
  Resources : List String := []

/-- The fields of `corev1.ConfigMap` that the source sets. -/
structure corev1.ConfigMap where
  APIVersion : String
  Kind : String
  Name : String
  Data : List (String × String)
  deriving DecidableEq

/-- The fields of `corev1.Secret` that the source sets; the values of `Data` are
byte slices. -/
structure corev1.Secret where
  APIVersion : String
  Kind : String
  Name : String
  Type_ : String
  Data : List (String × String)
  deriving DecidableEq

/-- A `runtime.Object` handed to `objectToUnstructured`. -/
inductive runtime.Object where
  | configMap (cm : corev1.ConfigMap) : runtime.Object
  | secret (s : corev1.Secret) : runtime.Object

/-- The result of running code that can end in a run-time panic. -/
inductive Exec (α : Type) where
  | done (a : α) : Exec α
  | panic (msg : String) : Exec α

/-- The file system and the functions of other packages that synthesis calls.  The
handlers of package `configmapandsecret` fill the data of the object they are
given and return an error or nil; the hashes are those of package `hash`. -/
structure World where
  ReadFile : String → Except Error String
  LoadX509KeyPair : String → String → Option String
  EncodeToString : String → String
  HandleConfigMapFromEnvFileSource : List (String × String) → String →
    List (String × String) × Option Error
  HandleConfigMapFromFileSources : List (String × String) → List String →
    List (String × String) × Option Error
  HandleConfigMapFromLiteralSources : List (String × String) → List String →
    List (String × String) × Option Error
  HandleFromEnvFileSource : List (String × String) → String →
    List (String × String) × Option Error
  HandleFromFileSources : List (String × String) → List String →
    List (String × String) × Option Error
  HandleFromLiteralSources : List (String × String) → List String →
    List (String × String) × Option Error
  ConfigMapHash : corev1.ConfigMap → Except Error String
  SecretHash : corev1.Secret → Except Error String

/-- The function `makeConfigMap`: the object and the error are both returned. -/
def makeConfigMap (w : World) (cm : manifest.ConfigMap) : corev1.ConfigMap × Option Error :=
  let corev1cm : corev1.ConfigMap :=
    { APIVersion := "v1", Kind := "ConfigMap", Name := cm.NamePrefix, Data := [] }
  if cm.Type_ = "env" then
    let r := w.HandleConfigMapFromEnvFileSource corev1cm.Data cm.EnvSource
    ({ corev1cm with Data := r.1 }, r.2)
  else if cm.Type_ = "file" then
    let r := w.HandleConfigMapFromFileSources corev1cm.Data cm.FileSources
    ({ corev1cm with Data := r.1 }, r.2)
  else if cm.Type_ = "literal" then
    let r := w.HandleConfigMapFromLiteralSources corev1cm.Data cm.LiteralSources
    ({ corev1cm with Data := r.1 }, r.2)
  else (corev1cm, some (Error.unknownType "configmap" cm.Type_))

/-- The function `validateTLS`. -/
def validateTLS (w : World) (cert key : String) : Option Error :=
  if key.length = 0 then some Error.keyMissing
  else if cert.length = 0 then some Error.certificateMissing
  else
    match w.LoadX509KeyPair cert key with
    | some msg => some (Error.loadKeyPair msg)
    | none => none

/-- The function `makeSecret`.  Reading `secret.TLS.CertFile` through a nil `TLS`
pointer is a run-time panic. -/
def makeSecret (w : World) (secret : manifest.Secret) :
    Exec (Option corev1.Secret × Option Error) :=
  let corev1secret : corev1.Secret :=
    { APIVersion := "v1", Kind := "Secret", Name := secret.NamePrefix, Type_ := "Opaque",
      Data := [] }
  if secret.Type_ = "tls" then
    match secret.TLS with
    | none => Exec.panic "invalid memory address or nil pointer dereference"
    | some tls =>
      match validateTLS w tls.CertFile tls.KeyFile with
      | some err => Exec.done (none, some err)
      | none =>
        match w.ReadFile tls.CertFile with
        | Except.error err => Exec.done (none, some err)
        | Except.ok tlsCrt =>
          match w.ReadFile tls.KeyFile with
          | Except.error err => Exec.done (none, some err)
          | Except.ok tlsKey =>
            Exec.done (some { corev1secret with
              Type_ := "kubernetes.io/tls",
              Data := mapSet (mapSet corev1secret.Data "tls.crt" tlsCrt) "tls.key" tlsKey },
              none)
  else if secret.Type_ = "env" then
    let r := w.HandleFromEnvFileSource corev1secret.Data secret.EnvSource
    Exec.done (some { corev1secret with Data := r.1 }, r.2)
  else if secret.Type_ = "file" then
    let r := w.HandleFromFileSources corev1secret.Data secret.FileSources
    Exec.done (some { corev1secret with Data := r.1 }, r.2)
  else if secret.Type_ = "literal" then
    let r := w.HandleFromLiteralSources corev1secret.Data secret.LiteralSources
    Exec.done (some { corev1secret with Data := r.1 }, r.2)
  else Exec.done (some corev1secret, some (Error.unknownType "secret" secret.Type_))

/-- The `metadata` of a marshalled object: the name is left out when empty, the
creation timestamp is null (as in `makeUnstructuredEnvConfigMap` of the tests). -/
def metadataFields (name : String) : Fields :=
  (if name = "" then [] else [("name", Value.str name)]) ++ [("creationTimestamp", Value.null)]

/-- The `data` entry of a marshalled object, left out when there is no data. -/
def dataFields (data : List (String × String)) : Fields :=
  if data = [] then []
  else [("data", Value.map (data.map (fun kv => (kv.1, Value.str kv.2))))]

/-- The function `objectToUnstructured`: `json.Marshal` followed by `UnmarshalJSON`.
The object it returns is never nil; the error is nil for an object with a kind. -/
def objectToUnstructured (w : World) (inp : runtime.Object) : Unstructured × Option Error :=
  match inp with
  | runtime.Object.configMap cm =>
    ({ Object := [("apiVersion", Value.str cm.APIVersion), ("kind", Value.str cm.Kind),
        ("metadata", Value.map (metadataFields cm.Name))] ++ dataFields cm.Data }, none)
  | runtime.Object.secret s =>
    ({ Object := [("apiVersion", Value.str s.APIVersion), ("kind", Value.str s.Kind),
        ("metadata", Value.map (metadataFields s.Name)), ("type", Value.str s.Type_)] ++
        dataFields (s.Data.map (fun kv => (kv.1, w.EncodeToString kv.2))) }, none)

/-- The function `makeConfigmapAndGenerateName`; `Except.error` stands for the
returns with a non-nil error. -/
def makeConfigmapAndGenerateName (w : World) (cm : manifest.ConfigMap) :
    Except Error (Unstructured × String) :=
  match makeConfigMap w cm with
  | (_, some err) => Except.error err
  | (corev1CM, none) =>
    match w.ConfigMapHash corev1CM with
    | Except.error err => Except.error err
    | Except.ok h =>
      let nameWithHash := corev1CM.Name ++ "-" ++ h
      match objectToUnstructured w (runtime.Object.configMap corev1CM) with
      | (_, some err) => Except.error err
      | (unstructuredCM, none) => Except.ok (unstructuredCM, nameWithHash)

/-- The function `makeSecretAndGenerateName`.  A nil secret with a nil error, which
`makeSecret` never returns, would be dereferenced by `hash.SecretHash`. -/
def makeSecretAndGenerateName (w : World) (secret : manifest.Secret) :
    Exec (Except Error (Unstructured × String)) :=
  match makeSecret w secret with
  | Exec.panic msg => Exec.panic msg
  | Exec.done (_, some err) => Exec.done (Except.error err)
  | Exec.done (none, none) => Exec.panic "invalid memory address or nil pointer dereference"
  | Exec.done (some corev1Secret, none) =>
    match w.SecretHash corev1Secret with
    | Except.error err => Exec.done (Except.error err)
    | Except.ok h =>
      let nameWithHash := corev1Secret.Name ++ "-" ++ h
      match objectToUnstructured w (runtime.Object.secret corev1Secret) with
      | (_, some err) => Exec.done (Except.error err)
      | (unstructuredCM, none) => Exec.done (Except.ok (unstructuredCM, nameWithHash))

/-- The first loop of `populateConfigMapAndSecretMap` (lines 53-62): the map as the
loop leaves it and the error it returns, if any. -/
def populateConfigmaps (w : World) : List manifest.ConfigMap → WorkingSet →
    WorkingSet × Option Error
  | [], m => (m, none)
  | cm :: rest, m =>
    match makeConfigmapAndGenerateName w cm with
    | Except.error err => (m, some err)
    | Except.ok (unstructuredConfigMap, nameWithHash) =>
      let r := populateMap m unstructuredConfigMap nameWithHash
      match r.err with
      | some err => (r.m, some err)
      | none => populateConfigmaps w rest r.m

/-- The second loop of `populateConfigMapAndSecretMap` (lines 64-73). -/
def populateSecrets (w : World) : List manifest.Secret → WorkingSet →
    WorkingSet × Exec (Option Error)
  | [], m => (m, Exec.done none)
  | secret :: rest, m =>
    match makeSecretAndGenerateName w secret with
    | Exec.panic msg => (m, Exec.panic msg)
    | Exec.done (Except.error err) => (m, Exec.done (some err))
    | Exec.done (Except.ok (unstructuredSecret, nameWithHash)) =>
      let r := populateMap m unstructuredSecret nameWithHash
      match r.err with
      | some err => (r.m, Exec.done (some err))
      | none => populateSecrets w rest r.m

/-- The function `populateConfigMapAndSecretMap`: the map `m` as the call leaves it
and how the call ends. -/
def populateConfigMapAndSecretMap (w : World) (manifest : manifest.Manifest)
    (m : WorkingSet) : WorkingSet × Exec (Option Error) :=
  match populateConfigmaps w manifest.Configmaps m with
  | (m1, some err) => (m1, Exec.done (some err))
  | (m1, none) => populateSecrets w manifest.Secrets m1

/-- The method `GroupVersionKind.String`, the rendering under the verb %s. -/
def GroupVersionKind.String (gvk : GroupVersionKind) : String :=
  gvk.Group ++ "/" ++ gvk.Version ++ ", Kind=" ++ gvk.Kind

/-- The text of the error `populateMap` returns (line 45); `quote` is the rendering
of a string under the verb %q. -/
def duplicateNameText (quote : String → String) (oldName : String)
    (gvk : GroupVersionKind) : String :=
  "cannot use a duplicate name " ++ quote oldName ++ " for " ++ gvk.String

/-! ## The hash of synthesized objects -/

/-- The order in which key/value pairs are sorted: by key, then by value. -/
def pairLess (a b : String × String) : Bool :=
  if a.1 ≠ b.1 then stringLess a.1 b.1 else stringLess a.2 b.2

/-- The key/value pairs of a data mapping in ascending order. -/
def sortPairs (data : List (String × String)) : List (String × String) :=
  data.insertionSort (fun a b => pairLess b a = false)

/-- Modelled from the spec: the function `hash.ConfigMapHash` of package `hash`, which
is not among the source files.  The spec asks for "a stable hash over the sorted
key/value pairs"; `digest` is that hash function, applied to the sorted pairs of
the data. -/
def hash.ConfigMapHash (digest : List (String × String) → String) (cm : corev1.ConfigMap) :
    Except Error String :=
  Except.ok (digest (sortPairs cm.Data))

/-- Modelled from the spec: the function `hash.SecretHash` of package `hash`, which is
not among the source files; as `hash.ConfigMapHash`, over the sorted pairs of the
data of the Secret. -/
def hash.SecretHash (digest : List (String × String) → String) (s : corev1.Secret) :
    Except Error String :=
  Except.ok (digest (sortPairs s.Data))

/-! ## addresource (commands/addresource.go) -/

/-- Modelled from the spec: the file system of package `fs`, which is not among the
source files, as the capability of the spec: `stat`, `readFile` (fails when the
file is missing) and `writeFile`, over the contents of the files by path. -/
structure FileSystem where
  files : List (String × String)

/-- The method `Stat`: nil when the file exists. -/
def FileSystem.Stat (fsys : FileSystem) (path : String) : Option Error :=
  match mapGet fsys.files path with
  | some _ => none
  | none => some (Error.notFound path)

/-- The method `ReadFile`. -/
def FileSystem.ReadFile (fsys : FileSystem) (path : String) : Except Error String :=
  match mapGet fsys.files path with
  | some content => Except.ok content
  | none => Except.error (Error.notFound path)

/-- The method `WriteFile`: the file system after the write and the returned error. -/
def FileSystem.WriteFile (fsys : FileSystem) (path : String) (bytes : String) :
    FileSystem × Option Error :=
  ({ files := mapSet fsys.files path bytes }, none)

/-- The type `addResourceOptions`. -/
structure addResourceOptions where
  resourceFilePath : String

/-- The function `stringInSlice`. -/
def stringInSlice (str : String) : List String → Bool
  | [] => false
  | v :: list => if v = str then true else stringInSlice str list

/-- RunAddResource runs addResource command (do real work).  `Unmarshal` and `Marshal`
are `yaml.Unmarshal` into a manifest and `yaml.Marshal`, `KubeManifestFileName` is
the constant of package `kinflate`.  Returns the error and the file system
after the call. -/
def RunAddResource (Unmarshal : String → Except Error manifest.Manifest)
    (Marshal : manifest.Manifest → Except Error String) (KubeManifestFileName : String)
    (o : addResourceOptions) (fsys : FileSystem) : Option Error × FileSystem :=
  match fsys.Stat o.resourceFilePath with
  | some err => (some err, fsys)
  | none =>
    match fsys.ReadFile KubeManifestFileName with
    | Except.error err => (some err, fsys)
    | Except.ok content =>
      match Unmarshal content with
      | Except.error err => (some err, fsys)
      | Except.ok m =>
        if stringInSlice o.resourceFilePath m.Resources then
          (some (Error.alreadyInManifest o.resourceFilePath), fsys)
        else
          let m1 := { m with Resources := m.Resources ++ [o.resourceFilePath] }
          match Marshal m1 with
          | Except.error err => (some err, fsys)
          | Except.ok bytes =>
            match fsys.WriteFile KubeManifestFileName bytes with
            | (fsys1, some err) => (some err, fsys1)
            | (fsys1, none) => (none, fsys1)

/-- The text of the error of line 108. -/
def alreadyInManifestText (path : String) : String :=
  "resource " ++ path ++ " already in manifest"

/-! ## Auxiliary notions for the statements -/

/-- The key as a tuple in the lexicographic order of its four strings. -/
def gvknTuple (a : GroupVersionKindName) : String ×ₗ String ×ₗ String ×ₗ String :=
  toLex (a.GVK.Group, toLex (a.GVK.Version, toLex (a.GVK.Kind, a.Name)))

/-- The non-strict order by which `sortByGVKN` inserts. -/
def NotAfter (a b : GroupVersionKindName) : Prop := ByGVKN.Less b a = false

/-- Whether `Decode` computes the key `k` for the object `d`. -/
def identityIs (k : GroupVersionKindName) (d : Unstructured) : Bool :=
  match decodeKey d with
  | Except.ok k' => decide (k' = k)
  | Except.error _ => false

/-- The outcome of following a path of keys through nested mappings. -/
inductive Lookup where
  | absent : Lookup
  | found (v : Value) : Lookup
  | blocked : Lookup

/-- The value at a path of mapping keys from the mapping `m`: `absent` when a key of
the path is missing from the mapping it is looked up in, `blocked` when a value
before the end of the path is not a mapping, and the value reached otherwise
(`m` itself for the empty path). -/
def fieldAt : Fields → List String → Lookup
  | m, [] => Lookup.found (Value.map m)
  | m, key :: rest =>
    match mapGet m key with
    | none => Lookup.absent
    | some v =>
      match rest with
      | [] => Lookup.found v
      | _ :: _ =>
        match v with
        | Value.map sub => fieldAt sub rest
        | _ => Lookup.blocked

/-- Two paths diverge when they differ at a position that both of them have, that is
when neither continues the other. -/
def diverge : List String → List String → Prop
  | a :: q, b :: p => a ≠ b ∨ diverge q p
  | _, _ => False

/-- The key under which a ConfigMap synthesized from a spec with name prefix `p` is
stored. -/
def configMapKey (p : String) : GroupVersionKindName :=
  { GVK := { Group := "", Version := "v1", Kind := "ConfigMap" }, Name := p }

/-- The key under which a Secret synthesized from a spec with name prefix `p` is
stored. -/
def secretKey (p : String) : GroupVersionKindName :=
  { GVK := { Group := "", Version := "v1", Kind := "Secret" }, Name := p }

/-- The entry of the working set for a ConfigMap spec: the object converted from the
synthesized ConfigMap and renamed to prefix, "-" and hash `h`, under the key with
the prefix. -/
def configMapEntry (w : World) (cm : manifest.ConfigMap) (h : String) :
    GroupVersionKindName × Unstructured :=
  (configMapKey cm.NamePrefix,
    (objectToUnstructured w (runtime.Object.configMap (makeConfigMap w cm).1)).1.SetName
      (cm.NamePrefix ++ "-" ++ h))

/-- The entry of the working set for a Secret spec whose synthesized Secret is
`s`, with hash `h`. -/
def secretEntry (w : World) (secret : manifest.Secret) (s : corev1.Secret) (h : String) :
    GroupVersionKindName × Unstructured :=
  (secretKey secret.NamePrefix,
    (objectToUnstructured w (runtime.Object.secret s)).1.SetName
      (secret.NamePrefix ++ "-" ++ h))

/-- The path configs of a transformer that select the type coordinates `gvk`. -/
def selectedConfigs (o : MapTransformer) (gvk : GroupVersionKind) : List PathConfig :=
  o.pathConfigs.filter (fun pc => SelectByGVK gvk pc.GroupVersionKind)

/-- Whether the path `p` continues the path `q` beyond its end, that is whether `q`
is a proper prefix of `p`. -/
def extendsPath : List String → List String → Bool
  | [], _ => false
  | _ :: _, [] => true
  | a :: p, b :: q => decide (a = b) && extendsPath p q

/-- What `mutateField`, with the addMap of `o`, makes of the value `v` it finds at
the first key of a path, where `rest` is the path after that key: the value at
the key after the call and the returned error. -/
def stepAt (o : MapTransformer) (rest : List String) (c : Bool) (v : Value) :
    Value × Option Error :=
  match rest with
  | [] => o.addMap v
  | _ :: _ =>
    match v with
    | Value.map typedV =>
      (Value.map (mutateField typedV rest c [o.addMap]).1,
        (mutateField typedV rest c [o.addMap]).2)
    | Value.list typedV =>
      (Value.list
          (mutateItems (fun typedItem => mutateField typedItem rest c [o.addMap]) typedV).1,
        (mutateItems (fun typedItem => mutateField typedItem rest c [o.addMap]) typedV).2)
    | _ => (v, some Error.primitiveType)

/-! ## Example objects -/

/-- A ConfigMap of the core group with the given name and one data entry. -/
def exampleConfigMap (name note : String) : Unstructured :=
  { Object := [("apiVersion", Value.str "v1"), ("kind", Value.str "ConfigMap"),
      ("metadata", Value.map [("name", Value.str name)]),
      ("data", Value.map [("note", Value.str note)])] }

/-- A Deployment of group `apps` with the given name. -/
def exampleDeployment (name : String) : Unstructured :=
  { Object := [("apiVersion", Value.str "apps/v1"), ("kind", Value.str "Deployment"),
      ("metadata", Value.map [("name", Value.str name)])] }

/-- The key of `exampleConfigMap name note`. -/
def exampleConfigMapKey (name : String) : GroupVersionKindName :=
  { GVK := { Group := "", Version := "v1", Kind := "ConfigMap" }, Name := name }

/-- The key of `exampleDeployment name`. -/
def exampleDeploymentKey (name : String) : GroupVersionKindName :=
  { GVK := { Group := "apps", Version := "v1", Kind := "Deployment" }, Name := name }

/-- A stand-in for the text `yaml.Marshal` produces: kind and name of the object. -/
def exampleDoc (obj : Option Unstructured) : String :=
  match obj with
  | none => "null\n"
  | some u => "kind: " ++ u.GetKind ++ "\nname: " ++ u.GetName ++ "\n"

/-- A marshaller that always succeeds, with `exampleDoc`. -/
def exampleMarshal (obj : Option Unstructured) : Except Error String :=
  Except.ok (exampleDoc obj)

/-- A working set of two ConfigMaps and a Deployment. -/
def exampleSet : WorkingSet :=
  [(exampleDeploymentKey "web", exampleDeployment "web"),
   (exampleConfigMapKey "b", exampleConfigMap "b" "x"),
   (exampleConfigMapKey "a", exampleConfigMap "a" "y")]

/-- A ConfigMap document without `metadata`. -/
def exampleNameless : Unstructured :=
  { Object := [("apiVersion", Value.str "v1"), ("kind", Value.str "ConfigMap")] }

/-- A ConfigMap document whose `metadata` is a string. -/
def exampleOddMetadata : Unstructured :=
  { Object := [("apiVersion", Value.str "v1"), ("kind", Value.str "ConfigMap"),
      ("metadata", Value.str "none")] }

/-- A decoder constructor whose inputs all hold documents with the given trees and
end cleanly. -/
def exampleStream (docs : List Unstructured) : String → YAMLOrJSONDecoder :=
  fun _ => decoderOver docs Error.EOF

/-- A Service of the core group with the given name. -/
def exampleService (name : String) : Unstructured :=
  { Object := [("apiVersion", Value.str "v1"), ("kind", Value.str "Service"),
      ("metadata", Value.map [("name", Value.str name)])] }

/-- The key of `exampleService name`. -/
def exampleServiceKey (name : String) : GroupVersionKindName :=
  { GVK := { Group := "", Version := "v1", Kind := "Service" }, Name := name }

/-- A transformer that merges `tier: backend` into `metadata.labels` of Services. -/
def exampleLabels : MapTransformer :=
  { m := [("tier", "backend")],
    pathConfigs := [{ GroupVersionKind := some { Group := "", Version := "", Kind := "Service" },
                      Path := ["metadata", "labels"], CreateIfNotPresent := true }] }

/-- The env file of the tests, `app.env`. -/
def exampleEnvFile : String := "examples/simple/instances/exampleinstance/configmap/app.env"

/-- The data of `app.env` as the tests expect it. -/
def exampleEnvData : List (String × String) :=
  [("DB_USERNAME", "admin"), ("DB_PASSWORD", "somepw")]

/-- An env-file handler that knows `app.env` only. -/
def exampleEnvHandler (data : List (String × String)) (path : String) :
    List (String × String) × Option Error :=
  if path = exampleEnvFile then
    (exampleEnvData.foldl (fun acc kv => mapSet acc kv.1 kv.2) data, none)
  else (data, some (Error.other "no such file or directory"))

/-- A literal source `key=value` split at its first `=`. -/
def exampleLiteral (source : String) : Option (String × String) :=
  if '=' ∈ source.data then
    some (String.mk (source.data.takeWhile (fun c => c != '=')),
      String.mk ((source.data.dropWhile (fun c => c != '=')).drop 1))
  else none

/-- A handler of literal sources: each pair is set in the data, a source without
`=` is an error. -/
def exampleLiteralHandler : List (String × String) → List String →
    List (String × String) × Option Error
  | data, [] => (data, none)
  | data, source :: rest =>
    match exampleLiteral source with
    | none => (data, some (Error.other "invalid literal source, expected key=value"))
    | some (k, v) => exampleLiteralHandler (mapSet data k v) rest

/-- A world for the examples: the env file of the tests, literal sources, no other
file; the hashes are those the test `TestPopulateMapOfConfigMapAndSecret` expects
for the data of `app.env` and a fixed text for other data. -/
def exampleWorld : World :=
  { ReadFile := fun _ => Except.error (Error.other "no such file or directory"),
    LoadX509KeyPair := fun _ _ => some "no such file or directory",
    EncodeToString := fun s =>
      if s = "admin" then "YWRtaW4=" else if s = "somepw" then "c29tZXB3" else s,
    HandleConfigMapFromEnvFileSource := exampleEnvHandler,
    HandleConfigMapFromFileSources := fun data _ =>
      (data, some (Error.other "no such file or directory")),
    HandleConfigMapFromLiteralSources := exampleLiteralHandler,
    HandleFromEnvFileSource := exampleEnvHandler,
    HandleFromFileSources := fun data _ =>
      (data, some (Error.other "no such file or directory")),
    HandleFromLiteralSources := exampleLiteralHandler,
    ConfigMapHash := fun cm =>
      if cm.Data = exampleEnvData then Except.ok "d2c89bt4kk" else Except.ok "0000000000",
    SecretHash := fun s =>
      if s.Data = exampleEnvData then Except.ok "684h2mm268" else Except.ok "0000000000" }

/-- A ConfigMap spec with literal sources. -/
def exampleLiteralSpec (name : String) (sources : List String) : manifest.ConfigMap :=
  { Type_ := "literal", NamePrefix := name, LiteralSources := sources, FileSources := [],
    EnvSource := "" }

/-- The manifest of the test `TestPopulateMapOfConfigMapAndSecret`. -/
def exampleManifest : manifest.Manifest :=
  { Configmaps := [{ Type_ := "env", NamePrefix := "envConfigMap", LiteralSources := [],
                     FileSources := [], EnvSource := exampleEnvFile }],
    Secrets := [{ Type_ := "env", NamePrefix := "envSecret", LiteralSources := [],
                  FileSources := [], EnvSource := exampleEnvFile, TLS := none }] }

/-- A TLS Secret spec. -/
def exampleTLSSpec (name : String) (tls : Option manifest.TLS) : manifest.Secret :=
  { Type_ := "tls", NamePrefix := name, LiteralSources := [], FileSources := [],
    EnvSource := "", TLS := tls }

/-- A stand-in for `yaml.Unmarshal` into a manifest: the lines of the file are the
resources. -/
def exampleUnmarshal (content : String) : Except Error manifest.Manifest :=
  Except.ok { Configmaps := [], Secrets := [],
              Resources := (content.data.splitOn '\n').dropLast.map String.mk }

/-- A stand-in for `yaml.Marshal` of a manifest: one line for each resource. -/
def exampleMarshal2 (m : manifest.Manifest) : Except Error String :=
  Except.ok (String.join (m.Resources.map (fun r => r ++ "\n")))

/-- The file system of the tests of addresource: a resource file and a manifest that
lists `deployment.yaml`. -/
def exampleFS : FileSystem :=
  { files := [("myWonderfulResource.yaml", "kind: Service\n"),
              ("Kube-manifest.yaml", "deployment.yaml\n")] }

/-- The characters of a text, each after a dot, closed by a semicolon and followed by
`rest`. -/
def encodeChars : List Char → List Char → List Char
  | [], rest => ';' :: rest
  | c :: cs, rest => '.' :: c :: encodeChars cs rest

/-- The keys and values of the pairs written out one after the other. -/
def encodePairs : List (String × String) → List Char
  | [] => []
  | kv :: rest => encodeChars kv.1.data (encodeChars kv.2.data (encodePairs rest))

/-- A stand-in for the digest of the hash that has no collisions: it writes out the
pairs. -/
def exampleDigest (pairs : List (String × String)) : String :=
  String.mk (encodePairs pairs)

/-- The world of the examples with the hash taken over `exampleDigest`. -/
def exampleHashWorld : World :=
  { exampleWorld with
    ConfigMapHash := hash.ConfigMapHash exampleDigest,
    SecretHash := hash.SecretHash exampleDigest }

/-- A transformer with two path configs for every type: the first overrides the
label `tier` where it is present, the second merges `tier: backend` into
`metadata.labels`, created when absent. -/
def exampleOverlap : MapTransformer :=
  { m := [("tier", "backend")],
    pathConfigs := [{ GroupVersionKind := none, Path := ["metadata", "labels", "tier"],
                      CreateIfNotPresent := false },
                    { GroupVersionKind := none, Path := ["metadata", "labels"],
                      CreateIfNotPresent := true }] }

/-- A transformer that merges `tier: backend` into the labels of every resource and
into the labels of the pod template of a Deployment, both created when absent. -/
def exampleDiverging : MapTransformer :=
  { m := [("tier", "backend")],
    pathConfigs := [{ GroupVersionKind := none, Path := ["metadata", "labels"],
                      CreateIfNotPresent := true },
                    { GroupVersionKind := some { Group := "", Version := "",
                                                 Kind := "Deployment" },
                      Path := ["spec", "template", "metadata", "labels"],
                      CreateIfNotPresent := true }] }

/-- A document with apiVersion, kind and `metadata.name` only. -/
def exampleTriple (apiVersion kind name : String) : Unstructured :=
  { Object := [("apiVersion", Value.str apiVersion), ("kind", Value.str kind),
      ("metadata", Value.map [("name", Value.str name)])] }

/-- A ConfigMap document without `apiVersion`. -/
def exampleVersionless : Unstructured :=
  { Object := [("kind", Value.str "ConfigMap"),
      ("metadata", Value.map [("name", Value.str "a")])] }

/-- The three strings of a document of the shape of `exampleTriple`. -/
def tripleOf (u : Unstructured) : Option (String × String × String) :=
  match u.Object with
  | [(f1, Value.str a), (f2, Value.str k), (f3, Value.map [(f4, Value.str n)])] =>
    if f1 = "apiVersion" ∧ f2 = "kind" ∧ f3 = "metadata" ∧ f4 = "name" then some (a, k, n)
    else none
  | _ => none

/-- Reads a text written by `encodeChars` from the front of the characters: the text
and the characters after it. -/
def decodeChars : List Char → Option (List Char × List Char)
  | [] => none
  | [c] => if c = ';' then some ([], []) else none
  | c :: d :: rest =>
    if c = ';' then some ([], d :: rest)
    else if c = '.' then (decodeChars rest).map (fun r => (d :: r.1, r.2))
    else none

/-- A stand-in for `yaml.Marshal` that writes the documents of the shape of
`exampleTriple`, as their three strings, and fails on every other argument. -/
def codecMarshal (obj : Option Unstructured) : Except Error String :=
  match obj with
  | none => Except.error (Error.marshal "unsupported document")
  | some u =>
    match tripleOf u with
    | some (a, k, n) =>
      Except.ok (String.mk (encodeChars a.data (encodeChars k.data (encodeChars n.data []))))
    | none => Except.error (Error.marshal "unsupported document")

/-- The decoder constructor for the texts of `codecMarshal`: the decoder over the
one document written there, and a decoder that fails at once on other input. -/
def codecDecoder (inp : String) : YAMLOrJSONDecoder :=
  match decodeChars inp.data with
  | none => decoderOver [] (Error.decode "cannot unmarshal")
  | some (a, r1) =>
    match decodeChars r1 with
    | none => decoderOver [] (Error.decode "cannot unmarshal")
    | some (k, r2) =>
      match decodeChars r2 with
      | some (n, []) =>
        decoderOver [exampleTriple (String.mk a) (String.mk k) (String.mk n)] Error.EOF
      | _ => decoderOver [] (Error.decode "cannot unmarshal")

/-! # Theorems -/

theorem string_length_pos_iff (s : String) : s.length > 0 ↔ s ≠ "" := by
  rcases s with ⟨l⟩
  cases l with
  | nil => simp [String.length]
  | cons c cs =>
    simp [String.length]
    intro h
    have := congrArg String.data h
    simp at this

theorem SelectByGVK_some (i sel : GroupVersionKind) :
    SelectByGVK i (some sel) = true ↔
      (sel.Group = "" ∨ sel.Group = i.Group) ∧
      (sel.Version = "" ∨ sel.Version = i.Version) ∧
      (sel.Kind = "" ∨ sel.Kind = i.Kind) := by
  simp only [SelectByGVK, string_length_pos_iff]
  by_cases hg : sel.Group = ""
  · by_cases hv : sel.Version = ""
    · by_cases hk : sel.Kind = ""
      · simp [hg, hv, hk]
      · by_cases hk2 : i.Kind = sel.Kind
        · simp [hg, hv, hk, hk2]
        · have : ¬ sel.Kind = i.Kind := fun h => hk2 h.symm
          simp [hg, hv, hk, hk2, this]
    · by_cases hv2 : i.Version = sel.Version
      · by_cases hk : sel.Kind = ""
        · simp [hg, hv, hk, hv2]
        · by_cases hk2 : i.Kind = sel.Kind
          · simp [hg, hv, hk, hk2, hv2]
          · have : ¬ sel.Kind = i.Kind := fun h => hk2 h.symm
            simp [hg, hv, hk, hk2, this, hv2]
      · have : ¬ sel.Version = i.Version := fun h => hv2 h.symm
        simp [hg, hv, hv2, this]
  · by_cases hg2 : i.Group = sel.Group
    · by_cases hv : sel.Version = ""
      · by_cases hk : sel.Kind = ""
        · simp [hg, hv, hk, hg2]
        · by_cases hk2 : i.Kind = sel.Kind
          · simp [hg, hv, hk, hk2, hg2]
          · have : ¬ sel.Kind = i.Kind := fun h => hk2 h.symm
            simp [hg, hv, hk, hk2, this, hg2]
      · by_cases hv2 : i.Version = sel.Version
        · by_cases hk : sel.Kind = ""
          · simp [hg, hv, hk, hv2, hg2]
          · by_cases hk2 : i.Kind = sel.Kind
            · simp [hg, hv, hk, hk2, hv2, hg2]
            · have : ¬ sel.Kind = i.Kind := fun h => hk2 h.symm
              simp [hg, hv, hk, hk2, this, hv2, hg2]
        · have : ¬ sel.Version = i.Version := fun h => hv2 h.symm
          simp [hg, hv, hv2, this, hg2]
    · have : ¬ sel.Group = i.Group := fun h => hg2 h.symm
      simp [hg, hg2, this]

/-- C10: SelectByGVK is true exactly when the selector is nil or each of its
fields Group, Version and Kind is empty or equal to the field of the candidate.
A nil selector, the all-empty selector and the candidate itself select every
candidate, a selector with only Kind set selects that kind in every group and
version, and a selector of group "apps" does not select a candidate of group
"extensions". -/
theorem SelectByGVK_spec (inp : GroupVersionKind) (selector : Option GroupVersionKind) :
    (SelectByGVK inp selector = true ↔
      (selector = none ∨ ∃ sel, selector = some sel ∧
        (sel.Group = "" ∨ sel.Group = inp.Group) ∧
        (sel.Version = "" ∨ sel.Version = inp.Version) ∧
        (sel.Kind = "" ∨ sel.Kind = inp.Kind))) ∧
    SelectByGVK inp none = true ∧
    SelectByGVK inp (some ⟨"", "", ""⟩) = true ∧
    SelectByGVK inp (some inp) = true ∧
    (∀ kind : String, SelectByGVK ⟨inp.Group, inp.Version, kind⟩ (some ⟨"", "", kind⟩) = true) ∧
    (∀ v k : String, SelectByGVK ⟨"extensions", inp.Version, inp.Kind⟩ (some ⟨"apps", v, k⟩) = false) := by
  refine ⟨?_, rfl, ?_, ?_, ?_, ?_⟩
  · cases selector with
    | none => simp [SelectByGVK]
    | some sel => simp [SelectByGVK_some]
  · exact (SelectByGVK_some _ _).2 ⟨Or.inl rfl, Or.inl rfl, Or.inl rfl⟩
  · exact (SelectByGVK_some _ _).2 ⟨Or.inr rfl, Or.inr rfl, Or.inr rfl⟩
  · intro kind
    exact (SelectByGVK_some _ _).2 ⟨Or.inl rfl, Or.inl rfl, Or.inr rfl⟩
  · intro v k
    cases h : SelectByGVK ⟨"extensions", inp.Version, inp.Kind⟩ (some ⟨"apps", v, k⟩) with
    | false => rfl
    | true =>
      rcases (SelectByGVK_some _ _).1 h with ⟨h2, -, -⟩
      rcases h2 with h2 | h2
      · exact absurd (show "apps" = "" from h2) (by decide)
      · exact absurd (show "apps" = "extensions" from h2) (by decide)

theorem stringLess_iff (a b : String) : stringLess a b = true ↔ a < b := by
  simp [stringLess, String.lt_iff_toList_lt]

theorem gvknTuple_injective : Function.Injective gvknTuple := by
  intro a b h
  rcases a with ⟨⟨g, v, k⟩, n⟩
  rcases b with ⟨⟨g', v', k'⟩, n'⟩
  simp only [gvknTuple] at h
  have h1 := congrArg (fun t => (ofLex t).1) h
  have h2 := congrArg (fun t => (ofLex (ofLex t).2).1) h
  have h3 := congrArg (fun t => (ofLex (ofLex (ofLex t).2).2).1) h
  have h4 := congrArg (fun t => (ofLex (ofLex (ofLex t).2).2).2) h
  simp at h1 h2 h3 h4
  subst h1 h2 h3 h4
  rfl

theorem Less_iff_tuple (a b : GroupVersionKindName) :
    ByGVKN.Less a b = true ↔ gvknTuple a < gvknTuple b := by
  rcases a with ⟨⟨g, v, k⟩, n⟩
  rcases b with ⟨⟨g', v', k'⟩, n'⟩
  simp only [gvknTuple, Prod.Lex.lt_iff, ByGVKN.Less, gvkLess]
  by_cases hg : g = g'
  · subst hg
    by_cases hv : v = v'
    · subst hv
      by_cases hk : k = k'
      · subst hk
        simp [stringLess_iff]
      · simp [stringLess_iff, hk]
    · simp [stringLess_iff, hv]
  · simp [stringLess_iff, hg]

theorem Less_irrefl (a : GroupVersionKindName) : ByGVKN.Less a a = false := by
  cases h : ByGVKN.Less a a with
  | false => rfl
  | true => exact absurd ((Less_iff_tuple a a).1 h) (lt_irrefl _)

theorem Less_trans {a b c : GroupVersionKindName}
    (hab : ByGVKN.Less a b = true) (hbc : ByGVKN.Less b c = true) : ByGVKN.Less a c = true :=
  (Less_iff_tuple a c).2 (lt_trans ((Less_iff_tuple a b).1 hab) ((Less_iff_tuple b c).1 hbc))

theorem Less_asymm {a b : GroupVersionKindName}
    (hab : ByGVKN.Less a b = true) : ByGVKN.Less b a = false := by
  cases h : ByGVKN.Less b a with
  | false => rfl
  | true => exact absurd (Less_trans hab h) (by simp [Less_irrefl])

theorem Less_total {a b : GroupVersionKindName} (hne : a ≠ b) :
    ByGVKN.Less a b = true ∨ ByGVKN.Less b a = true := by
  rcases lt_trichotomy (gvknTuple a) (gvknTuple b) with h | h | h
  · exact Or.inl ((Less_iff_tuple a b).2 h)
  · exact absurd (gvknTuple_injective h) hne
  · exact Or.inr ((Less_iff_tuple b a).2 h)

theorem NotAfter_iff (a b : GroupVersionKindName) : NotAfter a b ↔ gvknTuple a ≤ gvknTuple b := by
  unfold NotAfter
  rw [← not_lt, ← Less_iff_tuple]
  simp

instance : IsTotal GroupVersionKindName NotAfter :=
  ⟨fun a b => by simp only [NotAfter_iff]; exact le_total _ _⟩

instance : IsTrans GroupVersionKindName NotAfter :=
  ⟨fun a b c => by simp only [NotAfter_iff]; exact le_trans⟩

instance : IsAntisymm GroupVersionKindName NotAfter :=
  ⟨fun a b => by
    simp only [NotAfter_iff]
    exact fun h1 h2 => gvknTuple_injective (le_antisymm h1 h2)⟩

instance : DecidableRel NotAfter := fun a b => by unfold NotAfter; infer_instance

theorem sortByGVKN_eq (l : List GroupVersionKindName) :
    sortByGVKN l = l.insertionSort NotAfter := rfl

theorem sortByGVKN_perm (l : List GroupVersionKindName) : (sortByGVKN l).Perm l := by
  rw [sortByGVKN_eq]; exact List.perm_insertionSort _ l

theorem sortByGVKN_sorted (l : List GroupVersionKindName) :
    List.Pairwise NotAfter (sortByGVKN l) := by
  rw [sortByGVKN_eq]; exact List.sorted_insertionSort _ l

theorem sortByGVKN_congr {l₁ l₂ : List GroupVersionKindName} (h : l₁.Perm l₂) :
    sortByGVKN l₁ = sortByGVKN l₂ :=
  List.eq_of_perm_of_sorted
    (((sortByGVKN_perm l₁).trans h).trans (sortByGVKN_perm l₂).symm)
    (sortByGVKN_sorted l₁) (sortByGVKN_sorted l₂)

/-- The ascending arrangement of a list of keys is unique, so `sortByGVKN` stands for
every sorting algorithm driven by `ByGVKN.Less`. -/
theorem sortByGVKN_unique (l sorted : List GroupVersionKindName) (hp : sorted.Perm l)
    (hs : List.Pairwise NotAfter sorted) : sorted = sortByGVKN l :=
  List.eq_of_perm_of_sorted (hp.trans (sortByGVKN_perm l).symm) hs (sortByGVKN_sorted l)

theorem sortByGVKN_strict {l : List GroupVersionKindName} (hnd : l.Nodup) :
    List.Pairwise (fun a b => ByGVKN.Less a b = true) (sortByGVKN l) := by
  have h1 := sortByGVKN_sorted l
  have h2 : (sortByGVKN l).Nodup := (sortByGVKN_perm l).nodup_iff.2 hnd
  have h3 := List.Pairwise.and h1 h2
  refine h3.imp ?_
  intro a b hab
  rcases Less_total hab.2 with h | h
  · exact h
  · have : ByGVKN.Less b a = false := hab.1
    rw [this] at h; cases h

/-! ### Maps -/

theorem mapGet_mapSet_self {κ ν : Type} [DecidableEq κ] (m : List (κ × ν)) (k : κ) (v : ν) :
    mapGet (mapSet m k v) k = some v := by
  induction m with
  | nil => simp [mapSet, mapGet]
  | cons p rest ih =>
    rcases p with ⟨k', v'⟩
    by_cases h : k' = k
    · simp [mapSet, mapGet, h]
    · simp [mapSet, mapGet, h, ih]

theorem mapGet_mapSet_ne {κ ν : Type} [DecidableEq κ] (m : List (κ × ν)) (k k₂ : κ) (v : ν)
    (hne : k ≠ k₂) : mapGet (mapSet m k v) k₂ = mapGet m k₂ := by
  induction m with
  | nil => simp [mapSet, mapGet, hne]
  | cons p rest ih =>
    rcases p with ⟨k', v'⟩
    by_cases h : k' = k
    · subst h
      simp [mapSet, mapGet, hne]
    · by_cases h2 : k' = k₂
      · subst h2
        simp [mapSet, mapGet, h]
      · simp [mapSet, mapGet, h, h2, ih]

theorem mapGet_eq_none_iff {κ ν : Type} [DecidableEq κ] (m : List (κ × ν)) (k : κ) :
    mapGet m k = none ↔ k ∉ mapKeys m := by
  induction m with
  | nil => simp [mapGet, mapKeys]
  | cons p rest ih =>
    rcases p with ⟨k', v'⟩
    by_cases h : k' = k
    · simp [mapGet, mapKeys, h]
    · have h' : ¬ k = k' := fun e => h e.symm
      simp only [mapKeys] at ih
      simp [mapGet, mapKeys, h, h', ih]

theorem mapKeys_mapSet {κ ν : Type} [DecidableEq κ] (m : List (κ × ν)) (k : κ) (v : ν) :
    mapKeys (mapSet m k v) = if k ∈ mapKeys m then mapKeys m else mapKeys m ++ [k] := by
  induction m with
  | nil => simp [mapSet, mapKeys]
  | cons p rest ih =>
    rcases p with ⟨k', v'⟩
    by_cases h : k' = k
    · subst h
      simp [mapSet, mapKeys]
    · have h' : ¬ k = k' := fun e => h e.symm
      simp only [mapKeys] at ih
      simp only [mapSet, mapKeys, h, if_false, List.map_cons, ih, List.mem_cons, h', false_or]
      split <;> simp

theorem mapKeys_mapSet_nodup {κ ν : Type} [DecidableEq κ] (m : List (κ × ν)) (k : κ) (v : ν)
    (hnd : (mapKeys m).Nodup) : (mapKeys (mapSet m k v)).Nodup := by
  rw [mapKeys_mapSet]
  split
  · exact hnd
  · rename_i h
    exact List.Nodup.append hnd (List.nodup_singleton k) (by simpa using h)

theorem mapGet_perm {κ ν : Type} [DecidableEq κ] {m₁ m₂ : List (κ × ν)} (hp : m₁.Perm m₂)
    (hnd : (mapKeys m₁).Nodup) (k : κ) : mapGet m₁ k = mapGet m₂ k := by
  induction hp with
  | nil => rfl
  | cons x _ ih =>
    rcases x with ⟨k', v'⟩
    simp only [mapKeys, List.map_cons, List.nodup_cons] at hnd
    simp only [mapGet]
    rw [ih hnd.2]
  | swap x y l =>
    rcases x with ⟨kx, vx⟩
    rcases y with ⟨ky, vy⟩
    simp only [mapKeys, List.map_cons, List.nodup_cons, List.mem_cons] at hnd
    simp only [mapGet]
    by_cases h1 : ky = k
    · by_cases h2 : kx = k
      · exact absurd (h1.trans h2.symm) (fun e => hnd.1 (Or.inl e))
      · simp [h1, h2]
    · by_cases h2 : kx = k
      · simp [h1, h2]
      · simp [h1, h2]
  | trans h₁ _ ih₁ ih₂ =>
    rw [ih₁ hnd, ih₂ ((h₁.map Prod.fst).nodup_iff.1 hnd)]

/-! ### Encode -/

theorem string_join_cons (a : String) (l : List String) :
    String.join (a :: l) = a ++ String.join l := by
  apply String.ext
  simp [String.data_join]

theorem encodeLoop_congr (marshal : Option Unstructured → Except Error String)
    {in₁ in₂ : WorkingSet} (h : ∀ k, mapGet in₁ k = mapGet in₂ k)
    (ks : List GroupVersionKindName) (firstObj : Bool) (buf : String) :
    encodeLoop marshal in₁ ks firstObj buf = encodeLoop marshal in₂ ks firstObj buf := by
  induction ks generalizing firstObj buf with
  | nil => rfl
  | cons k rest ih =>
    simp only [encodeLoop, h k]
    cases marshal (mapGet in₂ k) with
    | error e => rfl
    | ok out => exact ih _ _

theorem encodeLoop_rest (marshal : Option Unstructured → Except Error String) (inp : WorkingSet)
    (ser : GroupVersionKindName → String) (ks : List GroupVersionKindName)
    (hser : ∀ k ∈ ks, marshal (mapGet inp k) = Except.ok (ser k)) (buf : String) :
    encodeLoop marshal inp ks false buf =
      Except.ok (buf ++ String.join (ks.map (fun k => "---\n" ++ ser k))) := by
  induction ks generalizing buf with
  | nil =>
    simp only [encodeLoop, List.map_nil]
    congr 1
    apply String.ext
    simp [String.data_join]
  | cons k rest ih =>
    have hk := hser k (List.mem_cons_self _ _)
    simp only [encodeLoop, hk, List.map_cons, string_join_cons]
    rw [ih (fun k' hk' => hser k' (List.mem_cons_of_mem _ hk'))]
    congr 1
    apply String.ext
    simp [String.data_join, List.append_assoc]

theorem encodeLoop_first (marshal : Option Unstructured → Except Error String) (inp : WorkingSet)
    (ser : GroupVersionKindName → String) (ks : List GroupVersionKindName)
    (hser : ∀ k ∈ ks, marshal (mapGet inp k) = Except.ok (ser k)) :
    encodeLoop marshal inp ks true "" =
      Except.ok (match ks.map ser with
        | [] => ""
        | d :: ds => d ++ String.join (ds.map (fun x => "---\n" ++ x))) := by
  cases ks with
  | nil => rfl
  | cons k rest =>
    have hk := hser k (List.mem_cons_self _ _)
    simp only [encodeLoop, hk, List.map_cons]
    rw [encodeLoop_rest marshal inp ser rest (fun k' hk' => hser k' (List.mem_cons_of_mem _ hk'))]
    congr 1
    apply String.ext
    simp [String.data_join, List.map_map, Function.comp_def]

/-- C4: Encode does not depend on the order in which the keys of the map are
enumerated: two enumerations of the same working set (association lists that are
permutations of each other, with pairwise distinct keys) give the same result,
byte for byte. -/
theorem Encode_enumeration_independent (marshal : Option Unstructured → Except Error String)
    (in₁ in₂ : WorkingSet) (hperm : in₁.Perm in₂) (hnd : (mapKeys in₁).Nodup) :
    Encode marshal in₁ = Encode marshal in₂ := by
  unfold Encode
  have hk : sortByGVKN (mapKeys in₁) = sortByGVKN (mapKeys in₂) :=
    sortByGVKN_congr (hperm.map Prod.fst)
  simp only [hk]
  exact encodeLoop_congr marshal (mapGet_perm hperm hnd) _ _ _

/-- Witness of C4: `exampleSet` and its reversed enumeration encode alike. -/
theorem Encode_enumeration_independent_witness :
    (mapKeys exampleSet).Nodup ∧
    Encode exampleMarshal exampleSet = Encode exampleMarshal exampleSet.reverse :=
  ⟨by decide,
    Encode_enumeration_independent exampleMarshal exampleSet exampleSet.reverse
      (List.reverse_perm exampleSet).symm (by decide)⟩

/-- C5: the documents in the output of Encode follow the ascending order of their
keys: the keys are visited in an arrangement of the key set that is strictly
ascending for `ByGVKN.Less`, which compares group, version and kind first and the
name only for equal type coordinates, and which is total: of two distinct keys
one is less than the other. -/
theorem Encode_ascending (marshal : Option Unstructured → Except Error String)
    (inp : WorkingSet) (ser : GroupVersionKindName → String)
    (hnd : (mapKeys inp).Nodup)
    (hser : ∀ k ∈ mapKeys inp, marshal (mapGet inp k) = Except.ok (ser k)) :
    (∃ order : List GroupVersionKindName,
      order.Perm (mapKeys inp) ∧
      List.Pairwise (fun a b => ByGVKN.Less a b = true) order ∧
      Encode marshal inp = Except.ok (match order.map ser with
        | [] => ""
        | d :: ds => d ++ String.join (ds.map (fun x => "---\n" ++ x)))) ∧
    (∀ a b : GroupVersionKindName, a.GVK ≠ b.GVK →
      (ByGVKN.Less a b = true ↔
        a.GVK.Group < b.GVK.Group ∨ (a.GVK.Group = b.GVK.Group ∧
          (a.GVK.Version < b.GVK.Version ∨ (a.GVK.Version = b.GVK.Version ∧
            a.GVK.Kind < b.GVK.Kind))))) ∧
    (∀ a b : GroupVersionKindName, a.GVK = b.GVK →
      (ByGVKN.Less a b = true ↔ a.Name < b.Name)) ∧
    (∀ a b : GroupVersionKindName, a ≠ b → ByGVKN.Less a b = true ∨ ByGVKN.Less b a = true) ∧
    (∀ a b : GroupVersionKindName, ByGVKN.Less a b = true → ByGVKN.Less b a = false) := by
  refine ⟨⟨sortByGVKN (mapKeys inp), sortByGVKN_perm _, sortByGVKN_strict hnd, ?_⟩,
    ?_, ?_, fun a b h => Less_total h, fun a b h => Less_asymm h⟩
  · exact encodeLoop_first marshal inp ser _
      (fun k hk => hser k ((sortByGVKN_perm _).mem_iff.1 hk))
  · intro a b hne
    rw [Less_iff_tuple]
    rcases a with ⟨⟨g, v, k⟩, n⟩
    rcases b with ⟨⟨g', v', k'⟩, n'⟩
    simp only [gvknTuple, Prod.Lex.lt_iff]
    constructor
    · rintro (h | ⟨h1, h | ⟨h2, h | ⟨h3, -⟩⟩⟩)
      · exact Or.inl h
      · exact Or.inr ⟨h1, Or.inl h⟩
      · exact Or.inr ⟨h1, Or.inr ⟨h2, h⟩⟩
      · change g = g' at h1
        change v = v' at h2
        change k = k' at h3
        subst h1 h2 h3
        exact absurd rfl hne
    · rintro (h | ⟨h1, h | ⟨h2, h⟩⟩)
      · exact Or.inl h
      · exact Or.inr ⟨h1, Or.inl h⟩
      · exact Or.inr ⟨h1, Or.inr ⟨h2, Or.inl h⟩⟩
  · intro a b he
    rw [Less_iff_tuple]
    rcases a with ⟨⟨g, v, k⟩, n⟩
    rcases b with ⟨⟨g', v', k'⟩, n'⟩
    simp only [GroupVersionKind.mk.injEq] at he
    obtain ⟨h1, h2, h3⟩ := he
    subst h1 h2 h3
    simp [gvknTuple, Prod.Lex.lt_iff]

/-- Witness of C5 on `exampleSet`. -/
theorem Encode_ascending_witness :
    (mapKeys exampleSet).Nodup ∧
    (∃ order : List GroupVersionKindName,
      order.Perm (mapKeys exampleSet) ∧
      List.Pairwise (fun a b => ByGVKN.Less a b = true) order ∧
      Encode exampleMarshal exampleSet = Except.ok
        (match order.map (fun k => exampleDoc (mapGet exampleSet k)) with
        | [] => ""
        | d :: ds => d ++ String.join (ds.map (fun x => "---\n" ++ x)))) :=
  ⟨by decide,
    (Encode_ascending exampleMarshal exampleSet (fun k => exampleDoc (mapGet exampleSet k))
      (by decide) (fun _ _ => rfl)).1⟩

/-- C6: when every resource of the working set serializes, the output of Encode is
the first document followed, for each further document, by the line "---\n" and
that document: no separator before the first document, none after the last,
one between two consecutive documents (n-1 for n documents), and the empty
output for the empty working set. -/
theorem Encode_separators (marshal : Option Unstructured → Except Error String)
    (inp : WorkingSet) (ser : GroupVersionKindName → String)
    (hser : ∀ k ∈ mapKeys inp, marshal (mapGet inp k) = Except.ok (ser k)) :
    Encode marshal inp = Except.ok (match (sortByGVKN (mapKeys inp)).map ser with
      | [] => ""
      | d :: ds => d ++ String.join (ds.map (fun x => "---\n" ++ x))) ∧
    ((sortByGVKN (mapKeys inp)).map ser).length = inp.length ∧
    (inp.length = 0 → Encode marshal inp = Except.ok "") := by
  refine ⟨?_, ?_, ?_⟩
  · exact encodeLoop_first marshal inp ser _
      (fun k hk => hser k ((sortByGVKN_perm _).mem_iff.1 hk))
  · rw [List.length_map, (sortByGVKN_perm _).length_eq]
    simp [mapKeys]
  · intro h
    have : inp = [] := List.length_eq_zero.1 h
    subst this
    rfl

/-- Witness of C6: the three documents of `exampleSet` with two separators. -/
theorem Encode_separators_witness :
    Encode exampleMarshal exampleSet = Except.ok
      ("kind: ConfigMap\nname: a\n" ++ String.join
        ["---\n" ++ "kind: ConfigMap\nname: b\n", "---\n" ++ "kind: Deployment\nname: web\n"]) :=
  (Encode_separators exampleMarshal exampleSet (fun k => exampleDoc (mapGet exampleSet k))
    (fun _ _ => rfl)).1


/-! ### Decode -/

theorem readObjs_eq (docs : List Unstructured) (err : Error) (acc : List Unstructured) :
    readObjs docs err acc = (acc ++ docs, err) := by
  induction docs generalizing acc with
  | nil => simp [readObjs]
  | cons d rest ih => simp [readObjs, ih]

theorem Decode_of_error (newDecoder : String → YAMLOrJSONDecoder) (inp : String)
    (into : Option WorkingSet) (h : (newDecoder inp).err ≠ Error.EOF) :
    Decode newDecoder inp into =
      { ret := none, err := some (newDecoder inp).err, into := into } := by
  simp [Decode, readObjs_eq, h]

theorem Decode_of_EOF (newDecoder : String → YAMLOrJSONDecoder) (inp : String)
    (into : Option WorkingSet) (h : (newDecoder inp).err = Error.EOF) :
    Decode newDecoder inp into =
      match insertObjs (newDecoder inp).docs (into.getD []) with
      | (some e, m) => { ret := none, err := some e, into := into.map (fun _ => m) }
      | (none, m) => { ret := some m, err := none, into := into.map (fun _ => m) } := by
  simp [Decode, readObjs_eq, h]

theorem identityIs_iff (k : GroupVersionKindName) (d : Unstructured) :
    identityIs k d = true ↔ decodeKey d = Except.ok k := by
  unfold identityIs
  cases h : decodeKey d with
  | error e => simp
  | ok k' => simp

theorem insertObjs_ok (objs : List Unstructured) (m : WorkingSet)
    (hkeys : ∀ o ∈ objs, ∃ k, decodeKey o = Except.ok k) :
    (insertObjs objs m).1 = none := by
  induction objs generalizing m with
  | nil => rfl
  | cons o rest ih =>
    obtain ⟨k, hk⟩ := hkeys o (List.mem_cons_self _ _)
    simp only [insertObjs, hk]
    exact ih _ (fun o' ho' => hkeys o' (List.mem_cons_of_mem _ ho'))

theorem insertObjs_keys (objs : List Unstructured) (m : WorkingSet)
    (h : (insertObjs objs m).1 = none) : ∀ o ∈ objs, ∃ k, decodeKey o = Except.ok k := by
  induction objs generalizing m with
  | nil => simp
  | cons o rest ih =>
    cases hk : decodeKey o with
    | error e => simp [insertObjs, hk] at h
    | ok k =>
      simp only [insertObjs, hk] at h
      intro o' ho'
      rcases List.mem_cons.1 ho' with rfl | ho'
      · exact ⟨k, hk⟩
      · exact ih _ h o' ho'

theorem insertObjs_lookup (objs : List Unstructured) (m : WorkingSet)
    (h : (insertObjs objs m).1 = none) (k : GroupVersionKindName) :
    mapGet (insertObjs objs m).2 k =
      objs.foldl (fun cur d => if identityIs k d then some d else cur) (mapGet m k) := by
  induction objs generalizing m with
  | nil => rfl
  | cons o rest ih =>
    cases hk : decodeKey o with
    | error e => simp [insertObjs, hk] at h
    | ok ko =>
      simp only [insertObjs, hk] at h ⊢
      rw [ih _ h, List.foldl_cons]
      congr 1
      by_cases hkk : ko = k
      · subst hkk
        rw [mapGet_mapSet_self, (identityIs_iff ko o).2 hk]
        simp
      · rw [mapGet_mapSet_ne _ _ _ _ hkk]
        have : identityIs k o = false := by
          cases hi : identityIs k o with
          | false => rfl
          | true =>
            rw [identityIs_iff, hk] at hi
            exact absurd (Except.ok.inj hi) hkk
        simp [this]

theorem foldl_identity_absent (k : GroupVersionKindName) (objs : List Unstructured)
    (cur : Option Unstructured) (h : ∀ o ∈ objs, decodeKey o ≠ Except.ok k) :
    objs.foldl (fun cur d => if identityIs k d then some d else cur) cur = cur := by
  induction objs generalizing cur with
  | nil => rfl
  | cons o rest ih =>
    have ho : identityIs k o = false := by
      cases hi : identityIs k o with
      | false => rfl
      | true => exact absurd ((identityIs_iff k o).1 hi) (h o (List.mem_cons_self _ _))
    rw [List.foldl_cons, ho]
    exact ih _ (fun o' ho' => h o' (List.mem_cons_of_mem _ ho'))

theorem foldl_identity_last (k : GroupVersionKindName) (pre post : List Unstructured)
    (d : Unstructured) (cur : Option Unstructured) (hd : decodeKey d = Except.ok k)
    (hpost : ∀ o ∈ post, decodeKey o ≠ Except.ok k) :
    (pre ++ d :: post).foldl (fun cur d => if identityIs k d then some d else cur) cur
      = some d := by
  rw [List.foldl_append, List.foldl_cons, (identityIs_iff k d).2 hd]
  exact foldl_identity_absent k post _ hpost

theorem insertObjs_nodup (objs : List Unstructured) (m : WorkingSet)
    (hnd : (mapKeys m).Nodup) : (mapKeys (insertObjs objs m).2).Nodup := by
  induction objs generalizing m with
  | nil => exact hnd
  | cons o rest ih =>
    cases hk : decodeKey o with
    | error e => simpa [insertObjs, hk] using hnd
    | ok ko =>
      simp only [insertObjs, hk]
      exact ih _ (mapKeys_mapSet_nodup m ko o hnd)


/-! ### ParseGroupVersion -/

theorem ParseGroupVersion_version (v : String) (h : '/' ∉ v.data) :
    ParseGroupVersion v = Except.ok ⟨"", v⟩ := by
  unfold ParseGroupVersion
  by_cases h0 : v.data = []
  · have hv : v = "" := String.ext h0
    subst hv
    rfl
  · have h1 : v ≠ "/" := by
      rintro rfl
      exact h (by decide)
    have hc : v.data.count '/' = 0 := List.count_eq_zero.2 h
    simp [h0, h1, hc]

theorem ParseGroupVersion_group_version (g v : String)
    (hg : '/' ∉ g.data) (hv : '/' ∉ v.data) :
    ParseGroupVersion (g ++ "/" ++ v) = Except.ok ⟨g, v⟩ := by
  have hdata : (g ++ "/" ++ v).data = g.data ++ '/' :: v.data := by
    simp [String.data_append]
  unfold ParseGroupVersion
  by_cases hgv : g.data = [] ∧ v.data = []
  · have h1 : g = "" := String.ext hgv.1
    have h2 : v = "" := String.ext hgv.2
    subst h1 h2
    rfl
  · have h0 : ¬ (g ++ "/" ++ v).data = [] := by simp [hdata]
    have h1 : ¬ (g ++ "/" ++ v) = "/" := by
      intro h
      have := congrArg String.data h
      rw [hdata] at this
      have hlen := congrArg List.length this
      rw [List.length_append, List.length_cons] at hlen
      have hone : ("/" : String).data.length = 1 := rfl
      rw [hone] at hlen
      apply hgv
      constructor
      · exact List.length_eq_zero.1 (by omega)
      · exact List.length_eq_zero.1 (by omega)
    have hc : (g ++ "/" ++ v).data.count '/' = 1 := by
      rw [hdata, List.count_append, List.count_cons_self, List.count_eq_zero.2 hg,
        List.count_eq_zero.2 hv]
    have hp : ∀ a ∈ g.data, (fun c => c != '/') a = true := by
      intro a ha
      simp only [bne_iff_ne, ne_eq]
      rintro rfl
      exact hg ha
    have ht : (g ++ "/" ++ v).data.takeWhile (fun c => c != '/') = g.data := by
      rw [hdata, List.takeWhile_append_of_pos hp]
      simp
    have hd : ((g ++ "/" ++ v).data.dropWhile (fun c => c != '/')).drop 1 = v.data := by
      rw [hdata, List.dropWhile_append_of_pos hp]
      simp
    simp only [h0, h1, or_self, if_false, hc, ht, hd]

theorem ParseGroupVersion_slashes (gv : String) (h : 2 ≤ gv.data.count '/') :
    ParseGroupVersion gv = Except.error (Error.unexpectedGroupVersion gv) := by
  unfold ParseGroupVersion
  have h0 : ¬ gv.data = [] := by
    intro h0
    rw [h0] at h
    simp at h
  have h1 : ¬ gv = "/" := by
    rintro rfl
    revert h
    decide
  simp only [h0, h1, or_self, if_false]
  rcases hc : gv.data.count '/' with _ | _ | n
  · rw [hc] at h; omega
  · rw [hc] at h; omega
  · rfl

theorem ParseGroupVersion_parts (s : String) (gv : GroupVersion)
    (h : ParseGroupVersion s = Except.ok gv) :
    '/' ∉ gv.Group.data ∧ '/' ∉ gv.Version.data := by
  unfold ParseGroupVersion at h
  split_ifs at h with h0
  · cases h
    exact ⟨by simp, by simp⟩
  · rcases hc : s.data.count '/' with _ | _ | n
    · rw [hc] at h
      cases h
      exact ⟨by simp, List.count_eq_zero.1 hc⟩
    · rw [hc] at h
      cases h
      have hsplit := List.takeWhile_append_dropWhile (fun c => c != '/') s.data
      have htake : '/' ∉ s.data.takeWhile (fun c => c != '/') := by
        intro hmem
        have := List.mem_takeWhile_imp hmem
        simp at this
      refine ⟨htake, ?_⟩
      have hcount : (s.data.dropWhile (fun c => c != '/')).count '/' = 1 := by
        have := congrArg (List.count '/') hsplit
        rw [List.count_append, List.count_eq_zero.2 htake, hc] at this
        omega
      show '/' ∉ ((s.data.dropWhile (fun c => c != '/')).drop 1)
      rcases hdw : s.data.dropWhile (fun c => c != '/') with _ | ⟨d, t⟩
      · simp
      · rw [hdw] at hcount
        have hd : d = '/' := by
          have hne : (s.data.dropWhile (fun c => c != '/')) ≠ [] := by rw [hdw]; simp
          have := List.head_dropWhile_not (fun c => c != '/') s.data hne
          simp only [hdw, List.head_cons, bne_iff_ne, ne_eq, Decidable.not_not] at this
          simpa using this
        subst hd
        rw [List.count_cons_self] at hcount
        simp only [List.drop_succ_cons, List.drop_zero]
        exact List.count_eq_zero.1 (by omega)
    · rw [hc] at h
      cases h

theorem ParseGroupVersion_String (gv : GroupVersion)
    (hg : '/' ∉ gv.Group.data) (hv : '/' ∉ gv.Version.data) :
    ParseGroupVersion gv.String = Except.ok gv := by
  rcases gv with ⟨g, v⟩
  simp only at hg hv
  unfold GroupVersion.String
  by_cases hg0 : g.length = 0
  · have hge : g = "" := String.ext (List.length_eq_zero.1 hg0)
    subst hge
    by_cases hv0 : v.length = 0
    · have hve : v = "" := String.ext (List.length_eq_zero.1 hv0)
      subst hve
      rfl
    · have h1 : ¬ (("" : String).length = 0 ∧ v.length = 0) := fun h => hv0 h.2
      have h2 : ¬ (("" : String).length > 0) := by decide
      rw [if_neg h1]
      by_cases hv1 : ("" : String).length = 0 ∧ v = "v1"
      · rw [if_pos hv1]
        exact ParseGroupVersion_version v hv
      · rw [if_neg hv1, if_neg h2]
        exact ParseGroupVersion_version v hv
  · have h1 : ¬ (g.length = 0 ∧ v.length = 0) := fun h => hg0 h.1
    have h2 : g.length > 0 := Nat.pos_of_ne_zero hg0
    have h3 : ¬ (g.length = 0 ∧ v = "v1") := fun h => hg0 h.1
    rw [if_neg h1, if_neg h3, if_pos h2]
    exact ParseGroupVersion_group_version g v hg hv

/-- The key that `Decode` computes is, for every object, the key of `populateMap`:
the type accessor prints the parsed apiVersion, which parses again. -/
theorem decodeKey_total (obj : Unstructured) :
    decodeKey obj = Except.ok (populateKey obj) := by
  simp only [decodeKey, Accessor, TypeAccessor, objectAccessor.GetAPIVersion,
    objectAccessor.GetKind, populateKey, Unstructured.GroupVersionKind]
  cases hp : ParseGroupVersion obj.GetAPIVersion with
  | error e => rfl
  | ok gv =>
    obtain ⟨hg, hv⟩ := ParseGroupVersion_parts _ gv hp
    have hr : ParseGroupVersion
        (GroupVersionKind.GroupVersion (gv.WithKind obj.GetKind)).String = Except.ok gv :=
      ParseGroupVersion_String gv hg hv
    simp only [hr]
    rfl

theorem UnmarshalJSON_iff (d : Unstructured) :
    d.UnmarshalJSON = none ↔
      d.GetKind ≠ "" ∧ ∃ gv, ParseGroupVersion d.GetAPIVersion = Except.ok gv := by
  unfold Unstructured.UnmarshalJSON Unstructured.GroupVersionKind
  cases hp : ParseGroupVersion d.GetAPIVersion with
  | error e =>
    simp
  | ok gv =>
    simp only [GroupVersion.WithKind]
    by_cases hk : d.GetKind = ""
    · simp [hk]
    · have : ¬ d.GetKind.length = 0 := fun h => hk (String.ext (List.length_eq_zero.1 h))
      simp [this, hk]

theorem UnmarshalJSON_rejected (d : Unstructured) (h : d.UnmarshalJSON ≠ none) :
    d.UnmarshalJSON = some Error.missingKind := by
  unfold Unstructured.UnmarshalJSON at h ⊢
  split_ifs at h ⊢ with hk
  · rfl
  · exact absurd rfl h

theorem decoderOver_accepted (raw : List Unstructured) (final : Error)
    (h : ∀ d ∈ raw, d.UnmarshalJSON = none) :
    (decoderOver raw final).docs = raw ∧ (decoderOver raw final).err = final := by
  have hp : ∀ d ∈ raw, acceptedDoc d = true := by
    intro d hd
    simp [acceptedDoc, h d hd]
  constructor
  · exact List.takeWhile_eq_self_iff.2 hp
  · have hdrop : raw.dropWhile acceptedDoc = [] := List.dropWhile_eq_nil_iff.2 hp
    simp only [decoderOver, hdrop]

theorem decoderOver_rejected (pre post : List Unstructured) (d : Unstructured) (final : Error)
    (h : d.UnmarshalJSON ≠ none) :
    (decoderOver (pre ++ d :: post) final).err = Error.missingKind := by
  have hd : acceptedDoc d = false := by
    cases hu : d.UnmarshalJSON with
    | none => exact absurd hu h
    | some e => simp [acceptedDoc, hu]
  induction pre with
  | nil =>
    simp only [decoderOver, List.nil_append, List.dropWhile_cons, hd, Bool.false_eq_true,
      if_false, UnmarshalJSON_rejected d h]
    rfl
  | cons o rest ih =>
    cases ho : acceptedDoc o with
    | true =>
      simp only [decoderOver, List.cons_append, List.dropWhile_cons, ho, if_true] at ih ⊢
      exact ih
    | false =>
      have hou : o.UnmarshalJSON ≠ none := by
        intro hu
        simp [acceptedDoc, hu] at ho
      simp only [decoderOver, List.cons_append, List.dropWhile_cons, ho, Bool.false_eq_true,
        if_false, UnmarshalJSON_rejected o hou]
      rfl

/-! ### Claims on Decode and on the identity key -/

/-- C1, as stated, fails: Decode has no duplicate check.  A document whose identity
is already a key of the target, or was produced by an earlier document of the
stream, is decoded without error and replaces the entry stored under it. -/
theorem Decode_duplicate_counterexample :
    mapGet [(exampleConfigMapKey "a", exampleConfigMap "a" "old")] (exampleConfigMapKey "a")
      = some (exampleConfigMap "a" "old") ∧
    decodeKey (exampleConfigMap "a" "new") = Except.ok (exampleConfigMapKey "a") ∧
    Decode (exampleStream [exampleConfigMap "a" "new"]) ""
        (some [(exampleConfigMapKey "a", exampleConfigMap "a" "old")]) =
      { ret := some [(exampleConfigMapKey "a", exampleConfigMap "a" "new")], err := none,
        into := some [(exampleConfigMapKey "a", exampleConfigMap "a" "new")] } ∧
    Decode (exampleStream [exampleConfigMap "a" "old", exampleConfigMap "a" "new"]) "" none =
      { ret := some [(exampleConfigMapKey "a", exampleConfigMap "a" "new")], err := none,
        into := none } ∧
    exampleConfigMap "a" "old" ≠ exampleConfigMap "a" "new" := by
  refine ⟨rfl, rfl, rfl, rfl, ?_⟩
  intro h
  have h2 := congrArg (fun u => getString u.Object "kind" ++
    (match mapGet u.Object "data" with
      | some (Value.map d) => getString d "note"
      | _ => "")) h
  revert h2
  decide

/-- C1, amended: when the stream parses and the key of each document can be
computed, Decode succeeds, and the entry under an identity is the last document
of the stream with that identity, whether or not the identity was a key of the
target before or was produced by an earlier document. -/
theorem Decode_last_document_wins (newDecoder : String → YAMLOrJSONDecoder) (inp : String)
    (into : Option WorkingSet) (pre post : List Unstructured) (d : Unstructured)
    (k : GroupVersionKindName)
    (heof : (newDecoder inp).err = Error.EOF)
    (hdocs : (newDecoder inp).docs = pre ++ d :: post)
    (hkeys : ∀ o ∈ (newDecoder inp).docs, ∃ k', decodeKey o = Except.ok k')
    (hd : decodeKey d = Except.ok k)
    (hpost : ∀ o ∈ post, decodeKey o ≠ Except.ok k) :
    ∃ m, Decode newDecoder inp into =
        { ret := some m, err := none, into := into.map (fun _ => m) } ∧
      mapGet m k = some d := by
  have hok := insertObjs_ok (newDecoder inp).docs (into.getD []) hkeys
  have hl := insertObjs_lookup (newDecoder inp).docs (into.getD []) hok k
  rw [Decode_of_EOF newDecoder inp into heof]
  rcases hio : insertObjs (newDecoder inp).docs (into.getD []) with ⟨e, m⟩
  rw [hio] at hok hl
  simp only at hok hl
  subst hok
  refine ⟨m, rfl, ?_⟩
  rw [hl, hdocs]
  exact foldl_identity_last k pre post d _ hd hpost

/-- Witness of the amended C1: the second of two documents with the identity of an entry of the target replaces it. -/
theorem Decode_last_document_wins_witness :
    ∃ m, Decode (exampleStream [exampleConfigMap "a" "old", exampleConfigMap "a" "new"]) ""
          (some [(exampleConfigMapKey "a", exampleConfigMap "a" "first")]) =
        { ret := some m, err := none,
          into := (some [(exampleConfigMapKey "a", exampleConfigMap "a" "first")]).map
            (fun _ => m) } ∧
      mapGet m (exampleConfigMapKey "a") = some (exampleConfigMap "a" "new") :=
  Decode_last_document_wins
    (exampleStream [exampleConfigMap "a" "old", exampleConfigMap "a" "new"]) ""
    (some [(exampleConfigMapKey "a", exampleConfigMap "a" "first")])
    [exampleConfigMap "a" "old"] [] (exampleConfigMap "a" "new") (exampleConfigMapKey "a")
    rfl rfl
    (fun o _ => ⟨_, decodeKey_total o⟩)
    rfl
    (by simp)

/-- C9: when the decoder stops with an error other than the end of the input,
Decode returns that error and a nil map and leaves the target as it was: none
of the documents decoded before the error is inserted. -/
theorem Decode_fail_fast (newDecoder : String → YAMLOrJSONDecoder) (inp : String)
    (into : Option WorkingSet) (h : (newDecoder inp).err ≠ Error.EOF) :
    Decode newDecoder inp into =
      { ret := none, err := some (newDecoder inp).err, into := into } :=
  Decode_of_error newDecoder inp into h

/-- Witness of C9: a stream whose second document does not parse leaves `exampleSet` as it was. -/
theorem Decode_fail_fast_witness :
    Error.decode "did not find expected key" ≠ Error.EOF ∧
    Decode (fun _ => { docs := [exampleConfigMap "a" "x"],
                       err := Error.decode "did not find expected key" })
        "" (some exampleSet) =
      { ret := none, err := some (Error.decode "did not find expected key"),
        into := some exampleSet } :=
  ⟨by decide,
    Decode_fail_fast (fun _ => { docs := [exampleConfigMap "a" "x"],
                                 err := Error.decode "did not find expected key" })
      "" (some exampleSet) (by decide)⟩

theorem populateKey_eq (obj : Unstructured) (gv : GroupVersion)
    (hgv : ParseGroupVersion obj.GetAPIVersion = Except.ok gv) :
    populateKey obj = { GVK := gv.WithKind obj.GetKind, Name := obj.GetName } := by
  simp [populateKey, Unstructured.GroupVersionKind, hgv]

theorem decodeKey_eq (obj : Unstructured) (gv : GroupVersion)
    (hgv : ParseGroupVersion obj.GetAPIVersion = Except.ok gv) :
    decodeKey obj = Except.ok { GVK := gv.WithKind obj.GetKind, Name := obj.GetName } := by
  rw [decodeKey_total, populateKey_eq obj gv hgv]

theorem populateMap_eq (m : WorkingSet) (obj : Unstructured) (newName : String) :
    populateMap m obj newName =
      if (mapGet m (populateKey obj)).isSome then
        { err := some (Error.duplicateName obj.GetName obj.GroupVersionKind), m := m, obj := obj }
      else
        { err := none, m := mapSet m (populateKey obj) (obj.SetName newName),
          obj := obj.SetName newName } := by
  simp only [populateMap, Accessor, populateKey]
  cases mapGet m { GVK := obj.GroupVersionKind, Name := obj.GetName } <;> simp





/-- C2, as stated, fails: a document with a kind and without `metadata.name` is
inserted by Decode and by populateMap without error, under a key whose name is
empty; and a document with a kind and without `apiVersion` is inserted by Decode
without error, under a key whose group and version are empty. -/
theorem insertion_unvalidated_counterexample :
    mapGet exampleNameless.Object "metadata" = none ∧
    Decode (exampleStream [exampleNameless]) "" (some []) =
      { ret := some [({ GVK := { Group := "", Version := "v1", Kind := "ConfigMap" },
                        Name := "" }, exampleNameless)],
        err := none,
        into := some [({ GVK := { Group := "", Version := "v1", Kind := "ConfigMap" },
                         Name := "" }, exampleNameless)] } ∧
    (populateMap [] exampleNameless "generated").err = none ∧
    mapKeys (populateMap [] exampleNameless "generated").m =
      [{ GVK := { Group := "", Version := "v1", Kind := "ConfigMap" }, Name := "" }] ∧
    mapGet exampleVersionless.Object "apiVersion" = none ∧
    Decode (exampleStream [exampleVersionless]) "" (some []) =
      { ret := some [({ GVK := { Group := "", Version := "", Kind := "ConfigMap" },
                        Name := "a" }, exampleVersionless)],
        err := none,
        into := some [({ GVK := { Group := "", Version := "", Kind := "ConfigMap" },
                         Name := "a" }, exampleVersionless)] } :=
  ⟨rfl, rfl, rfl, rfl, rfl, rfl⟩

/-- C2, amended: insertion does not validate the name or the apiVersion.  Decode
stores a document that the decoder accepts (one with a kind and an apiVersion
that splits into group and version) under the key (group, version, kind,
metadata.name) read from it, and populateMap stores an object under the key
read from it unless that key is present; a missing metadata or name is read as
the empty name and a missing apiVersion as the empty group and version, so the
key can have an empty name.  A document without kind is rejected by the
decoder: Decode returns the error and inserts nothing. -/
theorem insertion_stores_under_read_key (obj : Unstructured) :
    (obj.UnmarshalJSON = none →
      ∀ (newDecoder : String → YAMLOrJSONDecoder) (inp : String) (into : WorkingSet),
        (newDecoder inp).docs = [obj] → (newDecoder inp).err = Error.EOF →
        Decode newDecoder inp (some into) =
          { ret := some (mapSet into (populateKey obj) obj), err := none,
            into := some (mapSet into (populateKey obj) obj) }) ∧
    (∀ (m : WorkingSet) (newName : String), mapGet m (populateKey obj) = none →
      populateMap m obj newName =
        { err := none, m := mapSet m (populateKey obj) (obj.SetName newName),
          obj := obj.SetName newName }) ∧
    (populateKey obj).Name = obj.GetName ∧
    (∀ gv, ParseGroupVersion obj.GetAPIVersion = Except.ok gv →
      (populateKey obj).GVK = gv.WithKind obj.GetKind) ∧
    (mapGet obj.Object "metadata" = none → obj.GetName = "") ∧
    (∀ md, mapGet obj.Object "metadata" = some (Value.map md) → mapGet md "name" = none →
      obj.GetName = "") ∧
    (mapGet obj.Object "apiVersion" = none →
      ParseGroupVersion obj.GetAPIVersion = Except.ok { Group := "", Version := "" }) ∧
    (mapGet obj.Object "kind" = none → obj.GetKind = "") ∧
    (obj.GetKind = "" →
      obj.UnmarshalJSON = some Error.missingKind ∧
      ∀ (pre post : List Unstructured) (final : Error) (inp : String)
        (into : Option WorkingSet),
        Decode (fun _ => decoderOver (pre ++ obj :: post) final) inp into =
          { ret := none, err := some Error.missingKind, into := into }) := by
  refine ⟨?_, ?_, rfl, ?_, ?_, ?_, ?_, ?_, ?_⟩
  · intro _ newDecoder inp into hdocs heof
    rw [Decode_of_EOF newDecoder inp (some into) heof, hdocs]
    simp [insertObjs, decodeKey_total]
  · intro m newName hget
    rw [populateMap_eq, hget]
    rfl
  · intro gv hgv
    rw [populateKey_eq obj gv hgv]
  · intro h
    simp [Unstructured.GetName, h]
  · intro md h1 h2
    simp [Unstructured.GetName, h1, getString, h2]
  · intro h
    have h0 : obj.GetAPIVersion = "" := by simp [Unstructured.GetAPIVersion, getString, h]
    rw [h0]
    rfl
  · intro h
    simp [Unstructured.GetKind, getString, h]
  · intro hkind
    have hrej : obj.UnmarshalJSON ≠ none := by
      intro hacc
      exact ((UnmarshalJSON_iff obj).1 hacc).1 hkind
    refine ⟨UnmarshalJSON_rejected obj hrej, ?_⟩
    intro pre post final inp into
    have herr := decoderOver_rejected pre post obj final hrej
    have hne : (decoderOver (pre ++ obj :: post) final).err ≠ Error.EOF := by
      rw [herr]
      decide
    rw [Decode_of_error (fun _ => decoderOver (pre ++ obj :: post) final) inp into hne, herr]

/-- Witness of the amended C2 on a ConfigMap without metadata. -/
theorem insertion_stores_under_read_key_witness :
    exampleNameless.UnmarshalJSON = none ∧
    Decode (exampleStream [exampleNameless]) "" (some []) =
      { ret := some (mapSet [] (populateKey exampleNameless) exampleNameless), err := none,
        into := some (mapSet [] (populateKey exampleNameless) exampleNameless) } ∧
    exampleNameless.GetName = "" :=
  ⟨rfl,
    (insertion_stores_under_read_key exampleNameless).1 rfl
      (exampleStream [exampleNameless]) "" [] rfl rfl,
    (insertion_stores_under_read_key exampleNameless).2.2.2.2.1 rfl⟩

theorem decodeChars_encodeChars (a r : List Char) :
    decodeChars (encodeChars a r) = some (a, r) := by
  induction a with
  | nil => cases r <;> simp [encodeChars, decodeChars]
  | cons c cs ih =>
    have h1 : ¬ ('.' : Char) = ';' := by decide
    simp only [encodeChars, decodeChars, h1, if_false, if_true, ih, Option.map_some']

theorem tripleOf_eq (u : Unstructured) (a k n : String) (h : tripleOf u = some (a, k, n)) :
    u = exampleTriple a k n := by
  rcases u with ⟨obj⟩
  unfold tripleOf at h
  split at h
  · rename_i f1 a' f2 k' f3 f4 n' heq
    split_ifs at h with hf
    simp only [Option.some.injEq, Prod.mk.injEq] at h
    obtain ⟨rfl, rfl, rfl⟩ := h
    obtain ⟨rfl, rfl, rfl, rfl⟩ := hf
    simp only at heq
    rw [heq]
    rfl
  · cases h

/-- The decoder of the example codec reads back what its marshaller writes. -/
theorem codecDecoder_codecMarshal (u : Unstructured) (s : String)
    (h : codecMarshal (some u) = Except.ok s) :
    codecDecoder s = decoderOver [u] Error.EOF := by
  simp only [codecMarshal] at h
  cases ht : tripleOf u with
  | none => rw [ht] at h; cases h
  | some t =>
    rcases t with ⟨a, k, n⟩
    rw [ht] at h
    simp only [Except.ok.injEq] at h
    subst h
    rw [tripleOf_eq u a k n ht]
    simp only [codecDecoder, decodeChars_encodeChars]

/-- C3, as stated, fails: a resource with kind, metadata.name and the apiVersion
`a/b/c` is encoded without error, and Decode of the text fails, because the
decoder rejects a document whose apiVersion does not split into group and
version. -/
theorem Decode_Encode_counterexample :
    (exampleTriple "a/b/c" "Deployment" "web").GetAPIVersion = "a/b/c" ∧
    (exampleTriple "a/b/c" "Deployment" "web").GetKind = "Deployment" ∧
    (exampleTriple "a/b/c" "Deployment" "web").GetName = "web" ∧
    (Encode codecMarshal [(populateKey (exampleTriple "a/b/c" "Deployment" "web"),
        exampleTriple "a/b/c" "Deployment" "web")]).map
        (fun text => Decode codecDecoder text none) =
      Except.ok { ret := none, err := some Error.missingKind, into := none } :=
  ⟨rfl, rfl, rfl, rfl⟩

/-- C3, amended to resources whose apiVersion splits into group and version: with a
YAML codec whose decoder reads back every document that its marshaller writes
and that `UnmarshalJSON` accepts, for a resource R with a kind and an
apiVersion that splits, Encode of the working set that holds R under its
identity key succeeds with the text of R, and Decode of that text with a nil
target succeeds and returns a map with the same single key holding R. -/
theorem Decode_Encode_roundtrip (marshal : Option Unstructured → Except Error String)
    (newDecoder : String → YAMLOrJSONDecoder)
    (hcodec : ∀ (u : Unstructured) (s : String), marshal (some u) = Except.ok s →
      u.UnmarshalJSON = none → (newDecoder s).docs = [u] ∧ (newDecoder s).err = Error.EOF)
    (R : Unstructured) (gv : GroupVersion) (doc : String)
    (hkind : R.GetKind ≠ "")
    (hgv : ParseGroupVersion R.GetAPIVersion = Except.ok gv)
    (hm : marshal (some R) = Except.ok doc) :
    populateKey R = { GVK := gv.WithKind R.GetKind, Name := R.GetName } ∧
    Encode marshal [(populateKey R, R)] = Except.ok doc ∧
    Decode newDecoder doc none =
      { ret := some [(populateKey R, R)], err := none, into := none } := by
  have hacc : R.UnmarshalJSON = none := (UnmarshalJSON_iff R).2 ⟨hkind, gv, hgv⟩
  obtain ⟨hdocs, heof⟩ := hcodec R doc hm hacc
  refine ⟨populateKey_eq R gv hgv, ?_, ?_⟩
  · have hs : sortByGVKN (mapKeys [(populateKey R, R)]) = [populateKey R] := rfl
    simp only [Encode, hs, encodeLoop, mapGet, if_true, hm]
    congr 1
  · rw [Decode_of_EOF newDecoder doc none heof, hdocs]
    simp [insertObjs, decodeKey_total, mapSet]

/-- Witness of C3 with the example codec, on a Deployment of group apps. -/
theorem Decode_Encode_roundtrip_witness :
    populateKey (exampleTriple "apps/v1" "Deployment" "web") = exampleDeploymentKey "web" ∧
    Encode codecMarshal [(populateKey (exampleTriple "apps/v1" "Deployment" "web"),
        exampleTriple "apps/v1" "Deployment" "web")] =
      Except.ok ".a.p.p.s./.v.1;.D.e.p.l.o.y.m.e.n.t;.w.e.b;" ∧
    Decode codecDecoder ".a.p.p.s./.v.1;.D.e.p.l.o.y.m.e.n.t;.w.e.b;" none =
      { ret := some [(populateKey (exampleTriple "apps/v1" "Deployment" "web"),
          exampleTriple "apps/v1" "Deployment" "web")], err := none, into := none } :=
  Decode_Encode_roundtrip codecMarshal codecDecoder
    (fun u s hs hacc => by
      rw [codecDecoder_codecMarshal u s hs]
      exact decoderOver_accepted [u] Error.EOF (by
        intro d hd
        rw [List.mem_singleton] at hd
        rw [hd]
        exact hacc))
    (exampleTriple "apps/v1" "Deployment" "web") { Group := "apps", Version := "v1" }
    ".a.p.p.s./.v.1;.D.e.p.l.o.y.m.e.n.t;.w.e.b;" (by decide) rfl rfl

/-- C7: Decode and populateMap compute the key of a resource by one rule.  For
every resource the key Decode computes is the key populateMap checks and stores
under; its name is metadata.name and, when apiVersion splits at '/', its kind
is the kind of the resource and its group and version are the parts of
apiVersion: a string without '/' is a version of the empty (core) group, and
g/v gives group g and version v. -/
theorem identity_rule_shared (obj : Unstructured) (k : GroupVersionKindName)
    (hk : decodeKey obj = Except.ok k) :
    populateKey obj = k ∧
    k.Name = obj.GetName ∧
    (∀ gv, ParseGroupVersion obj.GetAPIVersion = Except.ok gv →
      k.GVK.Kind = obj.GetKind ∧ gv = ⟨k.GVK.Group, k.GVK.Version⟩) ∧
    (∀ into : WorkingSet, insertObjs [obj] into = (none, mapSet into k obj)) ∧
    (∀ (m : WorkingSet) (newName : String), populateMap m obj newName =
      if (mapGet m k).isSome then
        { err := some (Error.duplicateName obj.GetName k.GVK), m := m, obj := obj }
      else
        { err := none, m := mapSet m k (obj.SetName newName), obj := obj.SetName newName }) ∧
    (∀ v : String, '/' ∉ v.data → ParseGroupVersion v = Except.ok ⟨"", v⟩) ∧
    (∀ g v : String, '/' ∉ g.data → '/' ∉ v.data →
      ParseGroupVersion (g ++ "/" ++ v) = Except.ok ⟨g, v⟩) := by
  have hpk : populateKey obj = k := by
    rw [decodeKey_total] at hk
    exact Except.ok.inj hk
  refine ⟨hpk, ?_, ?_, ?_, ?_, ParseGroupVersion_version, ParseGroupVersion_group_version⟩
  · rw [← hpk]
    rfl
  · intro gv hgv
    rw [← hpk, populateKey_eq obj gv hgv]
    exact ⟨rfl, rfl⟩
  · intro into
    simp [insertObjs, hk]
  · intro m newName
    rw [populateMap_eq, hpk]
    have : obj.GroupVersionKind = k.GVK := by
      have := congrArg GroupVersionKindName.GVK hpk
      simpa [populateKey] using this
    rw [this]

/-- Witness of C7 on a Deployment of group apps. -/
theorem identity_rule_shared_witness :
    decodeKey (exampleDeployment "web") = Except.ok (exampleDeploymentKey "web") ∧
    populateKey (exampleDeployment "web") = exampleDeploymentKey "web" :=
  ⟨rfl, (identity_rule_shared (exampleDeployment "web") (exampleDeploymentKey "web") rfl).1⟩

theorem Decode_ret_some (newDecoder : String → YAMLOrJSONDecoder) (inp : String)
    (into : Option WorkingSet) (m : WorkingSet)
    (h : (Decode newDecoder inp into).ret = some m) :
    (newDecoder inp).err = Error.EOF ∧
      insertObjs (newDecoder inp).docs (into.getD []) = (none, m) := by
  by_cases heof : (newDecoder inp).err = Error.EOF
  · refine ⟨heof, ?_⟩
    rw [Decode_of_EOF newDecoder inp into heof] at h
    rcases hio : insertObjs (newDecoder inp).docs (into.getD []) with ⟨e, m'⟩
    rw [hio] at h
    cases e with
    | some e => simp at h
    | none =>
      simp only [Option.some.injEq] at h
      rw [h]
  · rw [Decode_of_error newDecoder inp into heof] at h
    simp at h

/-- C8, as stated, fails: a stream of two documents with one identity decodes
without error into a map with a single entry, which holds the second document;
the map has no entry per decoded document and does not contain the first. -/
theorem Decode_entries_counterexample :
    decodeKey (exampleConfigMap "c" "one") = decodeKey (exampleConfigMap "c" "two") ∧
    Decode (exampleStream [exampleConfigMap "c" "one", exampleConfigMap "c" "two"]) "" none =
      { ret := some [(exampleConfigMapKey "c", exampleConfigMap "c" "two")], err := none,
        into := none } ∧
    [exampleConfigMap "c" "one", exampleConfigMap "c" "two"].length = 2 ∧
    [(exampleConfigMapKey "c", exampleConfigMap "c" "two")].length = 1 :=
  ⟨rfl, rfl, rfl, rfl⟩

/-- C8, amended: when Decode returns a map, the error is nil and the map is the
one `into` refers to after the call (a fresh one when `into` is nil).  Under a
key that is the identity of no decoded document it holds what `into` held
before (nothing for a nil `into`); under the identity of a decoded document it
holds the last document decoded with that identity; every decoded document has
an identity with an entry; and an empty stream leaves the entries of `into`
(none for a nil `into`). -/
theorem Decode_success_content (newDecoder : String → YAMLOrJSONDecoder) (inp : String)
    (into : Option WorkingSet) (m : WorkingSet)
    (h : (Decode newDecoder inp into).ret = some m) :
    (Decode newDecoder inp into).err = none ∧
    (Decode newDecoder inp into).into = into.map (fun _ => m) ∧
    (∀ k, (∀ d ∈ (newDecoder inp).docs, decodeKey d ≠ Except.ok k) →
      mapGet m k = mapGet (into.getD []) k) ∧
    (∀ pre d post k, (newDecoder inp).docs = pre ++ d :: post → decodeKey d = Except.ok k →
      (∀ o ∈ post, decodeKey o ≠ Except.ok k) → mapGet m k = some d) ∧
    (∀ d ∈ (newDecoder inp).docs, ∃ k, decodeKey d = Except.ok k ∧ k ∈ mapKeys m) ∧
    ((mapKeys (into.getD [])).Nodup → (mapKeys m).Nodup) ∧
    ((newDecoder inp).docs = [] → m = into.getD []) := by
  obtain ⟨heof, hio⟩ := Decode_ret_some newDecoder inp into m h
  have hok : (insertObjs (newDecoder inp).docs (into.getD [])).1 = none := by rw [hio]
  have hl := insertObjs_lookup (newDecoder inp).docs (into.getD []) hok
  rw [hio] at hl
  simp only at hl
  have habs : ∀ k, (∀ d ∈ (newDecoder inp).docs, decodeKey d ≠ Except.ok k) →
      mapGet m k = mapGet (into.getD []) k := by
    intro k hk
    rw [hl k]
    exact foldl_identity_absent k _ _ hk
  have hlast : ∀ pre d post k, (newDecoder inp).docs = pre ++ d :: post →
      decodeKey d = Except.ok k →
      (∀ o ∈ post, decodeKey o ≠ Except.ok k) → mapGet m k = some d := by
    intro pre d post k hdocs hd hpost
    rw [hl k, hdocs]
    exact foldl_identity_last k pre post d _ hd hpost
  refine ⟨?_, ?_, habs, hlast, ?_, ?_, ?_⟩
  · rw [Decode_of_EOF newDecoder inp into heof, hio]
  · rw [Decode_of_EOF newDecoder inp into heof, hio]
  · intro d hd
    obtain ⟨k, hk⟩ := insertObjs_keys _ _ hok d hd
    refine ⟨k, hk, ?_⟩
    by_contra hnot
    have hnone := (mapGet_eq_none_iff m k).2 hnot
    rw [hl k] at hnone
    -- the fold ends with `some` once a document with identity k has been met
    have hsome : ∀ (objs : List Unstructured) (cur : Option Unstructured),
        (cur.isSome ∨ ∃ o ∈ objs, decodeKey o = Except.ok k) →
        (objs.foldl (fun cur d => if identityIs k d then some d else cur) cur).isSome := by
      intro objs
      induction objs with
      | nil =>
        intro cur hc
        rcases hc with hc | ⟨o, ho, -⟩
        · exact hc
        · cases ho
      | cons o rest ih =>
        intro cur hc
        rw [List.foldl_cons]
        apply ih
        by_cases hi : identityIs k o = true
        · left; simp [hi]
        · rcases hc with hc | ⟨o', ho', hk'⟩
          · left
            have : identityIs k o = false := by simpa using hi
            simp [this, hc]
          · rcases List.mem_cons.1 ho' with rfl | ho'
            · exact absurd ((identityIs_iff k o').2 hk') hi
            · exact Or.inr ⟨o', ho', hk'⟩
    have := hsome (newDecoder inp).docs (mapGet (into.getD []) k) (Or.inr ⟨d, hd, hk⟩)
    rw [hnone] at this
    cases this
  · intro hnd
    have := insertObjs_nodup (newDecoder inp).docs (into.getD []) hnd
    rw [hio] at this
    exact this
  · intro hnil
    rw [hnil] at hio
    simp only [insertObjs, Prod.mk.injEq, true_and] at hio
    exact hio.symm

/-- Witness of the amended C8: decoding two documents of one identity into `exampleSet` keeps the entry of the Deployment. -/
theorem Decode_success_content_witness :
    (Decode (exampleStream [exampleConfigMap "c" "one", exampleConfigMap "c" "two"]) ""
        (some exampleSet)).ret =
      some (exampleSet ++ [(exampleConfigMapKey "c", exampleConfigMap "c" "two")]) ∧
    mapGet (exampleSet ++ [(exampleConfigMapKey "c", exampleConfigMap "c" "two")])
        (exampleDeploymentKey "web") =
      mapGet ((some exampleSet).getD []) (exampleDeploymentKey "web") :=
  ⟨rfl,
    (Decode_success_content
      (exampleStream [exampleConfigMap "c" "one", exampleConfigMap "c" "two"]) ""
      (some exampleSet)
      (exampleSet ++ [(exampleConfigMapKey "c", exampleConfigMap "c" "two")]) rfl).2.2.1
      (exampleDeploymentKey "web")
      (by
        intro d hd
        have hdocs : (exampleStream [exampleConfigMap "c" "one", exampleConfigMap "c" "two"]
            "").docs = [exampleConfigMap "c" "one", exampleConfigMap "c" "two"] := rfl
        rw [hdocs] at hd
        simp only [List.mem_cons, List.mem_singleton, List.not_mem_nil, or_false] at hd
        rcases hd with rfl | rfl
        · intro h
          have h1 : decodeKey (exampleConfigMap "c" "one") =
              Except.ok (exampleConfigMapKey "c") := rfl
          rw [h1] at h
          exact absurd (Except.ok.inj h) (by decide)
        · intro h
          have h1 : decodeKey (exampleConfigMap "c" "two") =
              Except.ok (exampleConfigMapKey "c") := rfl
          rw [h1] at h
          exact absurd (Except.ok.inj h) (by decide))⟩


/-- C30, as stated, fails: a document whose apiVersion has two '/' is rejected by
the decoder while the stream is read, so Decode returns the error before the
insertion loop and the Service that precedes the document has not been
inserted into the supplied map. -/
theorem Decode_not_atomic_counterexample :
    (exampleTriple "a/b/c" "Deployment" "web").GetAPIVersion.data.count '/' = 2 ∧
    (exampleService "web").UnmarshalJSON = none ∧
    Decode (exampleStream [exampleService "web", exampleTriple "a/b/c" "Deployment" "web"])
        "" (some []) =
      { ret := none, err := some Error.missingKind, into := some [] } :=
  ⟨by decide, rfl, rfl⟩

/-- C30, amended: Decode is atomic for such failures.  When the apiVersion of a
document of the stream has more than one '/', the decoder rejects the document
while the stream is read: Decode returns the error and a nil map, and the map
`into` refers to is as it was, none of the documents before that one having
been inserted.  The key computation of the insertion loop fails for no object,
so whenever Decode returns a nil map the map `into` refers to is as it was. -/
theorem Decode_rejected_document (pre post : List Unstructured) (d : Unstructured)
    (final : Error) (inp : String) (into : WorkingSet)
    (hbad : 2 ≤ d.GetAPIVersion.data.count '/') :
    d.UnmarshalJSON = some Error.missingKind ∧
    Decode (fun _ => decoderOver (pre ++ d :: post) final) inp (some into) =
      { ret := none, err := some Error.missingKind, into := some into } ∧
    (∀ obj : Unstructured, decodeKey obj = Except.ok (populateKey obj)) ∧
    (∀ (newDecoder : String → YAMLOrJSONDecoder) (text : String) (target : Option WorkingSet),
      (Decode newDecoder text target).ret = none →
      (Decode newDecoder text target).into = target) := by
  have hrej : d.UnmarshalJSON ≠ none := by
    intro hacc
    obtain ⟨-, gv, hgv⟩ := (UnmarshalJSON_iff d).1 hacc
    rw [ParseGroupVersion_slashes _ hbad] at hgv
    cases hgv
  have herr := decoderOver_rejected pre post d final hrej
  have hne : (decoderOver (pre ++ d :: post) final).err ≠ Error.EOF := by
    rw [herr]
    decide
  refine ⟨UnmarshalJSON_rejected d hrej, ?_, decodeKey_total, ?_⟩
  · rw [Decode_of_error (fun _ => decoderOver (pre ++ d :: post) final) inp (some into) hne,
      herr]
  · intro newDecoder text target hret
    by_cases heof : (newDecoder text).err = Error.EOF
    · have hok := insertObjs_ok (newDecoder text).docs (target.getD [])
        (fun o _ => ⟨_, decodeKey_total o⟩)
      rw [Decode_of_EOF newDecoder text target heof] at hret
      rcases hio : insertObjs (newDecoder text).docs (target.getD []) with ⟨e, m⟩
      rw [hio] at hok hret
      simp only at hok
      subst hok
      simp at hret
    · rw [Decode_of_error newDecoder text target heof]

/-- Witness of C30: the second of two documents has the apiVersion `a/b/c`; the
supplied map, which holds a ConfigMap, is as it was after the failed call. -/
theorem Decode_rejected_document_witness :
    Decode (fun _ => decoderOver
        ([exampleService "web"] ++ exampleTriple "a/b/c" "Deployment" "web" :: []) Error.EOF)
      "" (some [(exampleConfigMapKey "a", exampleConfigMap "a" "x")]) =
      { ret := none, err := some Error.missingKind,
        into := some [(exampleConfigMapKey "a", exampleConfigMap "a" "x")] } :=
  (Decode_rejected_document [exampleService "web"] []
    (exampleTriple "a/b/c" "Deployment" "web") Error.EOF ""
    [(exampleConfigMapKey "a", exampleConfigMap "a" "x")] (by decide)).2.1

/-! ### mutateField -/

theorem mapSet_same {κ ν : Type} [DecidableEq κ] (m : List (κ × ν)) (k : κ) (v : ν)
    (h : mapGet m k = some v) : mapSet m k v = m := by
  induction m with
  | nil => simp [mapGet] at h
  | cons p rest ih =>
    rcases p with ⟨k', v'⟩
    by_cases hk : k' = k
    · subst hk
      simp only [mapGet, if_true, Option.some.injEq] at h
      simp [mapSet, h]
    · simp only [mapGet, hk, if_false] at h
      simp [mapSet, hk, ih h]

theorem mapSet_mapSet {κ ν : Type} [DecidableEq κ] (m : List (κ × ν)) (k : κ) (a b : ν) :
    mapSet (mapSet m k a) k b = mapSet m k b := by
  induction m with
  | nil => simp [mapSet]
  | cons p rest ih =>
    rcases p with ⟨k', v'⟩
    by_cases hk : k' = k
    · simp [mapSet, hk]
    · simp [mapSet, hk, ih]

theorem mapKeys_mapSet_present {κ ν : Type} [DecidableEq κ] (m : List (κ × ν)) (k : κ) (v : ν)
    (h : mapGet m k ≠ none) : mapKeys (mapSet m k v) = mapKeys m := by
  rw [mapKeys_mapSet]
  have : k ∈ mapKeys m := by
    by_contra hc
    exact h ((mapGet_eq_none_iff m k).2 hc)
  simp [this]

theorem mapIndex_of_get (m : Fields) (k : String) (v : Value) (h : mapGet m k = some v) :
    mapIndex m k = v := by
  simp [mapIndex, h]

theorem mutateField_nil (m : Fields) (c : Bool) (fns : List mutateFunc) :
    mutateField m [] c fns = (m, none) := by
  unfold mutateField
  rfl

theorem mutateField_absent (m : Fields) (key : String) (rest : List String)
    (fns : List mutateFunc) (h : mapGet m key = none) :
    mutateField m (key :: rest) false fns = (m, none) := by
  unfold mutateField
  simp [h]

theorem mutateField_single_present (m : Fields) (key : String) (c : Bool)
    (fns : List mutateFunc) (v : Value) (h : mapGet m key = some v) :
    mutateField m [key] c fns = applyFns m key fns := by
  unfold mutateField
  simp [h]

theorem mutateField_single_created (m : Fields) (key : String) (fns : List mutateFunc)
    (h : mapGet m key = none) :
    mutateField m [key] true fns = applyFns (mapSet m key (Value.map [])) key fns := by
  unfold mutateField
  simp [h]

theorem mutateField_deeper_present (m : Fields) (key next : String) (rest : List String)
    (c : Bool) (fns : List mutateFunc) (v : Value) (h : mapGet m key = some v) :
    mutateField m (key :: next :: rest) c fns =
      match v with
      | Value.map typedV =>
        (mapSet m key (Value.map (mutateField typedV (next :: rest) c fns).1),
          (mutateField typedV (next :: rest) c fns).2)
      | Value.list typedV =>
        (mapSet m key (Value.list
            (mutateItems (fun typedItem => mutateField typedItem (next :: rest) c fns) typedV).1),
          (mutateItems (fun typedItem => mutateField typedItem (next :: rest) c fns) typedV).2)
      | _ => (m, some Error.primitiveType) := by
  rw [mutateField]
  simp only [h, Option.isSome_some, Bool.not_true, Bool.false_and, if_true, mapIndex,
    Option.getD_some]
  cases v <;> simp

theorem mutateField_deeper_created (m : Fields) (key next : String) (rest : List String)
    (fns : List mutateFunc) (h : mapGet m key = none) :
    mutateField m (key :: next :: rest) true fns =
      (mapSet m key (Value.map (mutateField [] (next :: rest) true fns).1),
        (mutateField [] (next :: rest) true fns).2) := by
  have hg : mapGet (mapSet m key (Value.map [])) key = some (Value.map []) :=
    mapGet_mapSet_self _ _ _
  rw [mutateField]
  simp [h, mapIndex, hg, mapSet_mapSet]

theorem applyFns_keys (m : Fields) (key : String) (fns : List mutateFunc) :
    ∀ k', k' ≠ key → mapGet (applyFns m key fns).1 k' = mapGet m k' := by
  induction fns generalizing m with
  | nil => intro k' _; rfl
  | cons f fs ih =>
    intro k' hk'
    simp only [applyFns]
    cases h : (f (mapIndex m key)).2 with
    | some e => exact mapGet_mapSet_ne _ _ _ _ (Ne.symm hk')
    | none =>
      simp only
      rw [ih _ k' hk']
      exact mapGet_mapSet_ne _ _ _ _ (Ne.symm hk')

theorem applyFns_chain (m : Fields) (key : String) (fns : List mutateFunc) (v0 : Value)
    (hk : mapGet m key = some v0)
    (hsucc : ∀ pre f post, fns = pre ++ f :: post →
      (f (pre.foldl (fun v g => (g v).1) v0)).2 = none) :
    applyFns m key fns = (mapSet m key (fns.foldl (fun v g => (g v).1) v0), none) := by
  induction fns generalizing m v0 with
  | nil => simp [applyFns, mapSet_same m key v0 hk]
  | cons f fs ih =>
    have h0 : (f v0).2 = none := hsucc [] f fs rfl
    simp only [applyFns, mapIndex_of_get m key v0 hk, h0, List.foldl_cons]
    rw [ih (mapSet m key (f v0).1) (f v0).1 (mapGet_mapSet_self _ _ _)]
    · rw [mapSet_mapSet]
    · intro pre g post hfs
      have := hsucc (f :: pre) g post (by rw [hfs]; rfl)
      simpa using this

theorem mutateItems_error (recurse : Fields → Fields × Option Error) (items : List Value)
    (h : ∃ it ∈ items, ∀ f, it ≠ Value.map f) : (mutateItems recurse items).2 ≠ none := by
  induction items with
  | nil =>
    obtain ⟨it, hit, -⟩ := h
    cases hit
  | cons item rest ih =>
    cases item with
    | map f =>
      simp only [mutateItems]
      cases hr : (recurse f).2 with
      | some e => simp
      | none =>
        simp only
        apply ih
        obtain ⟨it, hit, hne⟩ := h
        rcases List.mem_cons.1 hit with rfl | hit
        · exact absurd rfl (hne f)
        · exact ⟨it, hit, hne⟩
    | null => simp [mutateItems]
    | bool b => simp [mutateItems]
    | num n => simp [mutateItems]
    | str s => simp [mutateItems]
    | list l => simp [mutateItems]

/-- C11: mutateField returns nil and leaves the mapping as it is, whatever the
transforms are (none of them is applied), when the path is empty and when the
first key of a non-empty path is absent and createIfNotPresent is false. -/
theorem mutateField_noop (m : Fields) (path : List String) (c : Bool) (fns : List mutateFunc)
    (h : path = [] ∨ ∃ key rest, path = key :: rest ∧ mapGet m key = none ∧ c = false) :
    mutateField m path c fns = (m, none) := by
  rcases h with rfl | ⟨key, rest, rfl, hk, rfl⟩
  · exact mutateField_nil m c fns
  · exact mutateField_absent m key rest fns hk

/-- Witness of C11: a path to an absent field of a mapping, with a transform that
replaces every value and fails. -/
theorem mutateField_noop_witness :
    mutateField [("kind", Value.str "ConfigMap")] ["spec", "template"] false
        [fun _ => (Value.null, some Error.expectedType)] =
      ([("kind", Value.str "ConfigMap")], none) :=
  mutateField_noop [("kind", Value.str "ConfigMap")] ["spec", "template"] false
    [fun _ => (Value.null, some Error.expectedType)]
    (Or.inr ⟨"spec", ["template"], rfl, rfl, rfl⟩)

/-- C12: on a single-segment path whose key is present, with transforms that all
succeed on the value they receive, mutateField returns nil and the value at the
key becomes the result of the transforms applied one after the other, each to
the result of the one before; the other keys keep their values, no key is added
or removed, and with no transform the mapping is unchanged. -/
theorem mutateField_last_segment (m : Fields) (k : String) (v0 : Value) (c : Bool)
    (fns : List mutateFunc) (hk : mapGet m k = some v0)
    (hsucc : ∀ pre f post, fns = pre ++ f :: post →
      (f (pre.foldl (fun v g => (g v).1) v0)).2 = none) :
    mutateField m [k] c fns = (mapSet m k (fns.foldl (fun v g => (g v).1) v0), none) ∧
    mapGet (mutateField m [k] c fns).1 k = some (fns.foldl (fun v g => (g v).1) v0) ∧
    (∀ k', k' ≠ k → mapGet (mutateField m [k] c fns).1 k' = mapGet m k') ∧
    mapKeys (mutateField m [k] c fns).1 = mapKeys m ∧
    (fns = [] → mutateField m [k] c fns = (m, none)) := by
  have h1 : mutateField m [k] c fns =
      (mapSet m k (fns.foldl (fun v g => (g v).1) v0), none) := by
    rw [mutateField_single_present m k c fns v0 hk]
    exact applyFns_chain m k fns v0 hk hsucc
  refine ⟨h1, ?_, ?_, ?_, ?_⟩
  · rw [h1]; exact mapGet_mapSet_self _ _ _
  · intro k' hk'
    rw [h1]; exact mapGet_mapSet_ne _ _ _ _ (Ne.symm hk')
  · rw [h1]
    exact mapKeys_mapSet_present m k _ (by rw [hk]; simp)
  · intro hnil
    subst hnil
    rw [h1]
    simp [mapSet_same m k v0 hk]

/-- Witness of C12: two transforms on the field `replicas`. -/
theorem mutateField_last_segment_witness :
    mutateField [("replicas", Value.num 1), ("paused", Value.bool false)] ["replicas"] false
        [fun _ => (Value.num 2, none), fun v => (Value.list [v], none)] =
      (mapSet [("replicas", Value.num 1), ("paused", Value.bool false)] "replicas"
        (Value.list [Value.num 2]), none) :=
  (mutateField_last_segment [("replicas", Value.num 1), ("paused", Value.bool false)]
    "replicas" (Value.num 1) false
    [fun _ => (Value.num 2, none), fun v => (Value.list [v], none)] rfl
    (by
      intro pre f post h
      rcases pre with _ | ⟨a, _ | ⟨b, pre⟩⟩
      · simp only [List.nil_append, List.cons.injEq] at h
        rw [← h.1]
      · simp only [List.cons_append, List.nil_append, List.cons.injEq] at h
        rw [← h.2.1]
      · simp at h)).1

theorem mutateItems_all (recurse : Fields → Fields × Option Error) (upd : Fields → Fields)
    (items : List Value) (hmaps : ∀ it ∈ items, ∃ fields, it = Value.map fields)
    (hrec : ∀ fields, Value.map fields ∈ items → recurse fields = (upd fields, none)) :
    mutateItems recurse items =
      (items.map (fun it => match it with
        | Value.map fields => Value.map (upd fields)
        | other => other), none) := by
  induction items with
  | nil => rfl
  | cons item rest ih =>
    obtain ⟨fields, rfl⟩ := hmaps item (List.mem_cons_self _ _)
    simp only [mutateItems, hrec fields (List.mem_cons_self _ _), List.map_cons]
    rw [ih (fun it hit => hmaps it (List.mem_cons_of_mem _ hit))
      (fun f hf => hrec f (List.mem_cons_of_mem _ hf))]

/-- C14: when the value at the first key is a list of mappings, the remaining path
is the single key k, createIfNotPresent is false and the transforms succeed on
the values they are applied to (in each element with k, each transform on the
result of those before it), mutateField returns nil; the list keeps its length
and the order of its elements, an element without k is unchanged, and in an
element with k the value at k becomes the result of the transforms applied in
sequence. -/
theorem mutateField_list_elements (m : Fields) (p0 k : String) (items : List Value)
    (fns : List mutateFunc)
    (hp : mapGet m p0 = some (Value.list items))
    (hmaps : ∀ it ∈ items, ∃ fields, it = Value.map fields)
    (hsucc : ∀ fields v0, Value.map fields ∈ items → mapGet fields k = some v0 →
      ∀ pre f post, fns = pre ++ f :: post →
        (f (pre.foldl (fun (v : Value) (g : mutateFunc) => (g v).1) v0)).2 = none) :
    ∃ items' : List Value,
      mutateField m [p0, k] false fns = (mapSet m p0 (Value.list items'), none) ∧
      items'.length = items.length ∧
      ∀ (i : Nat) (fields : Fields), items[i]? = some (Value.map fields) →
        (mapGet fields k = none → items'[i]? = some (Value.map fields)) ∧
        (∀ v, mapGet fields k = some v →
          items'[i]? = some (Value.map
            (mapSet fields k (fns.foldl (fun (v : Value) (g : mutateFunc) => (g v).1) v)))) := by
  have hrec : ∀ fields : Fields, Value.map fields ∈ items →
      mutateField fields [k] false fns =
      ((match mapGet fields k with
        | some v => mapSet fields k (fns.foldl (fun v g => (g v).1) v)
        | none => fields), none) := by
    intro fields hmem
    cases hg : mapGet fields k with
    | none => exact mutateField_absent fields k [] fns hg
    | some v =>
      rw [mutateField_single_present fields k false fns v hg]
      exact applyFns_chain fields k fns v hg (hsucc fields v hmem hg)
  refine ⟨items.map (fun it => match it with
      | Value.map fields => Value.map (match mapGet fields k with
        | some v => mapSet fields k (fns.foldl (fun v g => (g v).1) v)
        | none => fields)
      | other => other), ?_, ?_, ?_⟩
  · rw [mutateField_deeper_present m p0 k [] false fns _ hp]
    simp only
    rw [mutateItems_all _ _ items hmaps hrec]
  · exact List.length_map _ _
  · intro i fields hi
    rw [List.getElem?_map, hi]
    constructor
    · intro hnone
      simp [hnone]
    · intro v hv
      simp [hv]

/-- Witness of C14: two containers, of which only the first has `env`, and the
transform that merges the label `tier: backend` into the mapping at `env`. -/
theorem mutateField_list_elements_witness :
    ∃ items' : List Value,
      mutateField
          [("containers", Value.list
            [Value.map [("name", Value.str "a"), ("env", Value.map [])],
             Value.map [("name", Value.str "b")]])]
          ["containers", "env"] false [exampleLabels.addMap] =
        (mapSet
          [("containers", Value.list
            [Value.map [("name", Value.str "a"), ("env", Value.map [])],
             Value.map [("name", Value.str "b")]])]
          "containers" (Value.list items'), none) ∧
      items'.length =
        [Value.map [("name", Value.str "a"), ("env", Value.map [])],
         Value.map [("name", Value.str "b")]].length ∧
      items'[0]? = some (Value.map [("name", Value.str "a"),
        ("env", Value.map [("tier", Value.str "backend")])]) ∧
      items'[1]? = some (Value.map [("name", Value.str "b")]) :=
  (mutateField_list_elements
    [("containers", Value.list
      [Value.map [("name", Value.str "a"), ("env", Value.map [])],
       Value.map [("name", Value.str "b")]])]
    "containers" "env"
    [Value.map [("name", Value.str "a"), ("env", Value.map [])],
     Value.map [("name", Value.str "b")]]
    [exampleLabels.addMap]
    rfl
    (by
      intro it hit
      simp only [List.mem_cons, List.mem_singleton, List.not_mem_nil, or_false] at hit
      rcases hit with rfl | rfl
      · exact ⟨_, rfl⟩
      · exact ⟨_, rfl⟩)
    (by
      intro fields v0 hmem hget pre f post hfns
      have hpre : pre = [] ∧ f = exampleLabels.addMap ∧ post = [] := by
        cases pre with
        | nil =>
          simp only [List.nil_append, List.cons.injEq] at hfns
          exact ⟨rfl, hfns.1.symm, hfns.2.symm⟩
        | cons p ps =>
          simp only [List.cons_append, List.cons.injEq] at hfns
          have := congrArg List.length hfns.2
          simp only [List.length_nil, List.length_append, List.length_cons] at this
          omega
      obtain ⟨rfl, rfl, rfl⟩ := hpre
      simp only [List.mem_cons, List.mem_singleton, List.not_mem_nil, or_false,
        Value.map.injEq] at hmem
      rcases hmem with rfl | rfl
      · have hv : v0 = Value.map [] := by
          have h2 : mapGet [("name", Value.str "a"), ("env", Value.map [])] "env" =
              some (Value.map []) := rfl
          rw [h2] at hget
          exact (Option.some.inj hget).symm
        subst hv
        rfl
      · have h2 : mapGet [("name", Value.str "b")] "env" = none := rfl
        rw [h2] at hget
        cases hget)).imp (fun _ h => ⟨h.1, h.2.1, (h.2.2 0 _ rfl).2 _ rfl, (h.2.2 1 _ rfl).1 rfl⟩)

/-- C15: on a path of at least two segments whose first key is present,
mutateField returns an error when the value at that key is neither a mapping
nor a list, and when it is a list with an element that is not a mapping. -/
theorem mutateField_unexpected_shape (m : Fields) (p0 p1 : String) (rest : List String)
    (c : Bool) (fns : List mutateFunc) (v : Value) (hv : mapGet m p0 = some v) :
    ((∀ f, v ≠ Value.map f) → (∀ l, v ≠ Value.list l) →
      (mutateField m (p0 :: p1 :: rest) c fns).2 = some Error.primitiveType) ∧
    (∀ items, v = Value.list items → (∃ it ∈ items, ∀ f, it ≠ Value.map f) →
      (mutateField m (p0 :: p1 :: rest) c fns).2 ≠ none) := by
  rw [mutateField_deeper_present m p0 p1 rest c fns v hv]
  constructor
  · intro h1 h2
    cases v with
    | map f => exact absurd rfl (h1 f)
    | list l => exact absurd rfl (h2 l)
    | null => rfl
    | bool b => rfl
    | num n => rfl
    | str s => rfl
  · rintro items rfl hbad
    exact mutateItems_error _ items hbad

/-- Witness of C15: the path `kind`, `x` in an object whose kind is a string. -/
theorem mutateField_unexpected_shape_witness :
    mapGet [("kind", Value.str "Deployment")] "kind" = some (Value.str "Deployment") ∧
    (mutateField [("kind", Value.str "Deployment")] ["kind", "x"] true []).2 =
      some Error.primitiveType :=
  ⟨rfl,
    (mutateField_unexpected_shape [("kind", Value.str "Deployment")] "kind" "x" [] true []
      (Value.str "Deployment") rfl).1
      (fun f h => by cases h) (fun l h => by cases h)⟩

theorem mutateField_other_keys (m : Fields) (key : String) (rest : List String) (c : Bool)
    (fns : List mutateFunc) (k' : String) (hk' : k' ≠ key) :
    mapGet (mutateField m (key :: rest) c fns).1 k' = mapGet m k' := by
  have hne : key ≠ k' := Ne.symm hk'
  cases hg : mapGet m key with
  | none =>
    cases c with
    | false => rw [mutateField_absent m key rest fns hg]
    | true =>
      cases rest with
      | nil =>
        rw [mutateField_single_created m key fns hg, applyFns_keys _ _ _ k' hk']
        exact mapGet_mapSet_ne _ _ _ _ hne
      | cons next rest' =>
        rw [mutateField_deeper_created m key next rest' fns hg]
        exact mapGet_mapSet_ne _ _ _ _ hne
  | some v =>
    cases rest with
    | nil =>
      rw [mutateField_single_present m key c fns v hg]
      exact applyFns_keys _ _ _ k' hk'
    | cons next rest' =>
      rw [mutateField_deeper_present m key next rest' c fns v hg]
      cases v with
      | map f => exact mapGet_mapSet_ne _ _ _ _ hne
      | list l => exact mapGet_mapSet_ne _ _ _ _ hne
      | null => rfl
      | bool b => rfl
      | num n => rfl
      | str s => rfl

theorem fieldAt_cons_of_ne (m m' : Fields) (a : String) (q : List String)
    (h : mapGet m' a = mapGet m a) : fieldAt m' (a :: q) = fieldAt m (a :: q) := by
  simp only [fieldAt, h]

theorem fieldAt_deeper (m : Fields) (key a : String) (q : List String) (sub : Fields)
    (h : mapGet m key = some (Value.map sub)) :
    fieldAt m (key :: a :: q) = fieldAt sub (a :: q) := by
  simp only [fieldAt, h]

theorem fieldAt_nil_cons (a : String) (q : List String) :
    fieldAt [] (a :: q) = Lookup.absent := by
  simp [fieldAt, mapGet]

/-- What lies off the path is left as it was: the value at every path that diverges
from the path of the call is the same before and after `mutateField`. -/
theorem mutateField_frame (path : List String) :
    ∀ (m : Fields) (c : Bool) (fns : List mutateFunc) (q : List String), diverge q path →
      fieldAt (mutateField m path c fns).1 q = fieldAt m q := by
  induction path with
  | nil =>
    intro m c fns q hd
    cases q <;> simp [diverge] at hd
  | cons key rest ih =>
    intro m c fns q hd
    cases q with
    | nil => simp [diverge] at hd
    | cons a q' =>
      by_cases ha : a = key
      · subst ha
        have hd' : diverge q' rest := by
          simp only [diverge] at hd
          rcases hd with h | h
          · exact absurd rfl h
          · exact h
        cases q' with
        | nil => simp [diverge] at hd'
        | cons a' q'' =>
          cases rest with
          | nil => simp [diverge] at hd'
          | cons next rest' =>
            cases hg : mapGet m a with
            | none =>
              cases c with
              | false => rw [mutateField_absent m a _ fns hg]
              | true =>
                rw [mutateField_deeper_created m a next rest' fns hg]
                rw [fieldAt_deeper _ a a' q'' _ (mapGet_mapSet_self _ _ _)]
                rw [ih [] true fns (a' :: q'') hd', fieldAt_nil_cons]
                simp [fieldAt, hg]
            | some v =>
              rw [mutateField_deeper_present m a next rest' c fns v hg]
              cases v with
              | map sub =>
                simp only
                rw [fieldAt_deeper _ a a' q'' _ (mapGet_mapSet_self _ _ _)]
                rw [ih sub c fns (a' :: q'') hd']
                rw [fieldAt_deeper m a a' q'' sub hg]
              | list l =>
                simp only
                simp [fieldAt, hg, mapGet_mapSet_self]
              | null => rfl
              | bool b => rfl
              | num n => rfl
              | str s => rfl
      · exact fieldAt_cons_of_ne _ _ _ _ (mutateField_other_keys m key rest c fns a ha)

theorem addMap_lookup (pairs : List (String × String)) (L : Fields)
    (hnd : (mapKeys pairs).Nodup) (k : String) :
    mapGet (pairs.foldl (fun acc kv => mapSet acc kv.1 (Value.str kv.2)) L) k =
      match mapGet pairs k with
      | some s => some (Value.str s)
      | none => mapGet L k := by
  induction pairs generalizing L with
  | nil => rfl
  | cons p rest ih =>
    rcases p with ⟨k0, s0⟩
    simp only [mapKeys, List.map_cons, List.nodup_cons] at hnd
    rw [List.foldl_cons, ih _ hnd.2]
    by_cases hk : k0 = k
    · subst hk
      have : mapGet rest k0 = none := (mapGet_eq_none_iff rest k0).2 hnd.1
      simp [mapGet, this, mapGet_mapSet_self]
    · simp only [mapGet, hk, if_false]
      rw [mapGet_mapSet_ne _ _ _ _ hk]

theorem addMap_at_path (o : MapTransformer) (hnd : (mapKeys o.m).Nodup)
    (path : List String) (hne : path ≠ []) :
    ∀ (m L : Fields),
      ((fieldAt m path = Lookup.absent ∧ L = []) ∨
        fieldAt m path = Lookup.found (Value.map L)) →
      (mutateField m path true [o.addMap]).2 = none ∧
      ∃ L', fieldAt (mutateField m path true [o.addMap]).1 path = Lookup.found (Value.map L') ∧
        ∀ k, mapGet L' k = match mapGet o.m k with
          | some s => some (Value.str s)
          | none => mapGet L k := by
  induction path with
  | nil => exact absurd rfl hne
  | cons key rest ih =>
    intro m L hat
    cases rest with
    | nil =>
      cases hg : mapGet m key with
      | none =>
        have hL : L = [] := by
          rcases hat with h | h
          · exact h.2
          · simp [fieldAt, hg] at h
        subst hL
        rw [mutateField_single_created m key _ hg]
        simp only [applyFns, mapIndex, mapGet_mapSet_self, Option.getD_some,
          MapTransformer.addMap, mapSet_mapSet]
        refine ⟨trivial, _, ?_, addMap_lookup o.m [] hnd⟩
        simp [fieldAt, mapGet_mapSet_self]
      | some v =>
        have hv : v = Value.map L := by
          rcases hat with h | h
          · simp [fieldAt, hg] at h
          · simpa [fieldAt, hg] using h
        subst hv
        rw [mutateField_single_present m key true _ _ hg]
        simp only [applyFns, mapIndex, hg, Option.getD_some, MapTransformer.addMap]
        refine ⟨trivial, _, ?_, addMap_lookup o.m L hnd⟩
        simp [fieldAt, mapGet_mapSet_self]
    | cons next rest' =>
      have ih' := ih (by simp)
      cases hg : mapGet m key with
      | none =>
        have hL : L = [] := by
          rcases hat with h | h
          · exact h.2
          · simp [fieldAt, hg] at h
        subst hL
        rw [mutateField_deeper_created m key next rest' _ hg]
        obtain ⟨h1, L', h2, h3⟩ := ih' [] [] (Or.inl ⟨fieldAt_nil_cons _ _, rfl⟩)
        refine ⟨h1, L', ?_, h3⟩
        rw [fieldAt_deeper _ key next rest' _ (mapGet_mapSet_self _ _ _)]
        exact h2
      | some v =>
        cases v with
        | map sub =>
          rw [mutateField_deeper_present m key next rest' true _ _ hg]
          simp only
          have hat' : (fieldAt sub (next :: rest') = Lookup.absent ∧ L = []) ∨
              fieldAt sub (next :: rest') = Lookup.found (Value.map L) := by
            rw [fieldAt_deeper m key next rest' sub hg] at hat
            exact hat
          obtain ⟨h1, L', h2, h3⟩ := ih' sub L hat'
          refine ⟨h1, L', ?_, h3⟩
          rw [fieldAt_deeper _ key next rest' _ (mapGet_mapSet_self _ _ _)]
          exact h2
        | list l => rcases hat with h | h <;> simp [fieldAt, hg] at h
        | null => rcases hat with h | h <;> simp [fieldAt, hg] at h
        | bool b => rcases hat with h | h <;> simp [fieldAt, hg] at h
        | num n => rcases hat with h | h <;> simp [fieldAt, hg] at h
        | str s => rcases hat with h | h <;> simp [fieldAt, hg] at h

/-- C13, as stated, fails at the empty path: the value at the empty path is the
mapping itself, mutateField returns at once, and the mapping is not overridden
by the pairs of the transformer. -/
theorem mutateField_addMap_counterexample :
    fieldAt [] [] = Lookup.found (Value.map []) ∧
    mutateField [] [] true [exampleLabels.addMap] = ([], none) ∧
    mapGet exampleLabels.m "tier" = some "backend" ∧
    mapGet ([] : Fields) "tier" = none :=
  ⟨rfl, rfl, rfl, rfl⟩

/-- C13, amended to non-empty paths: with createIfNotPresent and the addMap of a
transformer with pairs M, when the value at a non-empty path of mapping keys is
absent or a mapping L, mutateField returns nil; afterwards the value at the path
is a mapping in which every key of M has the value of M and every other key has
what L had (nothing when the field was absent), and the value at every path
that diverges from the path is what it was. -/
theorem mutateField_addMap (o : MapTransformer) (m : Fields) (path : List String) (L : Fields)
    (hne : path ≠ []) (hnd : (mapKeys o.m).Nodup)
    (hat : (fieldAt m path = Lookup.absent ∧ L = []) ∨
      fieldAt m path = Lookup.found (Value.map L)) :
    (mutateField m path true [o.addMap]).2 = none ∧
    (∃ L', fieldAt (mutateField m path true [o.addMap]).1 path = Lookup.found (Value.map L') ∧
      ∀ k, mapGet L' k = match mapGet o.m k with
        | some s => some (Value.str s)
        | none => mapGet L k) ∧
    (∀ q, diverge q path →
      fieldAt (mutateField m path true [o.addMap]).1 q = fieldAt m q) := by
  obtain ⟨h1, h2⟩ := addMap_at_path o hnd path hne m L hat
  exact ⟨h1, h2, mutateField_frame path m true [o.addMap]⟩

/-- Witness of the amended C13: a Deployment without `metadata.labels` ends with
`metadata.labels` equal to `tier: backend`. -/
theorem mutateField_addMap_witness :
    fieldAt (exampleDeployment "web").Object ["metadata", "labels"] = Lookup.absent ∧
    fieldAt (mutateField (exampleDeployment "web").Object ["metadata", "labels"] true
        [exampleLabels.addMap]).1 ["metadata", "labels"] =
      Lookup.found (Value.map [("tier", Value.str "backend")]) ∧
    (mutateField (exampleDeployment "web").Object ["metadata", "labels"] true
        [exampleLabels.addMap]).2 = none :=
  ⟨rfl, rfl,
    (mutateField_addMap exampleLabels (exampleDeployment "web").Object ["metadata", "labels"] []
      (by simp) (by decide) (Or.inl ⟨rfl, rfl⟩)).1⟩

/-! ### MapTransformer.Transform -/

theorem transformObject_unselected (o : MapTransformer) (gvk : GroupVersionKind)
    (objMap : Fields) (pcs : List PathConfig)
    (h : ∀ pc ∈ pcs, SelectByGVK gvk pc.GroupVersionKind = false) :
    transformObject o gvk objMap pcs = (objMap, none) := by
  induction pcs with
  | nil => rfl
  | cons pc rest ih =>
    simp only [transformObject, h pc (List.mem_cons_self _ _), Bool.not_false, if_true]
    exact ih (fun pc' hpc' => h pc' (List.mem_cons_of_mem _ hpc'))

theorem Transform_success (o : MapTransformer) (m : WorkingSet)
    (hsucc : (o.Transform m).2 = none) :
    (o.Transform m).1 = m.map (fun e =>
      (e.1, { Object := (transformObject o e.1.GVK e.2.Object o.pathConfigs).1 })) := by
  induction m with
  | nil => rfl
  | cons e rest ih =>
    rcases e with ⟨gvkn, obj⟩
    simp only [MapTransformer.Transform] at hsucc ⊢
    cases hr : (transformObject o gvkn.GVK obj.Object o.pathConfigs).2 with
    | some err =>
      rw [hr] at hsucc
      simp at hsucc
    | none =>
      rw [hr] at hsucc
      simp only at hsucc ⊢
      rw [ih hsucc]
      rfl

/-- C16: in a successful Transform every resource is processed, its content
becoming the result of the loop over the path configs, and a resource stored
under a key whose type coordinates are selected by none of the path configs is
left as it was. -/
theorem Transform_unselected (o : MapTransformer) (m : WorkingSet)
    (hsucc : (o.Transform m).2 = none) :
    (o.Transform m).1 = m.map (fun e =>
      (e.1, { Object := (transformObject o e.1.GVK e.2.Object o.pathConfigs).1 })) ∧
    (∀ (i : Nat) (gvkn : GroupVersionKindName) (obj : Unstructured),
      m[i]? = some (gvkn, obj) →
      (∀ pc ∈ o.pathConfigs, SelectByGVK gvkn.GVK pc.GroupVersionKind = false) →
      (o.Transform m).1[i]? = some (gvkn, obj)) := by
  have h1 := Transform_success o m hsucc
  refine ⟨h1, ?_⟩
  intro i gvkn obj hi hsel
  rw [h1, List.getElem?_map, hi]
  simp only [Option.map_some']
  rw [transformObject_unselected o gvkn.GVK obj.Object o.pathConfigs hsel]

/-- Witness of C16: with path configs restricted to kind Service, the Deployment is
left as it was and the Service gets the label. -/
theorem Transform_unselected_witness :
    (exampleLabels.Transform
      [(exampleDeploymentKey "web", exampleDeployment "web"),
       (exampleServiceKey "web", exampleService "web")]).2 = none ∧
    (exampleLabels.Transform
      [(exampleDeploymentKey "web", exampleDeployment "web"),
       (exampleServiceKey "web", exampleService "web")]).1[0]? =
      some (exampleDeploymentKey "web", exampleDeployment "web") ∧
    (exampleLabels.Transform
      [(exampleDeploymentKey "web", exampleDeployment "web"),
       (exampleServiceKey "web", exampleService "web")]).1[1]? =
      some (exampleServiceKey "web",
        { Object := [("apiVersion", Value.str "v1"), ("kind", Value.str "Service"),
            ("metadata", Value.map [("name", Value.str "web"),
              ("labels", Value.map [("tier", Value.str "backend")])])] }) :=
  ⟨rfl,
    (Transform_unselected exampleLabels
      [(exampleDeploymentKey "web", exampleDeployment "web"),
       (exampleServiceKey "web", exampleService "web")] rfl).2 0
      (exampleDeploymentKey "web") (exampleDeployment "web") rfl
      (by
        intro pc hpc
        simp only [exampleLabels, List.mem_singleton] at hpc
        subst hpc
        rfl),
    rfl⟩

/-! ### populateMap -/

theorem mapSet_absent {κ ν : Type} [DecidableEq κ] (m : List (κ × ν)) (k : κ) (v : ν)
    (h : mapGet m k = none) : mapSet m k v = m ++ [(k, v)] := by
  induction m with
  | nil => rfl
  | cons p rest ih =>
    rcases p with ⟨k', v'⟩
    by_cases hk : k' = k
    · simp [mapGet, hk] at h
    · simp only [mapGet, hk, if_false] at h
      simp [mapSet, hk, ih h]

theorem mapGet_append {κ ν : Type} [DecidableEq κ] (a b : List (κ × ν)) (k : κ) :
    mapGet (a ++ b) k = match mapGet a k with
      | some v => some v
      | none => mapGet b k := by
  induction a with
  | nil => rfl
  | cons p rest ih =>
    rcases p with ⟨k', v'⟩
    by_cases hk : k' = k
    · simp [mapGet, hk]
    · simp [mapGet, hk, ih]

theorem mapGet_of_mem {κ ν : Type} [DecidableEq κ] (m : List (κ × ν)) (k : κ) (v : ν)
    (hnd : (mapKeys m).Nodup) (hmem : (k, v) ∈ m) : mapGet m k = some v := by
  induction m with
  | nil => cases hmem
  | cons p rest ih =>
    rcases p with ⟨k', v'⟩
    simp only [mapKeys, List.map_cons, List.nodup_cons] at hnd
    rcases List.mem_cons.1 hmem with h | h
    · cases h
      simp [mapGet]
    · have hne : k' ≠ k := by
        rintro rfl
        exact hnd.1 (List.mem_map_of_mem Prod.fst h)
      simp only [mapGet, hne, if_false]
      exact ih hnd.2 h

theorem getString_mapSet_self (md : Fields) (name : String) :
    getString (mapSet md "name" (Value.str name)) "name" = name := by
  simp [getString, mapGet_mapSet_self]

theorem SetName_GetName (u : Unstructured) (name : String)
    (hmeta : mapGet u.Object "metadata" = none ∨
      ∃ md, mapGet u.Object "metadata" = some (Value.map md)) :
    (u.SetName name).GetName = name := by
  unfold Unstructured.SetName
  rcases hmeta with hmd | ⟨md, hmd⟩
  · simp only [hmd, Unstructured.GetName, mapGet_mapSet_self]
    rfl
  · simp only [hmd, Unstructured.GetName, mapGet_mapSet_self]
    exact getString_mapSet_self md name

theorem SetName_other_fields (u : Unstructured) (name field : String)
    (hf : field ≠ "metadata") :
    mapGet (u.SetName name).Object field = mapGet u.Object field := by
  unfold Unstructured.SetName
  cases hmd : mapGet u.Object "metadata" with
  | none => exact mapGet_mapSet_ne _ _ _ _ (Ne.symm hf)
  | some v =>
    cases v with
    | map md => exact mapGet_mapSet_ne _ _ _ _ (Ne.symm hf)
    | null => rfl
    | bool b => rfl
    | num n => rfl
    | str t => rfl
    | list l => rfl

theorem SetName_metadata (u : Unstructured) (name : String) (md : Fields)
    (hmd : mapGet u.Object "metadata" = some (Value.map md)) :
    mapGet (u.SetName name).Object "metadata" =
      some (Value.map (mapSet md "name" (Value.str name))) := by
  unfold Unstructured.SetName
  simp only [hmd]
  exact mapGet_mapSet_self _ _ _

theorem SetName_created (u : Unstructured) (name : String)
    (hmd : mapGet u.Object "metadata" = none) :
    mapGet (u.SetName name).Object "metadata" =
      some (Value.map [("name", Value.str name)]) := by
  unfold Unstructured.SetName
  simp only [hmd]
  exact mapGet_mapSet_self _ _ _

theorem SetName_blocked (u : Unstructured) (name : String) (v : Value)
    (hmd : mapGet u.Object "metadata" = some v) (hv : ∀ md, v ≠ Value.map md) :
    u.SetName name = u := by
  unfold Unstructured.SetName
  cases v with
  | map md => exact absurd rfl (hv md)
  | null => simp only [hmd]
  | bool b => simp only [hmd]
  | num n => simp only [hmd]
  | str t => simp only [hmd]
  | list l => simp only [hmd]

theorem objectToUnstructured_metadata (w : World) (inp : runtime.Object) :
    ∃ md, mapGet (objectToUnstructured w inp).1.Object "metadata" = some (Value.map md) := by
  cases inp with
  | configMap cm => exact ⟨metadataFields cm.Name, by simp [objectToUnstructured, mapGet]⟩
  | secret sc => exact ⟨metadataFields sc.Name, by simp [objectToUnstructured, mapGet]⟩

theorem populateMap_absent (m : WorkingSet) (obj : Unstructured) (newName : String)
    (h : mapGet m (populateKey obj) = none) :
    populateMap m obj newName =
      { err := none, m := m ++ [(populateKey obj, obj.SetName newName)],
        obj := obj.SetName newName } := by
  rw [populateMap_eq, h, ← mapSet_absent m _ _ h]
  rfl

/-- C17: when the key of the object, made of its type coordinates and its current
name, is already in the map, populateMap returns the error whose text contains
"duplicate name" and leaves the map and the object, its name included, as they
were. -/
theorem populateMap_duplicate (m : WorkingSet) (obj : Unstructured) (newName : String)
    (h : mapGet m (populateKey obj) ≠ none) :
    populateMap m obj newName =
      { err := some (Error.duplicateName obj.GetName obj.GroupVersionKind), m := m,
        obj := obj } ∧
    (populateMap m obj newName).obj.GetName = obj.GetName ∧
    (∀ quote : String → String, ∃ pre post : String,
      duplicateNameText quote obj.GetName obj.GroupVersionKind =
        pre ++ "duplicate name" ++ post) := by
  have h1 : populateMap m obj newName =
      { err := some (Error.duplicateName obj.GetName obj.GroupVersionKind), m := m,
        obj := obj } := by
    rw [populateMap_eq]
    cases hg : mapGet m (populateKey obj) with
    | none => exact absurd hg h
    | some v => rfl
  refine ⟨h1, by rw [h1], ?_⟩
  intro quote
  refine ⟨"cannot use a ", " " ++ quote obj.GetName ++ " for " ++ obj.GroupVersionKind.String, ?_⟩
  apply String.ext
  simp [duplicateNameText, String.data_append, List.append_assoc]

/-- Witness of C17: the second insertion of the Secret of the test `TestPopulateMap`. -/
theorem populateMap_duplicate_witness :
    mapGet [(exampleServiceKey "web", exampleService "web")]
      (populateKey (exampleService "web")) ≠ none ∧
    populateMap [(exampleServiceKey "web", exampleService "web")] (exampleService "web")
        "web-new" =
      { err := some (Error.duplicateName "web" { Group := "", Version := "v1", Kind := "Service" }),
        m := [(exampleServiceKey "web", exampleService "web")],
        obj := exampleService "web" } :=
  ⟨(by
      intro h
      have h2 : mapGet [(exampleServiceKey "web", exampleService "web")]
          (populateKey (exampleService "web")) = some (exampleService "web") := rfl
      rw [h2] at h
      cases h),
    (populateMap_duplicate [(exampleServiceKey "web", exampleService "web")]
      (exampleService "web") "web-new"
      (by
        intro h
        have h2 : mapGet [(exampleServiceKey "web", exampleService "web")]
            (populateKey (exampleService "web")) = some (exampleService "web") := rfl
        rw [h2] at h
        cases h)).1⟩

/-- C18, as stated, fails for an object whose `metadata` is not a mapping: populateMap
succeeds and stores the object under its key, and the stored object has not
been renamed. -/
theorem populateMap_fresh_counterexample :
    mapGet ([] : WorkingSet) (populateKey exampleOddMetadata) = none ∧
    populateMap [] exampleOddMetadata "generated" =
      { err := none, m := [(populateKey exampleOddMetadata, exampleOddMetadata)],
        obj := exampleOddMetadata } ∧
    exampleOddMetadata.GetName = "" :=
  ⟨rfl, rfl, rfl⟩

/-- C18, amended to objects whose `metadata` is absent or a mapping: when the key of
the object, made of its type coordinates and its current name, is not in the
map, populateMap returns nil; the map gains the one entry under that key (with
the original name), which holds the object renamed to newName; the entries that
were in the map are unchanged; and the renamed object differs from the original
in `metadata.name` only: the other top-level fields and the other fields of
`metadata` keep their values, and a `metadata` that was absent holds the name
alone. -/
theorem populateMap_fresh (m : WorkingSet) (obj : Unstructured) (newName : String)
    (hmeta : mapGet obj.Object "metadata" = none ∨
      ∃ md, mapGet obj.Object "metadata" = some (Value.map md))
    (h : mapGet m (populateKey obj) = none) :
    populateMap m obj newName =
      { err := none, m := m ++ [(populateKey obj, obj.SetName newName)],
        obj := obj.SetName newName } ∧
    (populateKey obj).Name = obj.GetName ∧
    (populateKey obj).GVK = obj.GroupVersionKind ∧
    mapGet (populateMap m obj newName).m (populateKey obj) = some (obj.SetName newName) ∧
    (∀ k, k ≠ populateKey obj → mapGet (populateMap m obj newName).m k = mapGet m k) ∧
    (obj.SetName newName).GetName = newName ∧
    (∀ field, field ≠ "metadata" →
      mapGet (obj.SetName newName).Object field = mapGet obj.Object field) ∧
    (∀ md, mapGet obj.Object "metadata" = some (Value.map md) →
      ∃ md', mapGet (obj.SetName newName).Object "metadata" = some (Value.map md') ∧
        mapGet md' "name" = some (Value.str newName) ∧
        ∀ field, field ≠ "name" → mapGet md' field = mapGet md field) ∧
    (mapGet obj.Object "metadata" = none →
      mapGet (obj.SetName newName).Object "metadata" =
        some (Value.map [("name", Value.str newName)])) := by
  have h1 := populateMap_absent m obj newName h
  refine ⟨h1, rfl, rfl, ?_, ?_, SetName_GetName obj newName hmeta,
    fun field hf => SetName_other_fields obj newName field hf, ?_,
    SetName_created obj newName⟩
  · rw [h1, mapGet_append, h]
    simp [mapGet]
  · intro k hk
    rw [h1, mapGet_append]
    cases mapGet m k with
    | some v => rfl
    | none => simp [mapGet, Ne.symm hk]
  · intro md hmd
    refine ⟨_, SetName_metadata obj newName md hmd, mapGet_mapSet_self _ _ _, ?_⟩
    intro field hf
    exact mapGet_mapSet_ne _ _ _ _ (Ne.symm hf)

/-- Witness of C18: the first insertion of the test `TestPopulateMap`, on a Service. -/
theorem populateMap_fresh_witness :
    mapGet ([] : WorkingSet) (populateKey (exampleService "web")) = none ∧
    populateMap [] (exampleService "web") "web-new" =
      { err := none,
        m := [] ++ [(populateKey (exampleService "web"),
          (exampleService "web").SetName "web-new")],
        obj := (exampleService "web").SetName "web-new" } :=
  ⟨rfl, (populateMap_fresh [] (exampleService "web") "web-new"
    (Or.inr ⟨[("name", Value.str "web")], rfl⟩) rfl).1⟩

/-! ### populateConfigMapAndSecretMap -/

theorem metadata_GetName (name : String) :
    getString (metadataFields name) "name" = name := by
  unfold metadataFields
  by_cases h : name = ""
  · subst h
    rfl
  · simp [h, getString, mapGet]

theorem makeConfigMap_fields (w : World) (cm : manifest.ConfigMap) :
    (makeConfigMap w cm).1.APIVersion = "v1" ∧ (makeConfigMap w cm).1.Kind = "ConfigMap" ∧
      (makeConfigMap w cm).1.Name = cm.NamePrefix := by
  unfold makeConfigMap
  simp only
  split_ifs <;> exact ⟨rfl, rfl, rfl⟩

theorem populateKey_configMap (w : World) (c : corev1.ConfigMap)
    (h1 : c.APIVersion = "v1") (h2 : c.Kind = "ConfigMap") :
    populateKey (objectToUnstructured w (runtime.Object.configMap c)).1 = configMapKey c.Name := by
  have hapi : (objectToUnstructured w (runtime.Object.configMap c)).1.GetAPIVersion = "v1" := by
    simp [objectToUnstructured, Unstructured.GetAPIVersion, getString, mapGet, h1]
  have hkind : (objectToUnstructured w (runtime.Object.configMap c)).1.GetKind
      = "ConfigMap" := by
    simp [objectToUnstructured, Unstructured.GetKind, getString, mapGet, h2]
  have hname : (objectToUnstructured w (runtime.Object.configMap c)).1.GetName = c.Name := by
    simp only [objectToUnstructured, Unstructured.GetName, List.cons_append, List.nil_append,
      mapGet]
    simp only [show ("apiVersion" = "metadata") = False from by decide,
      show ("kind" = "metadata") = False from by decide, if_false, if_true]
    exact metadata_GetName c.Name
  have hp : ParseGroupVersion "v1" = Except.ok ⟨"", "v1"⟩ := rfl
  simp only [populateKey, Unstructured.GroupVersionKind, hapi, hkind, hname, hp,
    GroupVersion.WithKind, configMapKey]

theorem populateKey_secret (w : World) (s : corev1.Secret)
    (h1 : s.APIVersion = "v1") (h2 : s.Kind = "Secret") :
    populateKey (objectToUnstructured w (runtime.Object.secret s)).1 = secretKey s.Name := by
  have hapi : (objectToUnstructured w (runtime.Object.secret s)).1.GetAPIVersion = "v1" := by
    simp [objectToUnstructured, Unstructured.GetAPIVersion, getString, mapGet, h1]
  have hkind : (objectToUnstructured w (runtime.Object.secret s)).1.GetKind = "Secret" := by
    simp [objectToUnstructured, Unstructured.GetKind, getString, mapGet, h2]
  have hname : (objectToUnstructured w (runtime.Object.secret s)).1.GetName = s.Name := by
    simp only [objectToUnstructured, Unstructured.GetName, List.cons_append, List.nil_append,
      mapGet]
    simp only [show ("apiVersion" = "metadata") = False from by decide,
      show ("kind" = "metadata") = False from by decide, if_false, if_true]
    exact metadata_GetName s.Name
  have hp : ParseGroupVersion "v1" = Except.ok ⟨"", "v1"⟩ := rfl
  simp only [populateKey, Unstructured.GroupVersionKind, hapi, hkind, hname, hp,
    GroupVersion.WithKind, secretKey]

theorem makeConfigmapAndGenerateName_ok (w : World) (cm : manifest.ConfigMap)
    (u : Unstructured) (n : String)
    (h : makeConfigmapAndGenerateName w cm = Except.ok (u, n)) :
    (makeConfigMap w cm).2 = none ∧
    ∃ hash, w.ConfigMapHash (makeConfigMap w cm).1 = Except.ok hash ∧
      n = cm.NamePrefix ++ "-" ++ hash ∧
      u = (objectToUnstructured w (runtime.Object.configMap (makeConfigMap w cm).1)).1 ∧
      populateKey u = configMapKey cm.NamePrefix := by
  obtain ⟨ha, hk, hn⟩ := makeConfigMap_fields w cm
  unfold makeConfigmapAndGenerateName at h
  rcases hmk : makeConfigMap w cm with ⟨c, e⟩
  rw [hmk] at h ha hk hn
  cases e with
  | some err => simp at h
  | none =>
    simp only at h ha hk hn
    cases hh : w.ConfigMapHash c with
    | error err => rw [hh] at h; simp at h
    | ok hash =>
      rw [hh] at h
      have hobj : (objectToUnstructured w (runtime.Object.configMap c)).2 = none := rfl
      rcases hou : objectToUnstructured w (runtime.Object.configMap c) with ⟨uu, ee⟩
      rw [hou] at h hobj
      simp only at hobj
      subst hobj
      simp only [Except.ok.injEq, Prod.mk.injEq] at h
      refine ⟨rfl, hash, rfl, ?_, ?_, ?_⟩
      · rw [← h.2, hn]
      · exact h.1.symm
      · rw [← h.1]
        have := populateKey_configMap w c ha hk
        rw [hou, hn] at this
        exact this

theorem populateMap_err_none (m : WorkingSet) (u : Unstructured) (n : String)
    (h : (populateMap m u n).err = none) :
    mapGet m (populateKey u) = none ∧
      (populateMap m u n).m = m ++ [(populateKey u, u.SetName n)] := by
  cases hg : mapGet m (populateKey u) with
  | some v =>
    rw [populateMap_eq, hg] at h
    simp at h
  | none => exact ⟨rfl, by rw [populateMap_absent m u n hg]⟩

theorem populateMap_err_some (m : WorkingSet) (u : Unstructured) (n : String) (e : Error)
    (h : (populateMap m u n).err = some e) :
    e = Error.duplicateName u.GetName u.GroupVersionKind ∧ (populateMap m u n).m = m := by
  rw [populateMap_eq] at h ⊢
  cases hg : mapGet m (populateKey u) with
  | some v =>
    rw [hg] at h
    simp only [Option.isSome_some, if_true, Option.some.injEq] at h
    simp [h]
  | none =>
    rw [hg] at h
    simp at h

theorem populateConfigmaps_ok (w : World) (cms : List manifest.ConfigMap) :
    ∀ (m m' : WorkingSet), populateConfigmaps w cms m = (m', none) →
      ∃ entries : List (GroupVersionKindName × Unstructured),
        m' = m ++ entries ∧
        List.Forall₂ (fun cm e => (makeConfigMap w cm).2 = none ∧
          ∃ hash, w.ConfigMapHash (makeConfigMap w cm).1 = Except.ok hash ∧
            e = configMapEntry w cm hash) cms entries ∧
        (∀ e ∈ entries, mapGet m e.1 = none) ∧
        (mapKeys entries).Nodup := by
  induction cms with
  | nil =>
    intro m m' h
    simp only [populateConfigmaps, Prod.mk.injEq, and_true] at h
    exact ⟨[], by simp [h], List.Forall₂.nil, by simp, by simp [mapKeys]⟩
  | cons cm rest ih =>
    intro m m' h
    simp only [populateConfigmaps] at h
    cases hs : makeConfigmapAndGenerateName w cm with
    | error err => rw [hs] at h; simp at h
    | ok r =>
      rcases r with ⟨u, n⟩
      rw [hs] at h
      simp only at h
      obtain ⟨hmk, hash, hhash, hn, hu, hkey⟩ := makeConfigmapAndGenerateName_ok w cm u n hs
      cases he : (populateMap m u n).err with
      | some err => rw [he] at h; simp at h
      | none =>
        rw [he] at h
        simp only at h
        obtain ⟨hfresh, hm⟩ := populateMap_err_none m u n he
        rw [hm] at h
        obtain ⟨entries, hm', hall, hnew, hnd⟩ := ih _ _ h
        have hentry : (populateKey u, u.SetName n) = configMapEntry w cm hash := by
          rw [hkey, hn, hu]
          rfl
        rw [hentry] at hm' hnew
        rw [hkey] at hfresh
        refine ⟨configMapEntry w cm hash :: entries, ?_, ?_, ?_, ?_⟩
        · rw [hm']; simp
        · exact List.Forall₂.cons ⟨hmk, hash, hhash, rfl⟩ hall
        · intro e he'
          rcases List.mem_cons.1 he' with rfl | he'
          · exact hfresh
          · have := hnew e he'
            rw [mapGet_append] at this
            cases hg : mapGet m e.1 with
            | none => rfl
            | some v => rw [hg] at this; cases this
        · simp only [mapKeys, List.map_cons, List.nodup_cons]
          refine ⟨?_, hnd⟩
          intro hmem
          obtain ⟨e, he', hfst⟩ := List.mem_map.1 hmem
          have := hnew e he'
          rw [mapGet_append, hfst] at this
          have hk : (configMapEntry w cm hash).1 = configMapKey cm.NamePrefix := rfl
          rw [hk, hfresh] at this
          simp [mapGet] at this

theorem configMap_entries_keys (w : World) (cms : List manifest.ConfigMap)
    (entries : List (GroupVersionKindName × Unstructured))
    (h : List.Forall₂ (fun cm e => (makeConfigMap w cm).2 = none ∧
      ∃ hash, w.ConfigMapHash (makeConfigMap w cm).1 = Except.ok hash ∧
        e = configMapEntry w cm hash) cms entries) :
    mapKeys entries = cms.map (fun cm => configMapKey cm.NamePrefix) := by
  induction h with
  | nil => rfl
  | cons hx _ ih =>
    obtain ⟨-, hash, -, rfl⟩ := hx
    simp only [mapKeys, List.map_cons] at ih ⊢
    rw [ih]
    rfl

theorem populateConfigmaps_errors (w : World) (cms : List manifest.ConfigMap)
    (hsyn : ∀ cm ∈ cms, ∃ r, makeConfigmapAndGenerateName w cm = Except.ok r) :
    ∀ m : WorkingSet, (populateConfigmaps w cms m).2 = none ∨
      ∃ name gvk, (populateConfigmaps w cms m).2 = some (Error.duplicateName name gvk) := by
  induction cms with
  | nil => intro m; exact Or.inl rfl
  | cons cm rest ih =>
    intro m
    obtain ⟨⟨u, n⟩, hs⟩ := hsyn cm (List.mem_cons_self _ _)
    simp only [populateConfigmaps, hs]
    cases he : (populateMap m u n).err with
    | some err =>
      obtain ⟨rfl, -⟩ := populateMap_err_some m u n err he
      exact Or.inr ⟨_, _, rfl⟩
    | none => exact ih (fun cm' h' => hsyn cm' (List.mem_cons_of_mem _ h')) _

theorem populateConfigmaps_append (w : World) (l₁ l₂ : List manifest.ConfigMap) :
    ∀ m : WorkingSet, populateConfigmaps w (l₁ ++ l₂) m =
      match populateConfigmaps w l₁ m with
      | (m1, some err) => (m1, some err)
      | (m1, none) => populateConfigmaps w l₂ m1 := by
  induction l₁ with
  | nil => intro m; rfl
  | cons cm rest ih =>
    intro m
    simp only [List.cons_append, populateConfigmaps]
    cases hs : makeConfigmapAndGenerateName w cm with
    | error err => rfl
    | ok r =>
      rcases r with ⟨u, n⟩
      simp only
      cases he : (populateMap m u n).err with
      | some err => rfl
      | none => exact ih _

theorem populateConfigmaps_duplicate (w : World)
    (pre mid post : List manifest.ConfigMap) (a b : manifest.ConfigMap) (m : WorkingSet)
    (hp : a.NamePrefix = b.NamePrefix)
    (hsyn : ∀ cm ∈ pre ++ a :: (mid ++ [b]), ∃ r, makeConfigmapAndGenerateName w cm = Except.ok r) :
    ∃ name gvk, (populateConfigmaps w ((pre ++ a :: (mid ++ [b])) ++ post) m).2 =
      some (Error.duplicateName name gvk) := by
  rw [populateConfigmaps_append]
  rcases hr : populateConfigmaps w (pre ++ a :: (mid ++ [b])) m with ⟨m1, e⟩
  rcases populateConfigmaps_errors w _ hsyn m with h | ⟨name, gvk, h⟩
  · rw [hr] at h
    simp only at h
    subst h
    obtain ⟨entries, -, hall, -, hnd⟩ := populateConfigmaps_ok w _ m m1 hr
    rw [configMap_entries_keys w _ entries hall] at hnd
    exfalso
    simp only [List.map_append, List.map_cons, List.map_nil] at hnd
    have h1 := (List.nodup_append.1 hnd).2.1
    simp only [List.nodup_cons, List.mem_append, List.mem_singleton, List.mem_cons] at h1
    apply h1.1
    right
    rw [hp]
    exact Or.inl rfl
  · rw [hr] at h
    simp only at h
    subst h
    exact ⟨name, gvk, rfl⟩

theorem makeSecret_fields (w : World) (secret : manifest.Secret) (c : corev1.Secret)
    (h : makeSecret w secret = Exec.done (some c, none)) :
    c.APIVersion = "v1" ∧ c.Kind = "Secret" ∧ c.Name = secret.NamePrefix := by
  unfold makeSecret at h
  simp only at h
  split_ifs at h
  · cases htls : secret.TLS with
    | none => rw [htls] at h; simp at h
    | some tls =>
      rw [htls] at h
      simp only at h
      cases hv : validateTLS w tls.CertFile tls.KeyFile with
      | some err => rw [hv] at h; simp at h
      | none =>
        rw [hv] at h
        simp only at h
        cases hc : w.ReadFile tls.CertFile with
        | error err => rw [hc] at h; simp at h
        | ok crt =>
          rw [hc] at h
          simp only at h
          cases hk : w.ReadFile tls.KeyFile with
          | error err => rw [hk] at h; simp at h
          | ok key =>
            rw [hk] at h
            simp only [Exec.done.injEq, Prod.mk.injEq, Option.some.injEq, and_true] at h
            rw [← h]
            exact ⟨rfl, rfl, rfl⟩
  · simp only [Exec.done.injEq, Prod.mk.injEq, Option.some.injEq] at h
    rw [← h.1]
    exact ⟨rfl, rfl, rfl⟩
  · simp only [Exec.done.injEq, Prod.mk.injEq, Option.some.injEq] at h
    rw [← h.1]
    exact ⟨rfl, rfl, rfl⟩
  · simp only [Exec.done.injEq, Prod.mk.injEq, Option.some.injEq] at h
    rw [← h.1]
    exact ⟨rfl, rfl, rfl⟩
  · simp at h

theorem makeSecretAndGenerateName_ok (w : World) (secret : manifest.Secret)
    (u : Unstructured) (n : String)
    (h : makeSecretAndGenerateName w secret = Exec.done (Except.ok (u, n))) :
    ∃ c hash, makeSecret w secret = Exec.done (some c, none) ∧
      w.SecretHash c = Except.ok hash ∧
      n = secret.NamePrefix ++ "-" ++ hash ∧
      u = (objectToUnstructured w (runtime.Object.secret c)).1 ∧
      populateKey u = secretKey secret.NamePrefix := by
  unfold makeSecretAndGenerateName at h
  cases hmk : makeSecret w secret with
  | panic msg => rw [hmk] at h; simp at h
  | done r =>
    rcases r with ⟨oc, oe⟩
    rw [hmk] at h
    cases oe with
    | some err => simp at h
    | none =>
      cases oc with
      | none => simp at h
      | some c =>
        simp only at h
        obtain ⟨ha, hk, hn⟩ := makeSecret_fields w secret c hmk
        cases hh : w.SecretHash c with
        | error err => rw [hh] at h; simp at h
        | ok hash =>
          rw [hh] at h
          have hobj : (objectToUnstructured w (runtime.Object.secret c)).2 = none := rfl
          rcases hou : objectToUnstructured w (runtime.Object.secret c) with ⟨uu, ee⟩
          rw [hou] at h hobj
          simp only at hobj
          subst hobj
          simp only [Exec.done.injEq, Except.ok.injEq, Prod.mk.injEq] at h
          refine ⟨c, hash, rfl, hh, ?_, ?_, ?_⟩
          · rw [← h.2, hn]
          · rw [hou]
            exact h.1.symm
          · rw [← h.1]
            have := populateKey_secret w c ha hk
            rw [hou, hn] at this
            exact this

theorem populateSecrets_ok (w : World) (secrets : List manifest.Secret) :
    ∀ (m m' : WorkingSet), populateSecrets w secrets m = (m', Exec.done none) →
      ∃ entries : List (GroupVersionKindName × Unstructured),
        m' = m ++ entries ∧
        List.Forall₂ (fun secret e => ∃ c hash,
          makeSecret w secret = Exec.done (some c, none) ∧
          w.SecretHash c = Except.ok hash ∧ e = secretEntry w secret c hash) secrets entries ∧
        (∀ e ∈ entries, mapGet m e.1 = none) ∧
        (mapKeys entries).Nodup := by
  induction secrets with
  | nil =>
    intro m m' h
    simp only [populateSecrets, Prod.mk.injEq, and_true] at h
    exact ⟨[], by simp [h], List.Forall₂.nil, by simp, by simp [mapKeys]⟩
  | cons secret rest ih =>
    intro m m' h
    simp only [populateSecrets] at h
    cases hs : makeSecretAndGenerateName w secret with
    | panic msg => rw [hs] at h; simp at h
    | done r =>
      cases r with
      | error err => rw [hs] at h; simp at h
      | ok r =>
        rcases r with ⟨u, n⟩
        rw [hs] at h
        simp only at h
        obtain ⟨c, hash, hmk, hhash, hn, hu, hkey⟩ := makeSecretAndGenerateName_ok w secret u n hs
        cases he : (populateMap m u n).err with
        | some err => rw [he] at h; simp at h
        | none =>
          rw [he] at h
          simp only at h
          obtain ⟨hfresh, hm⟩ := populateMap_err_none m u n he
          rw [hm] at h
          obtain ⟨entries, hm', hall, hnew, hnd⟩ := ih _ _ h
          have hentry : (populateKey u, u.SetName n) = secretEntry w secret c hash := by
            rw [hkey, hn, hu]
            rfl
          rw [hentry] at hm' hnew
          rw [hkey] at hfresh
          refine ⟨secretEntry w secret c hash :: entries, ?_, ?_, ?_, ?_⟩
          · rw [hm']; simp
          · exact List.Forall₂.cons ⟨c, hash, hmk, hhash, rfl⟩ hall
          · intro e he'
            rcases List.mem_cons.1 he' with rfl | he'
            · exact hfresh
            · have := hnew e he'
              rw [mapGet_append] at this
              cases hg : mapGet m e.1 with
              | none => rfl
              | some v => rw [hg] at this; cases this
          · simp only [mapKeys, List.map_cons, List.nodup_cons]
            refine ⟨?_, hnd⟩
            intro hmem
            obtain ⟨e, he', hfst⟩ := List.mem_map.1 hmem
            have := hnew e he'
            rw [mapGet_append, hfst] at this
            have hk : (secretEntry w secret c hash).1 = secretKey secret.NamePrefix := rfl
            rw [hk, hfresh] at this
            simp [mapGet] at this

theorem secret_entries_keys (w : World) (secrets : List manifest.Secret)
    (entries : List (GroupVersionKindName × Unstructured))
    (h : List.Forall₂ (fun secret e => ∃ c hash,
      makeSecret w secret = Exec.done (some c, none) ∧
      w.SecretHash c = Except.ok hash ∧ e = secretEntry w secret c hash) secrets entries) :
    mapKeys entries = secrets.map (fun secret => secretKey secret.NamePrefix) := by
  induction h with
  | nil => rfl
  | cons hx _ ih =>
    obtain ⟨c, hash, -, -, rfl⟩ := hx
    simp only [mapKeys, List.map_cons] at ih ⊢
    rw [ih]
    rfl

theorem populateSecrets_errors (w : World) (secrets : List manifest.Secret)
    (hsyn : ∀ s ∈ secrets, ∃ r, makeSecretAndGenerateName w s = Exec.done (Except.ok r)) :
    ∀ m : WorkingSet, (populateSecrets w secrets m).2 = Exec.done none ∨
      ∃ name gvk, (populateSecrets w secrets m).2 =
        Exec.done (some (Error.duplicateName name gvk)) := by
  induction secrets with
  | nil => intro m; exact Or.inl rfl
  | cons secret rest ih =>
    intro m
    obtain ⟨⟨u, n⟩, hs⟩ := hsyn secret (List.mem_cons_self _ _)
    simp only [populateSecrets, hs]
    cases he : (populateMap m u n).err with
    | some err =>
      obtain ⟨rfl, -⟩ := populateMap_err_some m u n err he
      exact Or.inr ⟨_, _, rfl⟩
    | none => exact ih (fun s' h' => hsyn s' (List.mem_cons_of_mem _ h')) _

theorem populateSecrets_append (w : World) (l₁ l₂ : List manifest.Secret) :
    ∀ m : WorkingSet, populateSecrets w (l₁ ++ l₂) m =
      match populateSecrets w l₁ m with
      | (m1, Exec.done none) => populateSecrets w l₂ m1
      | (m1, other) => (m1, other) := by
  induction l₁ with
  | nil => intro m; rfl
  | cons secret rest ih =>
    intro m
    simp only [List.cons_append, populateSecrets]
    cases hs : makeSecretAndGenerateName w secret with
    | panic msg => rfl
    | done r =>
      cases r with
      | error err => rfl
      | ok r =>
        rcases r with ⟨u, n⟩
        simp only
        cases he : (populateMap m u n).err with
        | some err => rfl
        | none => exact ih _

theorem populateSecrets_duplicate (w : World)
    (pre mid post : List manifest.Secret) (a b : manifest.Secret) (m : WorkingSet)
    (hp : a.NamePrefix = b.NamePrefix)
    (hsyn : ∀ s ∈ pre ++ a :: (mid ++ [b]),
      ∃ r, makeSecretAndGenerateName w s = Exec.done (Except.ok r)) :
    ∃ name gvk, (populateSecrets w ((pre ++ a :: (mid ++ [b])) ++ post) m).2 =
      Exec.done (some (Error.duplicateName name gvk)) := by
  rw [populateSecrets_append]
  rcases hr : populateSecrets w (pre ++ a :: (mid ++ [b])) m with ⟨m1, e⟩
  rcases populateSecrets_errors w _ hsyn m with h | ⟨name, gvk, h⟩
  · rw [hr] at h
    simp only at h
    subst h
    obtain ⟨entries, -, hall, -, hnd⟩ := populateSecrets_ok w _ m m1 hr
    rw [secret_entries_keys w _ entries hall] at hnd
    exfalso
    simp only [List.map_append, List.map_cons, List.map_nil] at hnd
    have h1 := (List.nodup_append.1 hnd).2.1
    simp only [List.nodup_cons, List.mem_append, List.mem_singleton, List.mem_cons] at h1
    apply h1.1
    right
    rw [hp]
    exact Or.inl rfl
  · rw [hr] at h
    simp only at h
    subst h
    exact ⟨name, gvk, rfl⟩

theorem forall₂_of_mem {α β : Type} {R : α → β → Prop} {l₁ : List α} {l₂ : List β}
    (h : List.Forall₂ R l₁ l₂) : ∀ a ∈ l₁, ∃ b ∈ l₂, R a b := by
  induction h with
  | nil => intro a ha; cases ha
  | cons hx _ ih =>
    intro a ha
    rcases List.mem_cons.1 ha with rfl | ha
    · exact ⟨_, List.mem_cons_self _ _, hx⟩
    · obtain ⟨b, hb, hr⟩ := ih a ha
      exact ⟨b, List.mem_cons_of_mem _ hb, hr⟩

theorem populateConfigMapAndSecretMap_eq (w : World) (manifest : manifest.Manifest)
    (m : WorkingSet) :
    populateConfigMapAndSecretMap w manifest m =
      match populateConfigmaps w manifest.Configmaps m with
      | (m1, some err) => (m1, Exec.done (some err))
      | (m1, none) => populateSecrets w manifest.Secrets m1 := rfl

/-- C19, as stated, fails: a manifest with two ConfigMap specs of one name prefix,
both of which synthesize, and a spec of unknown type between them fails with
the error of the unknown type, not with the duplicate-name error. -/
theorem populate_duplicate_counterexample :
    (makeConfigmapAndGenerateName exampleWorld (exampleLiteralSpec "app-config" ["a=x"])).isOk
      = true ∧
    (makeConfigmapAndGenerateName exampleWorld (exampleLiteralSpec "app-config" ["b=y"])).isOk
      = true ∧
    (populateConfigMapAndSecretMap exampleWorld
      { Configmaps := [exampleLiteralSpec "app-config" ["a=x"],
          { Type_ := "bogus", NamePrefix := "other", LiteralSources := [], FileSources := [],
            EnvSource := "" },
          exampleLiteralSpec "app-config" ["b=y"]],
        Secrets := [] } []).2 =
      Exec.done (some (Error.unknownType "configmap" "bogus")) :=
  ⟨rfl, rfl, rfl⟩

/-- C19, amended: when two ConfigMap specs of a manifest have the same name prefix
and every ConfigMap spec up to the second of them synthesizes,
populateConfigMapAndSecretMap fails with the duplicate-name error, whatever the
data and hashes are; the same holds for two Secret specs when moreover every
ConfigMap spec synthesizes; and a ConfigMap spec and a Secret spec with the same
name prefix are both inserted, under keys that differ in the kind. -/
theorem populate_same_name_specs (w : World) (m : WorkingSet) :
    (∀ (pre mid post : List manifest.ConfigMap) (a b : manifest.ConfigMap)
        (secrets : List manifest.Secret),
      a.NamePrefix = b.NamePrefix →
      (∀ cm ∈ pre ++ a :: (mid ++ [b]),
        ∃ r, makeConfigmapAndGenerateName w cm = Except.ok r) →
      ∃ name gvk, (populateConfigMapAndSecretMap w
          { Configmaps := (pre ++ a :: (mid ++ [b])) ++ post, Secrets := secrets } m).2 =
        Exec.done (some (Error.duplicateName name gvk))) ∧
    (∀ (cms : List manifest.ConfigMap) (pre mid post : List manifest.Secret)
        (a b : manifest.Secret),
      a.NamePrefix = b.NamePrefix →
      (∀ cm ∈ cms, ∃ r, makeConfigmapAndGenerateName w cm = Except.ok r) →
      (∀ s ∈ pre ++ a :: (mid ++ [b]),
        ∃ r, makeSecretAndGenerateName w s = Exec.done (Except.ok r)) →
      ∃ name gvk, (populateConfigMapAndSecretMap w
          { Configmaps := cms, Secrets := (pre ++ a :: (mid ++ [b])) ++ post } m).2 =
        Exec.done (some (Error.duplicateName name gvk))) ∧
    (∀ (cm : manifest.ConfigMap) (s : manifest.Secret),
      cm.NamePrefix = s.NamePrefix →
      (∃ r, makeConfigmapAndGenerateName w cm = Except.ok r) →
      (∃ r, makeSecretAndGenerateName w s = Exec.done (Except.ok r)) →
      (populateConfigMapAndSecretMap w { Configmaps := [cm], Secrets := [s] } []).2 =
        Exec.done none ∧
      mapKeys (populateConfigMapAndSecretMap w { Configmaps := [cm], Secrets := [s] } []).1 =
        [configMapKey cm.NamePrefix, secretKey s.NamePrefix]) := by
  refine ⟨?_, ?_, ?_⟩
  · intro pre mid post a b secrets hp hsyn
    obtain ⟨name, gvk, h⟩ := populateConfigmaps_duplicate w pre mid post a b m hp hsyn
    refine ⟨name, gvk, ?_⟩
    rw [populateConfigMapAndSecretMap_eq]
    rcases hr : populateConfigmaps w ((pre ++ a :: (mid ++ [b])) ++ post) m with ⟨m1, e⟩
    rw [hr] at h
    simp only at h
    subst h
    rfl
  · intro cms pre mid post a b hp hcm hsyn
    rw [populateConfigMapAndSecretMap_eq]
    rcases hr : populateConfigmaps w cms m with ⟨m1, e⟩
    rcases populateConfigmaps_errors w cms hcm m with h | ⟨name, gvk, h⟩
    · rw [hr] at h
      simp only at h
      subst h
      exact populateSecrets_duplicate w pre mid post a b m1 hp hsyn
    · rw [hr] at h
      simp only at h
      subst h
      exact ⟨name, gvk, rfl⟩
  · rintro cm s hp ⟨⟨u, n⟩, hcm⟩ ⟨⟨us, ns⟩, hs⟩
    obtain ⟨-, -, -, -, -, hkey⟩ := makeConfigmapAndGenerateName_ok w cm u n hcm
    obtain ⟨-, -, -, -, -, -, hskey⟩ := makeSecretAndGenerateName_ok w s us ns hs
    have h1 : populateMap [] u n =
        { err := none, m := [] ++ [(populateKey u, u.SetName n)], obj := u.SetName n } :=
      populateMap_absent [] u n rfl
    have hfresh : mapGet ([] ++ [(populateKey u, u.SetName n)]) (populateKey us) = none := by
      rw [hkey, hskey]
      simp [mapGet, configMapKey, secretKey]
    have h2 := populateMap_absent _ us ns hfresh
    simp only [populateConfigMapAndSecretMap_eq, populateConfigmaps, hcm, h1, populateSecrets,
      hs, h2]
    refine ⟨trivial, ?_⟩
    simp [mapKeys, hkey, hskey]

/-- An instance of the amended C19: two literal ConfigMap specs named `app-config`
with different data. -/
theorem populate_same_name_specs_witness :
    ∃ name gvk, (populateConfigMapAndSecretMap exampleWorld
        { Configmaps := ([] ++ exampleLiteralSpec "app-config" ["a=x"] ::
            ([] ++ [exampleLiteralSpec "app-config" ["b=y"]])) ++ [],
          Secrets := [] } []).2 =
      Exec.done (some (Error.duplicateName name gvk)) :=
  (populate_same_name_specs exampleWorld []).1 [] [] []
    (exampleLiteralSpec "app-config" ["a=x"]) (exampleLiteralSpec "app-config" ["b=y"]) []
    rfl
    (by
      intro cm hcm
      simp only [List.nil_append, List.mem_cons, List.mem_singleton, List.not_mem_nil,
        or_false] at hcm
      rcases hcm with rfl | rfl
      · exact ⟨_, rfl⟩
      · exact ⟨_, rfl⟩)

/-- C20: when populateConfigMapAndSecretMap succeeds on the empty map, the keys of
the map are exactly one key per ConfigMap spec and one per Secret spec, made
of the empty group, version v1, the kind and the name prefix of the spec, and
pairwise distinct; the object stored for a spec is the synthesized object
renamed to the name prefix followed by "-" and the hash of the synthesized
object. -/
theorem populate_success_entries (w : World) (manifest : manifest.Manifest) (m' : WorkingSet)
    (h : populateConfigMapAndSecretMap w manifest [] = (m', Exec.done none)) :
    mapKeys m' = manifest.Configmaps.map (fun cm => configMapKey cm.NamePrefix) ++
      manifest.Secrets.map (fun s => secretKey s.NamePrefix) ∧
    (mapKeys m').Nodup ∧
    (∀ cm ∈ manifest.Configmaps, (makeConfigMap w cm).2 = none ∧
      ∃ hash obj, w.ConfigMapHash (makeConfigMap w cm).1 = Except.ok hash ∧
        mapGet m' (configMapKey cm.NamePrefix) = some obj ∧
        obj = (configMapEntry w cm hash).2 ∧
        obj.GetName = cm.NamePrefix ++ "-" ++ hash) ∧
    (∀ s ∈ manifest.Secrets, ∃ c hash obj,
      makeSecret w s = Exec.done (some c, none) ∧ w.SecretHash c = Except.ok hash ∧
        mapGet m' (secretKey s.NamePrefix) = some obj ∧
        obj = (secretEntry w s c hash).2 ∧
        obj.GetName = s.NamePrefix ++ "-" ++ hash) := by
  rw [populateConfigMapAndSecretMap_eq] at h
  rcases hr : populateConfigmaps w manifest.Configmaps [] with ⟨m1, e⟩
  rw [hr] at h
  cases e with
  | some err => simp at h
  | none =>
    simp only at h
    obtain ⟨e1, hm1, hall1, -, hnd1⟩ := populateConfigmaps_ok w _ _ _ hr
    obtain ⟨e2, hm2, hall2, hnew2, hnd2⟩ := populateSecrets_ok w _ _ _ h
    simp only [List.nil_append] at hm1
    subst hm1
    subst hm2
    have hk1 := configMap_entries_keys w _ m1 hall1
    have hk2 := secret_entries_keys w _ e2 hall2
    have hkeys : mapKeys (m1 ++ e2) =
        manifest.Configmaps.map (fun cm => configMapKey cm.NamePrefix) ++
          manifest.Secrets.map (fun s => secretKey s.NamePrefix) := by
      rw [← hk1, ← hk2]
      simp [mapKeys]
    have hnd : (mapKeys (m1 ++ e2)).Nodup := by
      have : mapKeys (m1 ++ e2) = mapKeys m1 ++ mapKeys e2 := by simp [mapKeys]
      rw [this]
      refine List.Nodup.append hnd1 hnd2 ?_
      intro k hk1' hk2'
      obtain ⟨e, he, rfl⟩ := List.mem_map.1 hk2'
      exact (mapGet_eq_none_iff m1 e.1).1 (hnew2 e he) hk1'
    refine ⟨hkeys, hnd, ?_, ?_⟩
    · intro cm hcm
      obtain ⟨e, he, hmk, hash, hhash, rfl⟩ := forall₂_of_mem hall1 cm hcm
      refine ⟨hmk, hash, _, hhash, ?_, rfl, by simp only [configMapEntry]; exact SetName_GetName _ _ (Or.inr (objectToUnstructured_metadata _ _))⟩
      exact mapGet_of_mem _ _ _ hnd (List.mem_append_left _ he)
    · intro s hs
      obtain ⟨e, he, c, hash, hmk, hhash, rfl⟩ := forall₂_of_mem hall2 s hs
      refine ⟨c, hash, _, hmk, hhash, ?_, rfl, by simp only [secretEntry]; exact SetName_GetName _ _ (Or.inr (objectToUnstructured_metadata _ _))⟩
      exact mapGet_of_mem _ _ _ hnd (List.mem_append_right _ he)

/-- Witness of C20, the test `TestPopulateMapOfConfigMapAndSecret`: the env
ConfigMap with prefix envConfigMap is stored under the name envConfigMap with
the object name envConfigMap-d2c89bt4kk. -/
theorem populate_success_entries_witness :
    populateConfigMapAndSecretMap exampleWorld exampleManifest [] =
      ([(configMapKey "envConfigMap",
          { Object := [("apiVersion", Value.str "v1"), ("kind", Value.str "ConfigMap"),
              ("metadata", Value.map [("name", Value.str "envConfigMap-d2c89bt4kk"),
                ("creationTimestamp", Value.null)]),
              ("data", Value.map [("DB_USERNAME", Value.str "admin"),
                ("DB_PASSWORD", Value.str "somepw")])] }),
        (secretKey "envSecret",
          { Object := [("apiVersion", Value.str "v1"), ("kind", Value.str "Secret"),
              ("metadata", Value.map [("name", Value.str "envSecret-684h2mm268"),
                ("creationTimestamp", Value.null)]),
              ("type", Value.str "Opaque"),
              ("data", Value.map [("DB_USERNAME", Value.str "YWRtaW4="),
                ("DB_PASSWORD", Value.str "c29tZXB3")])] })], Exec.done none) ∧
    mapKeys [(configMapKey "envConfigMap",
          ({ Object := [("apiVersion", Value.str "v1"), ("kind", Value.str "ConfigMap"),
              ("metadata", Value.map [("name", Value.str "envConfigMap-d2c89bt4kk"),
                ("creationTimestamp", Value.null)]),
              ("data", Value.map [("DB_USERNAME", Value.str "admin"),
                ("DB_PASSWORD", Value.str "somepw")])] } : Unstructured)),
        (secretKey "envSecret",
          { Object := [("apiVersion", Value.str "v1"), ("kind", Value.str "Secret"),
              ("metadata", Value.map [("name", Value.str "envSecret-684h2mm268"),
                ("creationTimestamp", Value.null)]),
              ("type", Value.str "Opaque"),
              ("data", Value.map [("DB_USERNAME", Value.str "YWRtaW4="),
                ("DB_PASSWORD", Value.str "c29tZXB3")])] })] =
      exampleManifest.Configmaps.map (fun cm => configMapKey cm.NamePrefix) ++
        exampleManifest.Secrets.map (fun s => secretKey s.NamePrefix) :=
  ⟨rfl, (populate_success_entries exampleWorld exampleManifest _ rfl).1⟩


/-! ### Generated names -/

theorem pairLess_iff (a b : String × String) : pairLess a b = true ↔ toLex a < toLex b := by
  rcases a with ⟨k, v⟩
  rcases b with ⟨k', v'⟩
  simp only [pairLess, Prod.Lex.lt_iff]
  by_cases hk : k = k'
  · subst hk
    simp [stringLess_iff]
  · simp [stringLess_iff, hk]

theorem pairLess_false_iff (a b : String × String) :
    pairLess b a = false ↔ toLex a ≤ toLex b := by
  rw [← not_lt, ← pairLess_iff]
  simp

theorem sortPairs_perm (data : List (String × String)) : (sortPairs data).Perm data :=
  List.perm_insertionSort _ data

theorem sortPairs_sorted (data : List (String × String)) :
    List.Pairwise (fun a b => pairLess b a = false) (sortPairs data) := by
  haveI : IsTotal (String × String) (fun a b => pairLess b a = false) :=
    ⟨fun a b => by simp only [pairLess_false_iff]; exact le_total _ _⟩
  haveI : IsTrans (String × String) (fun a b => pairLess b a = false) :=
    ⟨fun a b c => by simp only [pairLess_false_iff]; exact le_trans⟩
  exact List.sorted_insertionSort _ data

theorem sortPairs_congr {d₁ d₂ : List (String × String)} (h : d₁.Perm d₂) :
    sortPairs d₁ = sortPairs d₂ := by
  haveI : IsAntisymm (String × String) (fun a b => pairLess b a = false) :=
    ⟨fun a b => by
      simp only [pairLess_false_iff]
      exact fun h1 h2 => toLex.injective (le_antisymm h1 h2)⟩
  exact List.eq_of_perm_of_sorted
    (((sortPairs_perm d₁).trans h).trans (sortPairs_perm d₂).symm)
    (sortPairs_sorted d₁) (sortPairs_sorted d₂)

theorem configMap_generated_name (w : World) (digest : List (String × String) → String)
    (hcm : w.ConfigMapHash = hash.ConfigMapHash digest) (cm : manifest.ConfigMap)
    (u : Unstructured) (n : String) (h : makeConfigmapAndGenerateName w cm = Except.ok (u, n)) :
    n = cm.NamePrefix ++ "-" ++ digest (sortPairs (makeConfigMap w cm).1.Data) := by
  obtain ⟨-, hv, hh, hn, -, -⟩ := makeConfigmapAndGenerateName_ok w cm u n h
  rw [hcm] at hh
  simp only [hash.ConfigMapHash, Except.ok.injEq] at hh
  rw [hn, ← hh]

theorem secret_generated_name (w : World) (digest : List (String × String) → String)
    (hs : w.SecretHash = hash.SecretHash digest) (secret : manifest.Secret)
    (c : corev1.Secret) (u : Unstructured) (n : String)
    (hc : makeSecret w secret = Exec.done (some c, none))
    (h : makeSecretAndGenerateName w secret = Exec.done (Except.ok (u, n))) :
    n = secret.NamePrefix ++ "-" ++ digest (sortPairs c.Data) := by
  obtain ⟨c', hv, hmk, hh, hn, -, -⟩ := makeSecretAndGenerateName_ok w secret u n h
  rw [hc] at hmk
  simp only [Exec.done.injEq, Prod.mk.injEq, Option.some.injEq, and_true] at hmk
  subst hmk
  rw [hs] at hh
  simp only [hash.SecretHash, Except.ok.injEq] at hh
  rw [hn, ← hh]

/-- C21: with the hash taken over the sorted pairs of the data, the generated name of
a synthesized ConfigMap or Secret is the name prefix, "-" and the digest of the
sorted data; so two specs of the same kind with the same name prefix whose
synthesized data are equal as mappings (the same entries, in whatever order
they are listed) get the same generated name. -/
theorem generated_name_of_content (w : World) (digest : List (String × String) → String)
    (hcm : w.ConfigMapHash = hash.ConfigMapHash digest)
    (hs : w.SecretHash = hash.SecretHash digest) :
    (∀ (cm1 cm2 : manifest.ConfigMap) (u1 u2 : Unstructured) (n1 n2 : String),
      cm1.NamePrefix = cm2.NamePrefix →
      (makeConfigMap w cm1).1.Data.Perm (makeConfigMap w cm2).1.Data →
      makeConfigmapAndGenerateName w cm1 = Except.ok (u1, n1) →
      makeConfigmapAndGenerateName w cm2 = Except.ok (u2, n2) →
      n1 = n2) ∧
    (∀ (s1 s2 : manifest.Secret) (c1 c2 : corev1.Secret) (u1 u2 : Unstructured)
      (n1 n2 : String),
      s1.NamePrefix = s2.NamePrefix →
      makeSecret w s1 = Exec.done (some c1, none) →
      makeSecret w s2 = Exec.done (some c2, none) →
      c1.Data.Perm c2.Data →
      makeSecretAndGenerateName w s1 = Exec.done (Except.ok (u1, n1)) →
      makeSecretAndGenerateName w s2 = Exec.done (Except.ok (u2, n2)) →
      n1 = n2) := by
  constructor
  · intro cm1 cm2 u1 u2 n1 n2 hp hd h1 h2
    rw [configMap_generated_name w digest hcm cm1 u1 n1 h1,
      configMap_generated_name w digest hcm cm2 u2 n2 h2, hp, sortPairs_congr hd]
  · intro s1 s2 c1 c2 u1 u2 n1 n2 hp hc1 hc2 hd h1 h2
    rw [secret_generated_name w digest hs s1 c1 u1 n1 hc1 h1,
      secret_generated_name w digest hs s2 c2 u2 n2 hc2 h2, hp, sortPairs_congr hd]

/-- Witness of C21: the literal sources `a=x`, `b=y` in the two orders. -/
theorem generated_name_of_content_witness :
    (makeConfigmapAndGenerateName exampleHashWorld
        (exampleLiteralSpec "literalConfigMap" ["a=x", "b=y"])).map Prod.snd =
      Except.ok "literalConfigMap-.a;.x;.b;.y;" ∧
    "literalConfigMap-.a;.x;.b;.y;" = "literalConfigMap-.a;.x;.b;.y;" :=
  ⟨rfl,
    (generated_name_of_content exampleHashWorld exampleDigest rfl rfl).1
      (exampleLiteralSpec "literalConfigMap" ["a=x", "b=y"])
      (exampleLiteralSpec "literalConfigMap" ["b=y", "a=x"])
      (objectToUnstructured exampleHashWorld (runtime.Object.configMap
        (makeConfigMap exampleHashWorld
          (exampleLiteralSpec "literalConfigMap" ["a=x", "b=y"])).1)).1
      (objectToUnstructured exampleHashWorld (runtime.Object.configMap
        (makeConfigMap exampleHashWorld
          (exampleLiteralSpec "literalConfigMap" ["b=y", "a=x"])).1)).1
      "literalConfigMap-.a;.x;.b;.y;" "literalConfigMap-.a;.x;.b;.y;"
      rfl
      (show List.Perm [("a", "x"), ("b", "y")] [("b", "y"), ("a", "x")] from
        List.Perm.swap _ _ _)
      rfl rfl⟩

/-! ### TLS secrets -/

/-- C23: for every certificate path validateTLS with an empty key path returns the
error "key must be specified", and with a key path that is not empty and an
empty certificate path the error "certificate must be specified"; makeSecret
on a tls spec with an empty KeyFile or CertFile returns that error and no
secret.  This holds whatever the file system and the key-pair loader of the
world answer, which are therefore not consulted. -/
theorem validateTLS_empty_paths (w : World) :
    (∀ cert, validateTLS w cert "" = some Error.keyMissing) ∧
    (∀ key, key ≠ "" → validateTLS w "" key = some Error.certificateMissing) ∧
    (∀ (secret : manifest.Secret) (tls : manifest.TLS),
      secret.Type_ = "tls" → secret.TLS = some tls → tls.KeyFile = "" ∨ tls.CertFile = "" →
      makeSecret w secret = Exec.done (none, some
        (if tls.KeyFile = "" then Error.keyMissing else Error.certificateMissing))) := by
  have h1 : ∀ cert, validateTLS w cert "" = some Error.keyMissing := fun _ => rfl
  have h2 : ∀ key, key ≠ "" → validateTLS w "" key = some Error.certificateMissing := by
    intro key hkey
    have hlen : ¬ key.length = 0 := by
      have := (string_length_pos_iff key).2 hkey
      omega
    simp [validateTLS, hlen]
  refine ⟨h1, h2, ?_⟩
  intro secret tls ht htls hempty
  by_cases hk : tls.KeyFile = ""
  · simp only [makeSecret, ht, htls, hk, h1, if_true]
  · have hc : tls.CertFile = "" := hempty.resolve_left hk
    simp only [makeSecret, ht, htls, hc, h2 _ hk, hk, if_true, if_false]

/-- Witness of C23: a tls spec with a certificate path and no key path, in a world
where no file exists. -/
theorem validateTLS_empty_paths_witness :
    validateTLS exampleWorld "" "tls.key" = some Error.certificateMissing ∧
    makeSecret exampleWorld
        (exampleTLSSpec "tlsSecret" (some { CertFile := "tls.cert", KeyFile := "" })) =
      Exec.done (none, some Error.keyMissing) :=
  ⟨(validateTLS_empty_paths exampleWorld).2.1 "tls.key" (by decide),
    (validateTLS_empty_paths exampleWorld).2.2
      (exampleTLSSpec "tlsSecret" (some { CertFile := "tls.cert", KeyFile := "" }))
      { CertFile := "tls.cert", KeyFile := "" } rfl rfl (Or.inl rfl)⟩

/-- C24: makeSecret on a spec of type "tls" whose TLS field is unset does not return
an error: it reads the certificate path through the nil pointer and panics. -/
theorem makeSecret_tls_unset (w : World) (name : String) (literals files : List String)
    (env : String) :
    makeSecret w { Type_ := "tls", NamePrefix := name, LiteralSources := literals,
                   FileSources := files, EnvSource := env, TLS := none } =
      Exec.panic "invalid memory address or nil pointer dereference" :=
  rfl

/-! ### addresource -/

theorem stringInSlice_iff (str : String) (list : List String) :
    stringInSlice str list = true ↔ str ∈ list := by
  induction list with
  | nil => simp [stringInSlice]
  | cons v rest ih =>
    by_cases h : v = str
    · simp [stringInSlice, h]
    · have h2 : ¬ str = v := fun e => h e.symm
      simp [stringInSlice, h, h2, ih]

/-- C25: when the resource file exists and the resources of the manifest contain the
resource path, RunAddResource returns the error "resource <path> already in
manifest" and the file system, the manifest file included, is as before the
call. -/
theorem RunAddResource_already_there (Unmarshal : String → Except Error manifest.Manifest)
    (Marshal : manifest.Manifest → Except Error String) (KubeManifestFileName : String)
    (o : addResourceOptions) (fsys : FileSystem) (content : String) (m : manifest.Manifest)
    (hstat : fsys.Stat o.resourceFilePath = none)
    (hread : fsys.ReadFile KubeManifestFileName = Except.ok content)
    (hparse : Unmarshal content = Except.ok m)
    (hin : o.resourceFilePath ∈ m.Resources) :
    RunAddResource Unmarshal Marshal KubeManifestFileName o fsys =
      (some (Error.alreadyInManifest o.resourceFilePath), fsys) ∧
    (RunAddResource Unmarshal Marshal KubeManifestFileName o fsys).2.ReadFile
      KubeManifestFileName = Except.ok content := by
  have h : RunAddResource Unmarshal Marshal KubeManifestFileName o fsys =
      (some (Error.alreadyInManifest o.resourceFilePath), fsys) := by
    simp only [RunAddResource, hstat, hread, hparse,
      (stringInSlice_iff _ _).2 hin, if_true]
  exact ⟨h, by rw [h]; exact hread⟩

/-- Witness of C25: adding `deployment.yaml`, which the manifest of the example lists. -/
theorem RunAddResource_already_there_witness :
    RunAddResource exampleUnmarshal exampleMarshal2 "Kube-manifest.yaml"
        { resourceFilePath := "deployment.yaml" }
        { files := ("deployment.yaml", "kind: Deployment\n") :: exampleFS.files } =
      (some (Error.alreadyInManifest "deployment.yaml"),
        { files := ("deployment.yaml", "kind: Deployment\n") :: exampleFS.files }) ∧
    alreadyInManifestText "deployment.yaml" = "resource deployment.yaml already in manifest" :=
  ⟨(RunAddResource_already_there exampleUnmarshal exampleMarshal2 "Kube-manifest.yaml"
      { resourceFilePath := "deployment.yaml" }
      { files := ("deployment.yaml", "kind: Deployment\n") :: exampleFS.files }
      "deployment.yaml\n"
      { Configmaps := [], Secrets := [], Resources := ["deployment.yaml"] }
      rfl rfl rfl (by decide)).1, by decide⟩

/-- C26: when the resource file exists, the manifest file parses and its resources do
not contain the resource path, RunAddResource succeeds (the marshalling of a
manifest being taken to succeed) and the manifest file holds the marshalled
manifest whose resources are the previous list followed by the new path, a list
without duplicates when the previous one had none; the other files are as
before.  When the resource file does not exist the call fails and the file
system is as before. -/
theorem RunAddResource_appends (Unmarshal : String → Except Error manifest.Manifest)
    (Marshal : manifest.Manifest → Except Error String) (KubeManifestFileName : String)
    (o : addResourceOptions) (fsys : FileSystem) :
    (∀ (content : String) (m : manifest.Manifest) (bytes : String),
      fsys.Stat o.resourceFilePath = none →
      fsys.ReadFile KubeManifestFileName = Except.ok content →
      Unmarshal content = Except.ok m →
      o.resourceFilePath ∉ m.Resources →
      Marshal { m with Resources := m.Resources ++ [o.resourceFilePath] } = Except.ok bytes →
      (RunAddResource Unmarshal Marshal KubeManifestFileName o fsys).1 = none ∧
      (RunAddResource Unmarshal Marshal KubeManifestFileName o fsys).2.ReadFile
        KubeManifestFileName = Except.ok bytes ∧
      (∀ path, path ≠ KubeManifestFileName →
        (RunAddResource Unmarshal Marshal KubeManifestFileName o fsys).2.ReadFile path =
          fsys.ReadFile path) ∧
      (m.Resources ++ [o.resourceFilePath]).getLast? = some o.resourceFilePath ∧
      (m.Resources ++ [o.resourceFilePath]).dropLast = m.Resources ∧
      (m.Resources.Nodup → (m.Resources ++ [o.resourceFilePath]).Nodup)) ∧
    (∀ err, fsys.Stat o.resourceFilePath = some err →
      RunAddResource Unmarshal Marshal KubeManifestFileName o fsys = (some err, fsys)) := by
  constructor
  · intro content m bytes hstat hread hparse hnot hmarshal
    have hnot2 : stringInSlice o.resourceFilePath m.Resources = false := by
      rcases hb : stringInSlice o.resourceFilePath m.Resources with _ | _
      · rfl
      · exact absurd ((stringInSlice_iff _ _).1 hb) hnot
    have h : RunAddResource Unmarshal Marshal KubeManifestFileName o fsys =
        (none, { files := mapSet fsys.files KubeManifestFileName bytes }) := by
      simp only [RunAddResource, hstat, hread, hparse, hnot2, hmarshal, FileSystem.WriteFile]
      rfl
    refine ⟨by rw [h], ?_, ?_, by simp, by simp, ?_⟩
    · rw [h]
      simp only [FileSystem.ReadFile, mapGet_mapSet_self]
    · intro path hne
      rw [h]
      simp only [FileSystem.ReadFile, mapGet_mapSet_ne _ _ _ _ (Ne.symm hne)]
    · intro hnd
      rw [List.nodup_append]
      refine ⟨hnd, List.nodup_singleton _, ?_⟩
      intro a ha hb
      rw [List.mem_singleton] at hb
      exact hnot (hb ▸ ha)
  · intro err hstat
    simp only [RunAddResource, hstat]

/-- Witness of C26: the happy path of the test, adding `myWonderfulResource.yaml`. -/
theorem RunAddResource_appends_witness :
    RunAddResource exampleUnmarshal exampleMarshal2 "Kube-manifest.yaml"
        { resourceFilePath := "myWonderfulResource.yaml" } exampleFS =
      (none, { files := [("myWonderfulResource.yaml", "kind: Service\n"),
          ("Kube-manifest.yaml", "deployment.yaml\nmyWonderfulResource.yaml\n")] }) ∧
    (RunAddResource exampleUnmarshal exampleMarshal2 "Kube-manifest.yaml"
        { resourceFilePath := "myWonderfulResource.yaml" } exampleFS).2.ReadFile
      "Kube-manifest.yaml" = Except.ok "deployment.yaml\nmyWonderfulResource.yaml\n" :=
  ⟨rfl,
    (((RunAddResource_appends exampleUnmarshal exampleMarshal2 "Kube-manifest.yaml"
      { resourceFilePath := "myWonderfulResource.yaml" } exampleFS).1
      "deployment.yaml\n"
      { Configmaps := [], Secrets := [], Resources := ["deployment.yaml"] }
      "deployment.yaml\nmyWonderfulResource.yaml\n"
      rfl rfl rfl (by decide) rfl).2.1)⟩

/-! ### Failures of mutateField -/

/-- C27: mutateField is not atomic on failure.  On a list whose first element is a
mapping with the target field and whose second element is not a mapping, the
call returns an error and the first element has been mutated; and with
createIfNotPresent the mappings created on the way remain when the transform at
the end of the path fails. -/
theorem mutateField_not_atomic :
    mutateField
        [("containers", Value.list
          [Value.map [("env", Value.map [])], Value.str "sidecar"])]
        ["containers", "env"] false [exampleLabels.addMap] =
      ([("containers", Value.list
          [Value.map [("env", Value.map [("tier", Value.str "backend")])],
           Value.str "sidecar"])],
        some Error.expectedType) ∧
    mutateField [] ["metadata", "labels"] true
        [fun _ => (Value.null, some (Error.other "transform failed"))] =
      ([("metadata", Value.map [("labels", Value.null)])],
        some (Error.other "transform failed")) :=
  ⟨rfl, rfl⟩

theorem applyFns_failure (m : Fields) (key : String) (v0 : Value)
    (pre post : List mutateFunc) (f : mutateFunc) (e : Error)
    (hk : mapGet m key = some v0)
    (hpre : ∀ p g q, pre = p ++ g :: q → (g (p.foldl (fun v h => (h v).1) v0)).2 = none)
    (hf : (f (pre.foldl (fun v h => (h v).1) v0)).2 = some e) :
    applyFns m key (pre ++ f :: post) =
      (mapSet m key (f (pre.foldl (fun v h => (h v).1) v0)).1, some e) := by
  induction pre generalizing m v0 with
  | nil =>
    simp only [List.foldl_nil] at hf
    simp only [List.nil_append, applyFns, mapIndex_of_get m key v0 hk, hf, List.foldl_nil]
  | cons g rest ih =>
    have h0 : (g v0).2 = none := hpre [] g rest rfl
    have hstep : applyFns m key (g :: (rest ++ f :: post)) =
        applyFns (mapSet m key (g v0).1) key (rest ++ f :: post) := by
      simp only [applyFns, mapIndex_of_get m key v0 hk, h0]
    rw [List.cons_append, hstep, List.foldl_cons,
      ih (mapSet m key (g v0).1) (g v0).1 (mapGet_mapSet_self _ _ _), mapSet_mapSet]
    · intro p h q hrest
      have := hpre (g :: p) h q (by rw [hrest]; rfl)
      simpa using this
    · simpa using hf

/-- C28: when a transform fails at the last path segment, after transforms that
succeeded, mutateField returns the error of that transform, the value at the
key is what the failing transform returned, and the transforms after it are
not applied; with addMap on a present value that is not a mapping the call
fails and the value at the key is nil afterwards. -/
theorem mutateField_failing_transform (m : Fields) (k : String) (v0 : Value) (c : Bool)
    (hk : mapGet m k = some v0) :
    (∀ (pre post : List mutateFunc) (f : mutateFunc) (e : Error),
      (∀ p g q, pre = p ++ g :: q → (g (p.foldl (fun v h => (h v).1) v0)).2 = none) →
      (f (pre.foldl (fun v h => (h v).1) v0)).2 = some e →
      mutateField m [k] c (pre ++ f :: post) =
        (mapSet m k (f (pre.foldl (fun v h => (h v).1) v0)).1, some e)) ∧
    (∀ (o : MapTransformer) (post : List mutateFunc), (∀ L, v0 ≠ Value.map L) →
      mutateField m [k] c (o.addMap :: post) = (mapSet m k Value.null, some Error.expectedType) ∧
      mapGet (mutateField m [k] c (o.addMap :: post)).1 k = some Value.null) := by
  constructor
  · intro pre post f e hpre hf
    rw [mutateField_single_present m k c _ v0 hk]
    exact applyFns_failure m k v0 pre post f e hk hpre hf
  · intro o post hv
    have hadd : o.addMap v0 = (Value.null, some Error.expectedType) := by
      cases v0 with
      | map L => exact absurd rfl (hv L)
      | null => rfl
      | bool b => rfl
      | num n => rfl
      | str s => rfl
      | list l => rfl
    have h1 : mutateField m [k] c (o.addMap :: post) =
        (mapSet m k Value.null, some Error.expectedType) := by
      rw [mutateField_single_present m k c _ v0 hk]
      simp only [applyFns, mapIndex_of_get m k v0 hk, hadd]
    exact ⟨h1, by rw [h1]; exact mapGet_mapSet_self _ _ _⟩

/-- Witness of C28: addMap on the string field `kind`. -/
theorem mutateField_failing_transform_witness :
    mapGet [("kind", Value.str "Deployment")] "kind" = some (Value.str "Deployment") ∧
    mutateField [("kind", Value.str "Deployment")] ["kind"] false
        (exampleLabels.addMap :: [fun _ => (Value.str "later", none)]) =
      (mapSet [("kind", Value.str "Deployment")] "kind" Value.null,
        some Error.expectedType) :=
  ⟨rfl,
    ((mutateField_failing_transform [("kind", Value.str "Deployment")] "kind"
      (Value.str "Deployment") false rfl).2 exampleLabels
      [fun _ => (Value.str "later", none)] (fun L h => by cases h)).1⟩

/-! ### Transform applied twice -/

theorem addMap_fold_stable (pairs : List (String × String)) (X : Fields)
    (h : ∀ kv ∈ pairs, mapGet X kv.1 = some (Value.str kv.2)) :
    pairs.foldl (fun acc kv => mapSet acc kv.1 (Value.str kv.2)) X = X := by
  induction pairs with
  | nil => rfl
  | cons kv rest ih =>
    rw [List.foldl_cons, mapSet_same X kv.1 (Value.str kv.2) (h kv (List.mem_cons_self _ _))]
    exact ih (fun kv' hkv' => h kv' (List.mem_cons_of_mem _ hkv'))

theorem addMap_fold_twice (pairs : List (String × String)) (hnd : (mapKeys pairs).Nodup)
    (L : Fields) :
    pairs.foldl (fun acc kv => mapSet acc kv.1 (Value.str kv.2))
        (pairs.foldl (fun acc kv => mapSet acc kv.1 (Value.str kv.2)) L) =
      pairs.foldl (fun acc kv => mapSet acc kv.1 (Value.str kv.2)) L := by
  apply addMap_fold_stable
  intro kv hkv
  rw [addMap_lookup pairs L hnd kv.1, mapGet_of_mem pairs kv.1 kv.2 hnd hkv]

theorem addMap_twice (o : MapTransformer) (hnd : (mapKeys o.m).Nodup) (v : Value)
    (h : (o.addMap v).2 = none) : o.addMap (o.addMap v).1 = ((o.addMap v).1, none) := by
  cases v with
  | map L =>
    simp only [MapTransformer.addMap]
    rw [addMap_fold_twice o.m hnd L]
  | null => simp [MapTransformer.addMap] at h
  | bool b => simp [MapTransformer.addMap] at h
  | num n => simp [MapTransformer.addMap] at h
  | str s => simp [MapTransformer.addMap] at h
  | list l => simp [MapTransformer.addMap] at h

theorem applyFns_single (m : Fields) (key : String) (f : mutateFunc) (v : Value)
    (hk : mapGet m key = some v) :
    applyFns m key [f] = (mapSet m key (f v).1, (f v).2) := by
  simp only [applyFns, mapIndex_of_get m key v hk]
  cases (f v).2 <;> rfl

theorem mutateItems_twice (recurse : Fields → Fields × Option Error)
    (hrec : ∀ f, (recurse f).2 = none → recurse (recurse f).1 = ((recurse f).1, none))
    (items : List Value) (h : (mutateItems recurse items).2 = none) :
    mutateItems recurse (mutateItems recurse items).1 =
      ((mutateItems recurse items).1, none) := by
  induction items with
  | nil => rfl
  | cons item rest ih =>
    cases item with
    | map typedItem =>
      cases hr : (recurse typedItem).2 with
      | some err =>
        simp only [mutateItems, hr] at h
        cases h
      | none =>
        simp only [mutateItems, hr] at h
        have h2 := ih h
        simp only [mutateItems, hr, hrec typedItem hr, h2]
    | null => simp [mutateItems] at h
    | bool b => simp [mutateItems] at h
    | num n => simp [mutateItems] at h
    | str s => simp [mutateItems] at h
    | list l => simp [mutateItems] at h

theorem mutateField_created (m : Fields) (key : String) (rest : List String)
    (fns : List mutateFunc) (h : mapGet m key = none) :
    mutateField m (key :: rest) true fns =
      mutateField (mapSet m key (Value.map [])) (key :: rest) true fns := by
  cases rest with
  | nil =>
    rw [mutateField_single_created m key fns h,
      mutateField_single_present _ key true fns _ (mapGet_mapSet_self _ _ _)]
  | cons next rest' =>
    rw [mutateField_deeper_created m key next rest' fns h,
      mutateField_deeper_present _ key next rest' true fns _ (mapGet_mapSet_self _ _ _)]
    simp only [mapSet_mapSet]

theorem mutateField_present_twice (o : MapTransformer) (hnd : (mapKeys o.m).Nodup) (c : Bool)
    (key : String) (rest : List String)
    (ih : ∀ m, (mutateField m rest c [o.addMap]).2 = none →
      mutateField (mutateField m rest c [o.addMap]).1 rest c [o.addMap] =
        ((mutateField m rest c [o.addMap]).1, none))
    (m : Fields) (v : Value) (hk : mapGet m key = some v)
    (h : (mutateField m (key :: rest) c [o.addMap]).2 = none) :
    mutateField (mutateField m (key :: rest) c [o.addMap]).1 (key :: rest) c [o.addMap] =
      ((mutateField m (key :: rest) c [o.addMap]).1, none) := by
  cases rest with
  | nil =>
    rw [mutateField_single_present m key c _ v hk, applyFns_single m key _ v hk] at h ⊢
    simp only at h ⊢
    rw [mutateField_single_present _ key c _ _ (mapGet_mapSet_self _ _ _),
      applyFns_single _ key _ _ (mapGet_mapSet_self _ _ _), addMap_twice o hnd v h,
      mapSet_mapSet]
  | cons next rest' =>
    rw [mutateField_deeper_present m key next rest' c _ v hk] at h ⊢
    cases v with
    | map typedV =>
      simp only at h ⊢
      rw [mutateField_deeper_present _ key next rest' c _ _ (mapGet_mapSet_self _ _ _)]
      simp only [ih typedV h, mapSet_mapSet]
    | list typedV =>
      simp only at h ⊢
      rw [mutateField_deeper_present _ key next rest' c _ _ (mapGet_mapSet_self _ _ _)]
      simp only [mutateItems_twice _ ih typedV h, mapSet_mapSet]
    | null => simp at h
    | bool b => simp at h
    | num n => simp at h
    | str s => simp at h

theorem mutateField_twice (o : MapTransformer) (hnd : (mapKeys o.m).Nodup) (c : Bool)
    (path : List String) :
    ∀ m, (mutateField m path c [o.addMap]).2 = none →
      mutateField (mutateField m path c [o.addMap]).1 path c [o.addMap] =
        ((mutateField m path c [o.addMap]).1, none) := by
  induction path with
  | nil =>
    intro m _
    simp only [mutateField_nil]
  | cons key rest ih =>
    intro m h
    cases hk : mapGet m key with
    | some v => exact mutateField_present_twice o hnd c key rest ih m v hk h
    | none =>
      cases c with
      | false =>
        rw [mutateField_absent m key rest _ hk]
        exact mutateField_absent m key rest _ hk
      | true =>
        rw [mutateField_created m key rest _ hk] at h ⊢
        exact mutateField_present_twice o hnd true key rest ih _ _
          (mapGet_mapSet_self _ _ _) h

theorem transformObject_selected (o : MapTransformer) (gvk : GroupVersionKind)
    (pcs : List PathConfig) :
    ∀ objMap, transformObject o gvk objMap pcs =
      transformObject o gvk objMap
        (pcs.filter (fun pc => SelectByGVK gvk pc.GroupVersionKind)) := by
  induction pcs with
  | nil => intro objMap; rfl
  | cons pc rest ih =>
    intro objMap
    cases hs : SelectByGVK gvk pc.GroupVersionKind with
    | false =>
      rw [List.filter_cons_of_neg (by simp [hs])]
      simp only [transformObject, hs, Bool.not_false, if_true]
      exact ih objMap
    | true =>
      rw [List.filter_cons_of_pos (by simp [hs])]
      simp only [transformObject, hs, Bool.not_true, Bool.false_eq_true, if_false]
      cases (mutateField objMap pc.Path pc.CreateIfNotPresent [o.addMap]).2 with
      | some err => rfl
      | none => exact ih _

theorem mutateItems_of_success (recurse : Fields → Fields × Option Error)
    (items : List Value) (h : (mutateItems recurse items).2 = none) :
    (∀ it ∈ items, ∃ L, it = Value.map L ∧ (recurse L).2 = none) ∧
    (mutateItems recurse items).1 = items.map (fun it => match it with
      | Value.map L => Value.map (recurse L).1
      | other => other) := by
  induction items with
  | nil => exact ⟨fun _ h => (by cases h), rfl⟩
  | cons item rest ih =>
    cases item with
    | map L =>
      cases hr : (recurse L).2 with
      | some err =>
        simp only [mutateItems, hr] at h
        cases h
      | none =>
        simp only [mutateItems, hr] at h
        obtain ⟨h1, h2⟩ := ih h
        constructor
        · intro it hit
          rcases List.mem_cons.1 hit with rfl | hit
          · exact ⟨L, rfl, hr⟩
          · exact h1 it hit
        · simp only [mutateItems, hr, List.map_cons, h2]
    | null => simp [mutateItems] at h
    | bool b => simp [mutateItems] at h
    | num n => simp [mutateItems] at h
    | str t => simp [mutateItems] at h
    | list l => simp [mutateItems] at h

theorem mutateItems_stable_iff (recurse : Fields → Fields × Option Error)
    (items : List Value) :
    mutateItems recurse items = (items, none) ↔
      ∀ it ∈ items, ∃ L, it = Value.map L ∧ recurse L = (L, none) := by
  constructor
  · intro h
    have hs : (mutateItems recurse items).2 = none := by rw [h]
    obtain ⟨h1, h2⟩ := mutateItems_of_success recurse items hs
    rw [h] at h2
    simp only at h2
    intro it hit
    obtain ⟨L, rfl, hL⟩ := h1 it hit
    refine ⟨L, rfl, ?_⟩
    obtain ⟨i, hi, hget⟩ := List.getElem_of_mem hit
    have h3 := congrArg (fun l => l[i]?) h2
    simp only [List.getElem?_map, List.getElem?_eq_getElem hi, hget, Option.map_some',
      Option.some.injEq, Value.map.injEq] at h3
    exact Prod.ext h3.symm hL
  · intro h
    induction items with
    | nil => rfl
    | cons item rest ih =>
      obtain ⟨L, rfl, hL⟩ := h _ (List.mem_cons_self _ _)
      have hrest := ih (fun it hit => h it (List.mem_cons_of_mem _ hit))
      simp only [mutateItems, hL, hrest]

theorem mutateField_present_step (o : MapTransformer) (m : Fields) (a : String)
    (rest : List String) (c : Bool) (v : Value) (h : mapGet m a = some v) :
    mutateField m (a :: rest) c [o.addMap] =
      (mapSet m a (stepAt o rest c v).1, (stepAt o rest c v).2) := by
  cases rest with
  | nil =>
    rw [mutateField_single_present m a c _ v h, applyFns_single m a _ v h]
    rfl
  | cons next rest' =>
    rw [mutateField_deeper_present m a next rest' c _ v h]
    cases v with
    | map L => rfl
    | list l => rfl
    | null => simp only [stepAt, mapSet_same m a _ h]
    | bool b => simp only [stepAt, mapSet_same m a _ h]
    | num n => simp only [stepAt, mapSet_same m a _ h]
    | str t => simp only [stepAt, mapSet_same m a _ h]

theorem stable_present_iff (o : MapTransformer) (m : Fields) (a : String)
    (rest : List String) (c : Bool) (v : Value) (h : mapGet m a = some v) :
    mutateField m (a :: rest) c [o.addMap] = (m, none) ↔ stepAt o rest c v = (v, none) := by
  rw [mutateField_present_step o m a rest c v h]
  constructor
  · intro hs
    have h1 := congrArg Prod.fst hs
    have h2 := congrArg Prod.snd hs
    simp only at h1 h2
    have h3 := congrArg (fun x => mapGet x a) h1
    simp only [mapGet_mapSet_self, h, Option.some.injEq] at h3
    exact Prod.ext h3 h2
  · intro hs
    rw [hs]
    simp only [mapSet_same m a v h]

theorem stable_absent (o : MapTransformer) (m : Fields) (a : String)
    (rest : List String) (c : Bool) (h : mapGet m a = none)
    (hs : mutateField m (a :: rest) c [o.addMap] = (m, none)) : c = false := by
  cases c with
  | false => rfl
  | true =>
    rw [mutateField_created m a rest _ h,
      mutateField_present_step o _ a rest true _ (mapGet_mapSet_self _ _ _)] at hs
    have h1 := congrArg (fun x => mapGet x.1 a) hs
    simp only [mapGet_mapSet_self, h] at h1
    cases h1

theorem stable_without_create (o : MapTransformer) (path : List String) :
    ∀ X, mutateField X path true [o.addMap] = (X, none) →
      mutateField X path false [o.addMap] = (X, none) := by
  induction path with
  | nil => intro X _; exact mutateField_nil X false _
  | cons a rest ih =>
    intro X hs
    cases hg : mapGet X a with
    | none => exact absurd (stable_absent o X a rest true hg hs) (by decide)
    | some v =>
      rw [stable_present_iff o X a rest true v hg] at hs
      rw [stable_present_iff o X a rest false v hg]
      cases rest with
      | nil => exact hs
      | cons next rest' =>
        cases v with
        | map L =>
          simp only [stepAt, Prod.mk.injEq, Value.map.injEq] at hs ⊢
          have := ih L (Prod.ext hs.1 hs.2)
          rw [this]
          exact ⟨rfl, rfl⟩
        | list l =>
          simp only [stepAt, Prod.mk.injEq, Value.list.injEq] at hs ⊢
          have h1 : mutateItems (fun it => mutateField it (next :: rest') true [o.addMap]) l =
              (l, none) := Prod.ext hs.1 hs.2
          have h2 : mutateItems (fun it => mutateField it (next :: rest') false [o.addMap]) l =
              (l, none) := by
            rw [mutateItems_stable_iff] at h1 ⊢
            intro it hit
            obtain ⟨L, rfl, hL⟩ := h1 it hit
            exact ⟨L, rfl, ih L hL⟩
          rw [h2]
          exact ⟨rfl, rfl⟩
        | null => simp [stepAt] at hs
        | bool b => simp [stepAt] at hs
        | num n => simp [stepAt] at hs
        | str t => simp [stepAt] at hs

/-- A mapping that the path `P` leaves as it is stays so after a successful call with
a path that diverges from `P`. -/
theorem stable_diverge (o : MapTransformer) (P : List String) :
    ∀ (Q : List String) (cP cQ : Bool) (X Y : Fields), diverge P Q →
      mutateField X P cP [o.addMap] = (X, none) →
      mutateField X Q cQ [o.addMap] = (Y, none) →
      mutateField Y P cP [o.addMap] = (Y, none) := by
  induction P with
  | nil => intro Q cP cQ X Y hd; cases Q <;> exact absurd hd (by simp [diverge])
  | cons a P' ih =>
    intro Q cP cQ X Y hd hP hQ
    cases Q with
    | nil => exact absurd hd (by simp [diverge])
    | cons b Q' =>
      by_cases hab : a = b
      · subst hab
        have hd' : diverge P' Q' := by
          simp only [diverge, ne_eq, not_true_eq_false, false_or] at hd
          exact hd
        obtain ⟨p1, P'', rfl⟩ : ∃ p1 P'', P' = p1 :: P'' := by
          cases P' with
          | nil => cases Q' <;> exact absurd hd' (by simp [diverge])
          | cons p1 P'' => exact ⟨p1, P'', rfl⟩
        obtain ⟨q1, Q'', rfl⟩ : ∃ q1 Q'', Q' = q1 :: Q'' := by
          cases Q' with
          | nil => exact absurd hd' (by simp [diverge])
          | cons q1 Q'' => exact ⟨q1, Q'', rfl⟩
        cases hg : mapGet X a with
        | none =>
          have hcP := stable_absent o X a _ cP hg hP
          subst hcP
          cases cQ with
          | false =>
            rw [mutateField_absent X a _ _ hg] at hQ
            cases hQ
            exact hP
          | true =>
            rw [mutateField_deeper_created X a q1 Q'' _ hg] at hQ
            have hY := congrArg Prod.fst hQ
            have hr := congrArg Prod.snd hQ
            simp only at hY hr
            have hgY : mapGet Y a =
                some (Value.map (mutateField [] (q1 :: Q'') true [o.addMap]).1) := by
              rw [← hY]
              exact mapGet_mapSet_self _ _ _
            rw [stable_present_iff o Y a _ false _ hgY]
            have hstab := ih (q1 :: Q'') false true []
              (mutateField [] (q1 :: Q'') true [o.addMap]).1 hd'
              (mutateField_absent [] p1 P'' _ rfl) (Prod.ext rfl hr)
            simp only [stepAt, hstab]
        | some v =>
          rw [stable_present_iff o X a _ cP v hg] at hP
          rw [mutateField_present_step o X a _ cQ v hg] at hQ
          have hY := congrArg Prod.fst hQ
          have hr := congrArg Prod.snd hQ
          simp only at hY hr
          have hgY : mapGet Y a = some (stepAt o (q1 :: Q'') cQ v).1 := by
            rw [← hY]
            exact mapGet_mapSet_self _ _ _
          rw [stable_present_iff o Y a _ cP _ hgY]
          cases v with
          | map L =>
            simp only [stepAt, Prod.mk.injEq, Value.map.injEq] at hP hr ⊢
            have hstab := ih (q1 :: Q'') cP cQ L
              (mutateField L (q1 :: Q'') cQ [o.addMap]).1 hd'
              (Prod.ext hP.1 hP.2) (Prod.ext rfl hr)
            rw [hstab]
            exact ⟨rfl, rfl⟩
          | list l =>
            simp only [stepAt, Prod.mk.injEq, Value.list.injEq] at hP hr ⊢
            have hPl : mutateItems (fun it => mutateField it (p1 :: P'') cP [o.addMap]) l =
                (l, none) := Prod.ext hP.1 hP.2
            rw [mutateItems_stable_iff] at hPl
            obtain ⟨hall, hmap⟩ := mutateItems_of_success _ l hr
            have hgoal : mutateItems (fun it => mutateField it (p1 :: P'') cP [o.addMap])
                (mutateItems (fun it => mutateField it (q1 :: Q'') cQ [o.addMap]) l).1 =
                ((mutateItems (fun it => mutateField it (q1 :: Q'') cQ [o.addMap]) l).1,
                  none) := by
              rw [mutateItems_stable_iff, hmap]
              intro it hit
              obtain ⟨it0, hit0, rfl⟩ := List.mem_map.1 hit
              obtain ⟨L, rfl, hL⟩ := hPl it0 hit0
              obtain ⟨L', hL', hsucc⟩ := hall _ hit0
              cases hL'
              exact ⟨_, rfl, ih (q1 :: Q'') cP cQ L _ hd' hL (Prod.ext rfl hsucc)⟩
            rw [hgoal]
            exact ⟨rfl, rfl⟩
          | null => simp [stepAt] at hP
          | bool b => simp [stepAt] at hP
          | num n => simp [stepAt] at hP
          | str t => simp [stepAt] at hP
      · have hY : mapGet Y a = mapGet X a := by
          have := mutateField_other_keys X b Q' cQ [o.addMap] a hab
          rw [hQ] at this
          exact this
        cases hg : mapGet X a with
        | none =>
          have hcP := stable_absent o X a _ cP hg hP
          subst hcP
          exact mutateField_absent Y a P' _ (by rw [hY, hg])
        | some v =>
          rw [stable_present_iff o X a _ cP v hg] at hP
          rw [stable_present_iff o Y a _ cP v (by rw [hY, hg])]
          exact hP

/-- A mapping that a path config leaves as it is stays so after a successful call
with a path config whose path is the same or diverges. -/
theorem stable_preserved (o : MapTransformer) (hnd : (mapKeys o.m).Nodup)
    (P Q : List String) (cP cQ : Bool) (X Y : Fields) (hPQ : P = Q ∨ diverge P Q)
    (hP : mutateField X P cP [o.addMap] = (X, none))
    (hQ : mutateField X Q cQ [o.addMap] = (Y, none)) :
    mutateField Y P cP [o.addMap] = (Y, none) := by
  rcases hPQ with rfl | hd
  · cases cP with
    | false =>
      cases cQ with
      | false =>
        rw [hP] at hQ
        cases hQ
        exact hP
      | true =>
        have hs : (mutateField X P true [o.addMap]).2 = none := by rw [hQ]
        have h2 := mutateField_twice o hnd true P X hs
        rw [hQ] at h2
        exact stable_without_create o P Y h2
    | true =>
      cases cQ with
      | false =>
        rw [stable_without_create o P X hP] at hQ
        cases hQ
        exact hP
      | true =>
        rw [hP] at hQ
        cases hQ
        exact hP
  · exact stable_diverge o P Q cP cQ X Y hd hP hQ

theorem not_extends_cases (p : List String) :
    ∀ q, extendsPath p q = false → extendsPath q p = false → p = q ∨ diverge p q := by
  induction p with
  | nil =>
    intro q _ h2
    cases q with
    | nil => exact Or.inl rfl
    | cons b q => simp [extendsPath] at h2
  | cons a p ih =>
    intro q h1 h2
    cases q with
    | nil => simp [extendsPath] at h1
    | cons b q =>
      by_cases hab : a = b
      · subst hab
        simp only [extendsPath, decide_True, Bool.true_and] at h1 h2
        rcases ih q h1 h2 with rfl | hd
        · exact Or.inl rfl
        · exact Or.inr (Or.inr hd)
      · exact Or.inr (Or.inl hab)

theorem transformObject_cons_selected (o : MapTransformer) (gvk : GroupVersionKind)
    (pc : PathConfig) (rest : List PathConfig) (X : Fields)
    (hs : SelectByGVK gvk pc.GroupVersionKind = true) :
    transformObject o gvk X (pc :: rest) =
      match (mutateField X pc.Path pc.CreateIfNotPresent [o.addMap]).2 with
      | some err => ((mutateField X pc.Path pc.CreateIfNotPresent [o.addMap]).1, some err)
      | none =>
        transformObject o gvk (mutateField X pc.Path pc.CreateIfNotPresent [o.addMap]).1 rest := by
  simp only [transformObject, hs, Bool.not_true, Bool.false_eq_true, if_false]

theorem transformObject_settles (o : MapTransformer) (hnd : (mapKeys o.m).Nodup)
    (gvk : GroupVersionKind) (sel : List PathConfig) :
    ∀ (before : List PathConfig) (X : Fields),
      (∀ pc ∈ sel, SelectByGVK gvk pc.GroupVersionKind = true) →
      sel.Pairwise (fun p q => p.Path = q.Path ∨ diverge p.Path q.Path) →
      (∀ p ∈ before, ∀ q ∈ sel, p.Path = q.Path ∨ diverge p.Path q.Path) →
      (∀ p ∈ before, mutateField X p.Path p.CreateIfNotPresent [o.addMap] = (X, none)) →
      (transformObject o gvk X sel).2 = none →
      ∀ p ∈ before ++ sel,
        mutateField (transformObject o gvk X sel).1 p.Path p.CreateIfNotPresent [o.addMap] =
          ((transformObject o gvk X sel).1, none) := by
  induction sel with
  | nil =>
    intro before X _ _ _ hstab _ p hp
    rw [List.append_nil] at hp
    exact hstab p hp
  | cons q rest ih =>
    intro before X hsel hpair hcompat hstab hsucc p hp
    have hq : SelectByGVK gvk q.GroupVersionKind = true := hsel q (List.mem_cons_self _ _)
    rw [transformObject_cons_selected o gvk q rest X hq] at hsucc ⊢
    cases hr : (mutateField X q.Path q.CreateIfNotPresent [o.addMap]).2 with
    | some err =>
      rw [hr] at hsucc
      cases hsucc
    | none =>
      rw [hr] at hsucc
      simp only [hr] at hsucc ⊢
      have hstep : mutateField X q.Path q.CreateIfNotPresent [o.addMap] =
          ((mutateField X q.Path q.CreateIfNotPresent [o.addMap]).1, none) :=
        Prod.ext rfl hr
      have hqstab := mutateField_twice o hnd q.CreateIfNotPresent q.Path X hr
      rw [List.pairwise_cons] at hpair
      refine ih (before ++ [q]) _ (fun pc hpc => hsel pc (List.mem_cons_of_mem _ hpc))
        hpair.2 ?_ ?_ hsucc p ?_
      · intro p' hp' r hr'
        rcases List.mem_append.1 hp' with hp' | hp'
        · exact hcompat p' hp' r (List.mem_cons_of_mem _ hr')
        · rw [List.mem_singleton] at hp'
          subst hp'
          exact hpair.1 r hr'
      · intro p' hp'
        rcases List.mem_append.1 hp' with hp' | hp'
        · exact stable_preserved o hnd p'.Path q.Path _ _ X _
            (hcompat p' hp' q (List.mem_cons_self _ _)) (hstab p' hp') hstep
        · rw [List.mem_singleton] at hp'
          subst hp'
          exact hqstab
      · simpa [List.append_assoc] using hp

theorem transformObject_settled (o : MapTransformer) (gvk : GroupVersionKind)
    (sel : List PathConfig) (X : Fields)
    (hsel : ∀ pc ∈ sel, SelectByGVK gvk pc.GroupVersionKind = true)
    (hstab : ∀ p ∈ sel, mutateField X p.Path p.CreateIfNotPresent [o.addMap] = (X, none)) :
    transformObject o gvk X sel = (X, none) := by
  induction sel with
  | nil => rfl
  | cons q rest ih =>
    rw [transformObject_cons_selected o gvk q rest X (hsel q (List.mem_cons_self _ _)),
      hstab q (List.mem_cons_self _ _)]
    exact ih (fun pc hpc => hsel pc (List.mem_cons_of_mem _ hpc))
      (fun p hp => hstab p (List.mem_cons_of_mem _ hp))

theorem transformObject_twice (o : MapTransformer) (hnd : (mapKeys o.m).Nodup)
    (gvk : GroupVersionKind)
    (hpaths : (selectedConfigs o gvk).Pairwise
      (fun p q => extendsPath p.Path q.Path = false ∧ extendsPath q.Path p.Path = false))
    (objMap : Fields)
    (h : (transformObject o gvk objMap o.pathConfigs).2 = none) :
    transformObject o gvk (transformObject o gvk objMap o.pathConfigs).1 o.pathConfigs =
      ((transformObject o gvk objMap o.pathConfigs).1, none) := by
  rw [transformObject_selected o gvk o.pathConfigs] at h ⊢
  rw [transformObject_selected o gvk o.pathConfigs]
  have hsel : ∀ pc ∈ selectedConfigs o gvk, SelectByGVK gvk pc.GroupVersionKind = true :=
    fun pc hpc => (List.mem_filter.1 hpc).2
  have hpair : (selectedConfigs o gvk).Pairwise
      (fun p q => p.Path = q.Path ∨ diverge p.Path q.Path) :=
    hpaths.imp (fun hpq => not_extends_cases _ _ hpq.1 hpq.2)
  have hall := transformObject_settles o hnd gvk (selectedConfigs o gvk) [] objMap hsel hpair
    (fun _ hp => by cases hp) (fun _ hp => by cases hp) h
  exact transformObject_settled o gvk (selectedConfigs o gvk) _ hsel
    (fun p hp => hall p (by simpa using hp))

/-- C29, as stated, fails: with the two path configs of `exampleOverlap`, of which
the first path continues the second, Transform succeeds on a Deployment without
labels, and the second application fails on the label the first one added,
which it replaces by nil. -/
theorem Transform_twice_counterexample :
    (exampleOverlap.Transform [(exampleDeploymentKey "web", exampleDeployment "web")]).2
      = none ∧
    exampleOverlap.Transform
        (exampleOverlap.Transform
          [(exampleDeploymentKey "web", exampleDeployment "web")]).1 =
      ([(exampleDeploymentKey "web",
          { Object := [("apiVersion", Value.str "apps/v1"), ("kind", Value.str "Deployment"),
              ("metadata", Value.map [("name", Value.str "web"),
                ("labels", Value.map [("tier", Value.null)])])] })],
        some Error.expectedType) ∧
    extendsPath ["metadata", "labels", "tier"] ["metadata", "labels"] = true :=
  ⟨rfl, rfl, rfl⟩

/-- C29, amended: on a working set in which, among the path configs that select the
type coordinates of a key, no path continues another beyond its end (the pairs
of the transformer having distinct keys, as the keys of a map have), when
Transform succeeds, applying it a second time succeeds as well and leaves the
working set as it was after the first application. -/
theorem Transform_twice (o : MapTransformer) (ws : WorkingSet)
    (hnd : (mapKeys o.m).Nodup)
    (hpaths : ∀ e ∈ ws, (selectedConfigs o e.1.GVK).Pairwise
      (fun p q => extendsPath p.Path q.Path = false ∧ extendsPath q.Path p.Path = false))
    (hsucc : (o.Transform ws).2 = none) :
    o.Transform (o.Transform ws).1 = ((o.Transform ws).1, none) := by
  induction ws with
  | nil => rfl
  | cons e rest ih =>
    rcases e with ⟨gvkn, obj⟩
    have hobj := transformObject_twice o hnd gvkn.GVK (hpaths _ (List.mem_cons_self _ _))
      obj.Object
    cases hr : (transformObject o gvkn.GVK obj.Object o.pathConfigs).2 with
    | some err =>
      simp only [MapTransformer.Transform, hr] at hsucc
      cases hsucc
    | none =>
      simp only [MapTransformer.Transform, hr] at hsucc
      have h2 := ih (fun e he => hpaths e (List.mem_cons_of_mem _ he)) hsucc
      simp only [MapTransformer.Transform, hr, hobj hr, h2]

/-- Witness of C29: a transformer of labels with the diverging paths
`metadata/labels` and `spec/template/metadata/labels`, on a Deployment and a
Service. -/
theorem Transform_twice_witness :
    exampleDiverging.Transform
        (exampleDiverging.Transform
          [(exampleDeploymentKey "web", exampleDeployment "web"),
           (exampleServiceKey "web", exampleService "web")]).1 =
      ((exampleDiverging.Transform
          [(exampleDeploymentKey "web", exampleDeployment "web"),
           (exampleServiceKey "web", exampleService "web")]).1, none) :=
  Transform_twice exampleDiverging
    [(exampleDeploymentKey "web", exampleDeployment "web"),
     (exampleServiceKey "web", exampleService "web")]
    (by decide)
    (by
      intro e he
      simp only [List.mem_cons, List.mem_singleton, List.not_mem_nil, or_false] at he
      rcases he with rfl | rfl <;> decide)
    rfl

end Kinflate
